import Mathlib

/-! # xui-exporter: a shallow embedding of the refresh pipeline

The Go program scrapes subscription pages, extracts the usage record that each page
embeds, derives gauge values from it and publishes them as one snapshot.  This file
embeds the packages `internal/parse`, `internal/compute`, `internal/store`,
`internal/metrics`, `internal/config` and `internal/fetch`, and the per-target unit
`fetchAndProcess` and the cycle `refresh` of `cmd/xui-exporter`.

Conventions of the embedding:

* `int64` values are integers of `Int`; every `int64` operation of the source is
  followed by `wrapInt64`, Go's two's-complement wraparound.
* `float64` values are the type `F64`: the finite values are rationals, and every
  operation rounds its exact result to binary64 (53 significant bits, ties to even,
  gradual underflow, overflow to an infinity).
* A Go `map[string]T` is an association list with pairwise distinct keys (`AList`).
* A Go `string` is a sequence of Unicode characters (`String`), that is, valid UTF-8,
  on the way from the page to the store; the label values of the collector are
  sequences of bytes (`GoString`), which need not be valid UTF-8.
* A `time.Time` carries its wall clock and, when it has one, its reading of the
  monotonic clock.
* A panic is an error value; a run that has panicked executes no further statement.
* The network is a parameter of a fetch: an `Exchange` gives the times at which the
  response header and the end of the body arrive, counted from the start of the unit.
* The units of a cycle run one after the other, in the order in which they enter the
  section under the mutex; goroutines and locks are not part of the state.
* Log output is not part of the state.
-/

namespace XuiExporter

/-! ## Machine integers -/

/-- Smallest `int64`. -/
def minInt64 : Int := -(2 ^ 63)

/-- Largest `int64`. -/
def maxInt64 : Int := 2 ^ 63 - 1

/-- Membership in the range of `int64`. -/
def IsInt64 (x : Int) : Prop := minInt64 ≤ x ∧ x ≤ maxInt64

instance (x : Int) : Decidable (IsInt64 x) := by
  unfold IsInt64; exact inferInstance

/-- Two's-complement reduction of an exact integer result to `int64`. -/
def wrapInt64 (x : Int) : Int := (x + 2 ^ 63) % 2 ^ 64 - 2 ^ 63

/-! ## binary64 floating point -/

/-- The values of Go's `float64`.  Finite values are carried as the rational they
denote.  The sign of zero is not represented: the program compares with zero, which
does not distinguish the two zeros, and never divides by a zero. -/
inductive F64 where
  | fin (q : ℚ)
  | posInf
  | negInf
  | nan
deriving DecidableEq

namespace F64

/-- Nearest integer, ties to the even one. -/
def roundHalfEven (x : ℚ) : ℤ :=
  let f := ⌊x⌋
  let r := x - f
  if r < 1 / 2 then f
  else if 1 / 2 < r then f + 1
  else if f % 2 = 0 then f
  else f + 1

/-- Exponent of the unit in the last place of the binary64 nearest to the
magnitude `a`: 52 below the binary exponent of `a`, but never below the
subnormal spacing `2 ^ (-1074)`. -/
def ulpExp (a : ℚ) : ℤ := max (Int.log 2 a - 52) (-1074)

/-- The magnitude `a ≥ 0` rounded to 53 significant bits. -/
def roundMag (a : ℚ) : ℚ := (roundHalfEven (a / 2 ^ ulpExp a) : ℚ) * 2 ^ ulpExp a

/-- Rounding of an exact result to binary64, round-to-nearest-even. -/
def round (q : ℚ) : F64 :=
  if (2 : ℚ) ^ (1024 : ℕ) ≤ roundMag |q| then (if 0 ≤ q then posInf else negInf)
  else fin (if 0 ≤ q then roundMag |q| else -roundMag |q|)

/-- The conversion `float64(x)` of an `int64`. -/
def ofInt64 (x : Int) : F64 := round (x : ℚ)

/-- The constant zero, the zero value of a `float64` variable. -/
def zero : F64 := fin 0

/-- Division `x / y` of `float64`. -/
def div : F64 → F64 → F64
  | fin x, fin y =>
      if y = 0 then (if x = 0 then nan else if 0 < x then posInf else negInf)
      else round (x / y)
  | fin _, posInf => fin 0
  | fin _, negInf => fin 0
  | posInf, fin y => if 0 ≤ y then posInf else negInf
  | negInf, fin y => if 0 ≤ y then negInf else posInf
  | _, _ => nan

/-- Addition `x + y` of `float64`. -/
def add : F64 → F64 → F64
  | fin x, fin y => round (x + y)
  | fin _, posInf => posInf
  | fin _, negInf => negInf
  | posInf, fin _ => posInf
  | negInf, fin _ => negInf
  | posInf, posInf => posInf
  | negInf, negInf => negInf
  | _, _ => nan

/-- The comparison `x < y` of `float64`; false whenever an operand is NaN. -/
def lt : F64 → F64 → Bool
  | fin x, fin y => decide (x < y)
  | fin _, posInf => true
  | negInf, fin _ => true
  | negInf, posInf => true
  | _, _ => false

/-- The comparison `x > y`. -/
def gt (x y : F64) : Bool := lt y x

/-- A value that is neither an infinity nor NaN. -/
def isFinite : F64 → Bool
  | fin _ => true
  | _ => false

end F64

/-! ## Time -/

/-- A `time.Time`: the wall clock as seconds since the Unix epoch and nanoseconds
within the second, and the reading of the monotonic clock in nanoseconds, when the
time carries one.  Every result of `time.Now()` carries one; a time built from a
date, like the zero value, carries none. -/
structure Time where
  sec : Int
  nsec : Int
  mono : Option Int := none
deriving DecidableEq

/-- The method `Time.Unix`. -/
def Time.Unix (t : Time) : Int := t.sec

/-- Smallest `time.Duration`, in nanoseconds. -/
def minDuration : Int := minInt64

/-- Largest `time.Duration`, in nanoseconds. -/
def maxDuration : Int := maxInt64

/-- The function `subMono` of package `time`: the difference of two readings of the
monotonic clock, saturated to the range of `time.Duration`. -/
def subMono (t u : Int) : Int :=
  let d := wrapInt64 (t - u)
  if d < 0 ∧ t > u then maxDuration
  else if d > 0 ∧ t < u then minDuration
  else d

/-- The method `Time.Sub`: the duration `t - u` in nanoseconds, saturated to the
range of `time.Duration`.  When both times carry a reading of the monotonic clock
the readings alone are subtracted; otherwise the wall clocks are. -/
def Time.Sub (t u : Time) : Int :=
  match t.mono, u.mono with
  | some tm, some um => subMono tm um
  | _, _ =>
    let d := (t.sec - u.sec) * 1000000000 + (t.nsec - u.nsec)
    if d < minDuration then minDuration
    else if maxDuration < d then maxDuration
    else d

/-- The method `Time.Before`: whether `t` is before `u`, on the monotonic clock when
both times carry a reading, on the wall clock otherwise. -/
def Time.Before (t u : Time) : Bool :=
  match t.mono, u.mono with
  | some tm, some um => decide (tm < um)
  | _, _ => decide (t.sec < u.sec ∨ (t.sec = u.sec ∧ t.nsec < u.nsec))

/-- The method `Duration.Seconds`: whole seconds plus the fraction, each converted
separately. -/
def Duration.Seconds (d : Int) : F64 :=
  let sec := Int.tdiv d 1000000000
  let nsec := Int.tmod d 1000000000
  F64.add (F64.ofInt64 sec) (F64.div (F64.ofInt64 nsec) (F64.fin 1000000000))

/-! ## internal/parse: the record -/

/-- ParsedSubscription represents the raw data extracted from the subscription HTML. -/
structure ParsedSubscription where
  SID : String
  DownloadByte : Int
  UploadByte : Int
  TotalByte : Int
  Expire : Int
deriving DecidableEq

/-- All numeric fields are `int64` values. -/
def ParsedSubscription.WellTyped (p : ParsedSubscription) : Prop :=
  IsInt64 p.DownloadByte ∧ IsInt64 p.UploadByte ∧ IsInt64 p.TotalByte ∧ IsInt64 p.Expire

instance (p : ParsedSubscription) : Decidable p.WellTyped := by
  unfold ParsedSubscription.WellTyped; exact inferInstance

/-! ## internal/compute -/

/-- SubscriptionMetrics contains all computed metrics for a subscription. -/
structure SubscriptionMetrics where
  SID : String
  Up : Bool
  DownloadBytes : Int
  UploadBytes : Int
  QuotaBytes : Int
  ExpireTimestampSeconds : Int
  UsedBytes : Int
  RemainingBytes : Int
  UsedRatio : F64
  RemainingRatio : F64
  SecondsUntilExpire : Int
  DaysUntilExpire : F64
  Expired : Int
  DailyBudgetBytes : F64
  LastRefreshTimestampSeconds : F64
  RefreshDurationSeconds : F64
deriving DecidableEq

/-- Compute calculates all derived metrics from parsed subscription data.  `clock`
is the reading of the system clock that `time.Since(refreshStart)` takes. -/
def Compute (now : Time) (parsed : ParsedSubscription) (refreshStart : Time)
    (clock : Time) : SubscriptionMetrics :=
  let nowUnix := now.Unix
  let usedBytes := wrapInt64 (parsed.DownloadByte + parsed.UploadByte)
  let remainingBytes := wrapInt64 (parsed.TotalByte - usedBytes)
  let usedRatio :=
    if parsed.TotalByte > 0 then F64.div (F64.ofInt64 usedBytes) (F64.ofInt64 parsed.TotalByte)
    else F64.zero
  let remainingRatio :=
    if parsed.TotalByte > 0 then
      F64.div (F64.ofInt64 remainingBytes) (F64.ofInt64 parsed.TotalByte)
    else F64.zero
  let secondsUntilExpire := wrapInt64 (parsed.Expire - nowUnix)
  let daysUntilExpire := F64.div (F64.ofInt64 secondsUntilExpire) (F64.fin 86400)
  let expired : Int := if secondsUntilExpire ≤ 0 then 1 else 0
  let dailyBudgetBytes :=
    if F64.gt daysUntilExpire F64.zero && decide (remainingBytes > 0) then
      F64.div (F64.ofInt64 remainingBytes) daysUntilExpire
    else F64.zero
  let refreshDuration := Duration.Seconds (clock.Sub refreshStart)
  { SID := parsed.SID
    Up := true
    DownloadBytes := parsed.DownloadByte
    UploadBytes := parsed.UploadByte
    QuotaBytes := parsed.TotalByte
    ExpireTimestampSeconds := parsed.Expire
    UsedBytes := usedBytes
    RemainingBytes := remainingBytes
    UsedRatio := usedRatio
    RemainingRatio := remainingRatio
    SecondsUntilExpire := secondsUntilExpire
    DaysUntilExpire := daysUntilExpire
    Expired := expired
    DailyBudgetBytes := dailyBudgetBytes
    LastRefreshTimestampSeconds := F64.ofInt64 now.Unix
    RefreshDurationSeconds := refreshDuration }

/-- NewFailedMetrics creates a SubscriptionMetrics with up=0 for a failed
subscription.  `now` is the reading of the system clock that `time.Now()` takes. -/
def NewFailedMetrics (sid : String) (refreshStart : Time) (now : Time) :
    SubscriptionMetrics :=
  let refreshDuration := Duration.Seconds (now.Sub refreshStart)
  { SID := sid
    Up := false
    DownloadBytes := 0
    UploadBytes := 0
    QuotaBytes := 0
    ExpireTimestampSeconds := 0
    UsedBytes := 0
    RemainingBytes := 0
    UsedRatio := F64.zero
    RemainingRatio := F64.zero
    SecondsUntilExpire := 0
    DaysUntilExpire := F64.zero
    Expired := 0
    DailyBudgetBytes := F64.zero
    LastRefreshTimestampSeconds := F64.ofInt64 now.Unix
    RefreshDurationSeconds := refreshDuration }

/-! ## golang.org/x/net/html: the parsed document -/

/-- The node kinds of `html.NodeType`. -/
inductive NodeType where
  | ErrorNode | TextNode | DocumentNode | ElementNode | CommentNode | DoctypeNode | RawNode
deriving DecidableEq

/-- An `html.Attribute`. -/
structure Attribute where
  Namespace : String
  Key : String
  Val : String
deriving DecidableEq

/-- An `html.Node` with its children in sibling order (`FirstChild`, then
`NextSibling` repeatedly). -/
inductive Node where
  | mk (type : NodeType) (Data : String) (Attr : List Attribute) (children : List Node)

namespace Node

/-- The field `Type`. -/
def type : Node → NodeType
  | mk t _ _ _ => t

/-- The field `Data`. -/
def Data : Node → String
  | mk _ d _ _ => d

/-- The field `Attr`. -/
def Attr : Node → List Attribute
  | mk _ _ a _ => a

/-- The children, first to last. -/
def children : Node → List Node
  | mk _ _ _ cs => cs

end Node

/-- A Go `map[string]T`: at most one value per key. -/
abbrev GoMap (V : Type) := AList (fun _ : String => V)

/-- The assignment `m[k] = v`. -/
def GoMap.set {V : Type} (m : GoMap V) (k : String) (v : V) : GoMap V := AList.insert k v m

/-- The lookup `v, ok := m[k]`. -/
def GoMap.get {V : Type} (m : GoMap V) (k : String) : Option V := AList.lookup k m

/-! ## strconv.ParseInt -/

/-- The value of a decimal digit, `none` for any other character. -/
def digitVal (c : Char) : Option Nat :=
  if '0' ≤ c ∧ c ≤ '9' then some (c.toNat - '0'.toNat) else none

/-- The digit loop of `strconv.ParseUint` in base 10, without the range check. -/
def parseUintDigits : List Char → Nat → Option Nat
  | [], acc => some acc
  | c :: cs, acc =>
    match digitVal c with
    | none => none
    | some d => parseUintDigits cs (acc * 10 + d)

/-- The call `strconv.ParseInt(s, 10, 64)`: an optional sign, then at least one
decimal digit, and a value in the range of `int64`; `none` stands for the
syntax and range errors. -/
def strconvParseInt (s : String) : Option Int :=
  match s.data with
  | [] => none
  | c :: cs =>
    let neg := decide (c = '-')
    let ds := if c = '+' ∨ c = '-' then cs else c :: cs
    match ds with
    | [] => none
    | _ :: _ =>
      match parseUintDigits ds 0 with
      | none => none
      | some un =>
        if !neg && decide (2 ^ 63 ≤ un) then none
        else if neg && decide (2 ^ 63 < un) then none
        else some (if neg then -(un : Int) else (un : Int))

/-! ## internal/parse -/

/-- The causes for which one numeric attribute is refused. -/
inductive FieldError where
  | attributeNotFound (key : String)
  | invalidInteger
deriving DecidableEq

/-- The errors of `ParseSubscription`, one constructor per `fmt.Errorf` of the source. -/
inductive ParseError where
  | htmlParseFailed (cause : String)
  | templateNotFound
  | sidMissingOrEmpty
  | downloadByte (cause : FieldError)
  | uploadByte (cause : FieldError)
  | totalByte (cause : FieldError)
  | expire (cause : FieldError)
  | totalByteNotPositive (got : Int)
  | expireNotPositive (got : Int)
  | downloadByteNegative (got : Int)
  | uploadByteNegative (got : Int)
deriving DecidableEq

/-- The attribute loop of `findTemplateNode`: some attribute is `id="subscription-data"`. -/
def hasSubscriptionDataID : List Attribute → Bool
  | [] => false
  | attr :: rest =>
    if attr.Key = "id" ∧ attr.Val = "subscription-data" then true
    else hasSubscriptionDataID rest

mutual

/-- findTemplateNode recursively searches for template#subscription-data element. -/
def findTemplateNode : Node → Option Node
  | .mk t d attrs cs =>
    if t = NodeType.ElementNode ∧ d = "template" ∧ hasSubscriptionDataID attrs = true then
      some (.mk t d attrs cs)
    else findTemplateNodeIn cs

/-- The loop of `findTemplateNode` over the children, first to last. -/
def findTemplateNodeIn : List Node → Option Node
  | [] => none
  | c :: rest =>
    match findTemplateNode c with
    | some result => some result
    | none => findTemplateNodeIn rest

end

/-- extractAttributes extracts all attributes from a node into a map. -/
def extractAttributes (n : Node) : GoMap String :=
  n.Attr.foldl (fun attrs attr => attrs.set attr.Key attr.Val) ∅

/-- parsePositiveInt64 parses an int64 from the attributes map. -/
def parsePositiveInt64 (attrs : GoMap String) (key : String) : Except FieldError Int :=
  match attrs.get key with
  | none => .error (.attributeNotFound key)
  | some val =>
    match strconvParseInt val with
    | none => .error .invalidInteger
    | some parsed => .ok parsed

/-- The bytes of a fetched document. -/
abbrev Bytes := List (Fin 256)

/-- The signature of `html.Parse` applied to the bytes of a document. -/
abbrev HtmlParser := Bytes → Except String Node

/-- ParseSubscription parses the subscription HTML and extracts data from
template#subscription-data element's data-* attributes.  The HTML parser of
`golang.org/x/net/html` is the parameter `htmlParse`. -/
def ParseSubscription (htmlParse : HtmlParser) (htmlBytes : Bytes) :
    Except ParseError ParsedSubscription :=
  match htmlParse htmlBytes with
  | .error err => .error (.htmlParseFailed err)
  | .ok doc =>
    match findTemplateNode doc with
    | none => .error .templateNotFound
    | some templateNode =>
      let attrs := extractAttributes templateNode
      match attrs.get "data-sid" with
      | none => .error .sidMissingOrEmpty
      | some sid =>
        if sid = "" then .error .sidMissingOrEmpty
        else
          match parsePositiveInt64 attrs "data-downloadbyte" with
          | .error err => .error (.downloadByte err)
          | .ok downloadByte =>
            match parsePositiveInt64 attrs "data-uploadbyte" with
            | .error err => .error (.uploadByte err)
            | .ok uploadByte =>
              match parsePositiveInt64 attrs "data-totalbyte" with
              | .error err => .error (.totalByte err)
              | .ok totalByte =>
                match parsePositiveInt64 attrs "data-expire" with
                | .error err => .error (.expire err)
                | .ok expire =>
                  if totalByte ≤ 0 then .error (.totalByteNotPositive totalByte)
                  else if expire ≤ 0 then .error (.expireNotPositive expire)
                  else if downloadByte < 0 then .error (.downloadByteNegative downloadByte)
                  else if uploadByte < 0 then .error (.uploadByteNegative uploadByte)
                  else
                    .ok { SID := sid
                          DownloadByte := downloadByte
                          UploadByte := uploadByte
                          TotalByte := totalByte
                          Expire := expire }

/-! ## internal/store -/

/-- One result set: the records of a cycle, keyed by subscription id. -/
abbrev Snapshot := GoMap SubscriptionMetrics

/-- Store holds the current snapshot of subscription metrics. -/
structure Store where
  snapshot : Snapshot

/-- New creates a new Store with an empty snapshot. -/
def Store.New : Store := { snapshot := ∅ }

/-- The copy loop of `GetSnapshot`, visiting the entries in the order `order`. -/
def copyEntries (order : List (Sigma fun _ : String => SubscriptionMetrics)) : Snapshot :=
  order.foldl (fun snapshot kv => snapshot.set kv.1 kv.2) ∅

/-- GetSnapshot returns a copy of the current snapshot. -/
def Store.GetSnapshot (s : Store) : Snapshot := copyEntries s.snapshot.entries

/-- SetSnapshot atomically replaces the entire snapshot. -/
def Store.SetSnapshot (_s : Store) (newSnapshot : Snapshot) : Store :=
  { snapshot := newSnapshot }

/-! ## internal/metrics -/

/-- The metric descriptors of the collector, one per field of `Collector`. -/
inductive Desc where
  | up
  | downloadBytes
  | uploadBytes
  | quotaBytes
  | expireTimestampSeconds
  | usedBytes
  | remainingBytes
  | usedRatio
  | remainingRatio
  | secondsUntilExpire
  | daysUntilExpire
  | expired
  | dailyBudgetBytes
  | lastRefreshTimestampSeconds
  | refreshDurationSeconds
deriving DecidableEq

/-- A Go string: a sequence of bytes, which need not be valid UTF-8.  The label
values of the collector are Go strings. -/
abbrev GoString := List (Fin 256)

/-- A constant gauge sent on the channel of `Collect`: descriptor, value and the
values of its labels (the single label `sid`). -/
structure Metric where
  desc : Desc
  value : F64
  labels : List GoString
deriving DecidableEq

/-- The names of the variable labels of a descriptor: `NewCollector` gives every
descriptor the one label `sid`. -/
def Desc.variableLabels (_d : Desc) : List String := ["sid"]

/-- The scan of `utf8.ValidString` from a position of the string on: `pending` is the
number of continuation bytes that the sequence under way still needs, and `lo` and
`hi` bound the next of them.  A byte below `0x80` stands alone; the bytes `0xC2` to
`0xDF` open a sequence of two bytes, `0xE0` to `0xEF` one of three and `0xF0` to
`0xF4` one of four, with the narrowed range of the second byte after `0xE0`, `0xED`,
`0xF0` and `0xF4`; every other first byte, and a sequence cut short by the end of
the string, is invalid. -/
def utf8ValidFrom : List (Fin 256) → Nat → Nat → Nat → Bool
  | [], pending, _, _ => pending == 0
  | c :: rest, 0, _, _ =>
    if c.val < 0x80 then utf8ValidFrom rest 0 0 0
    else if 0xC2 ≤ c.val ∧ c.val ≤ 0xDF then utf8ValidFrom rest 1 0x80 0xBF
    else if c.val = 0xE0 then utf8ValidFrom rest 2 0xA0 0xBF
    else if 0xE1 ≤ c.val ∧ c.val ≤ 0xEC then utf8ValidFrom rest 2 0x80 0xBF
    else if c.val = 0xED then utf8ValidFrom rest 2 0x80 0x9F
    else if 0xEE ≤ c.val ∧ c.val ≤ 0xEF then utf8ValidFrom rest 2 0x80 0xBF
    else if c.val = 0xF0 then utf8ValidFrom rest 3 0x90 0xBF
    else if 0xF1 ≤ c.val ∧ c.val ≤ 0xF3 then utf8ValidFrom rest 3 0x80 0xBF
    else if c.val = 0xF4 then utf8ValidFrom rest 3 0x80 0x8F
    else false
  | c :: rest, pending + 1, lo, hi =>
    if lo ≤ c.val ∧ c.val ≤ hi then utf8ValidFrom rest pending 0x80 0xBF else false

/-- The function `utf8.ValidString`: whether a Go string consists entirely of valid
UTF-8-encoded runes. -/
def utf8ValidString (s : GoString) : Bool := utf8ValidFrom s 0 0 0

/-- The check `validateLabelValues` of `NewConstMetric`: the number of label values
is that of the labels of the descriptor, and every value is valid UTF-8. -/
def validateLabelValues (vals : List GoString) (expectedNumberOfValues : Nat) :
    Except String Unit :=
  if vals.length ≠ expectedNumberOfValues then .error "inconsistent label cardinality"
  else if vals.all utf8ValidString then .ok ()
  else .error "label value is not valid UTF-8"

/-- The call `prometheus.NewConstMetric(desc, prometheus.GaugeValue, value, labelValues...)`:
the gauge, or the error of `validateLabelValues`. -/
def NewConstMetric (desc : Desc) (value : F64) (labelValues : List GoString) :
    Except String Metric :=
  match validateLabelValues labelValues desc.variableLabels.length with
  | .error err => .error err
  | .ok _ => .ok { desc := desc, value := value, labels := labelValues }

/-- The call `prometheus.MustNewConstMetric(desc, prometheus.GaugeValue, value, labels...)`:
it panics where `NewConstMetric` returns an error; the panic is the error value. -/
def MustNewConstMetric (desc : Desc) (value : F64) (labels : List GoString) :
    Except String Metric :=
  match NewConstMetric desc value labels with
  | .error err => .error err
  | .ok m => .ok m

/-- boolToFloat64 converts a boolean to float64 (1.0 for true, 0.0 for false). -/
def boolToFloat64 (b : Bool) : F64 := if b then F64.fin 1 else F64.fin 0

/-- A run of `Collect` up to some statement: the gauges sent on the channel so far, in
order, and whether the run has ended in a panic. -/
structure Collected where
  sent : List Metric
  panicked : Bool
deriving DecidableEq

/-- The statement `ch <- prometheus.MustNewConstMetric(desc, prometheus.GaugeValue, value, labels...)`:
it sends the gauge, or ends the run in a panic; in a run that has ended in a panic no
statement is executed. -/
def Collected.send (ch : Collected) (desc : Desc) (value : F64) (labels : List GoString) :
    Collected :=
  if ch.panicked then ch
  else
    match MustNewConstMetric desc value labels with
    | .error _ => { sent := ch.sent, panicked := true }
    | .ok m => { sent := ch.sent ++ [m], panicked := false }

/-- The body of the loop of `Collect` for one entry of the snapshot. -/
def collectEntry (sid : GoString) (metrics : SubscriptionMetrics) (ch : Collected) :
    Collected :=
  let labels := [sid]
  let ch := ch.send .up (boolToFloat64 metrics.Up) labels
  let ch :=
    if F64.gt metrics.LastRefreshTimestampSeconds F64.zero then
      ch.send .lastRefreshTimestampSeconds metrics.LastRefreshTimestampSeconds labels
    else ch
  let ch :=
    if F64.gt metrics.RefreshDurationSeconds F64.zero then
      ch.send .refreshDurationSeconds metrics.RefreshDurationSeconds labels
    else ch
  if !metrics.Up then ch
  else
    let ch := ch.send .downloadBytes (F64.ofInt64 metrics.DownloadBytes) labels
    let ch := ch.send .uploadBytes (F64.ofInt64 metrics.UploadBytes) labels
    let ch := ch.send .quotaBytes (F64.ofInt64 metrics.QuotaBytes) labels
    let ch := ch.send .expireTimestampSeconds (F64.ofInt64 metrics.ExpireTimestampSeconds) labels
    let ch := ch.send .usedBytes (F64.ofInt64 metrics.UsedBytes) labels
    let ch := ch.send .remainingBytes (F64.ofInt64 metrics.RemainingBytes) labels
    let ch := ch.send .usedRatio metrics.UsedRatio labels
    let ch := ch.send .remainingRatio metrics.RemainingRatio labels
    let ch := ch.send .secondsUntilExpire (F64.ofInt64 metrics.SecondsUntilExpire) labels
    let ch := ch.send .daysUntilExpire metrics.DaysUntilExpire labels
    let ch := ch.send .expired (F64.ofInt64 metrics.Expired) labels
    ch.send .dailyBudgetBytes metrics.DailyBudgetBytes labels

/-- The snapshot that `Collect` obtains from `c.store.GetSnapshot()`, as Go holds it:
a map whose keys, the identifiers, are Go strings. -/
abbrev LabelSnapshot := AList (fun _ : GoString => SubscriptionMetrics)

/-- The loop of `Collect` over a snapshot whose entries are visited in the order `order`. -/
def collectEntries (order : List (Sigma fun _ : GoString => SubscriptionMetrics))
    (ch : Collected) : Collected :=
  order.foldl (fun ch kv => collectEntry kv.1 kv.2 ch) ch

/-- Collect implements prometheus.Collector: the run over the snapshot read from the
store, on a channel to which nothing has been sent yet. -/
def Collect (snapshot : LabelSnapshot) : Collected :=
  collectEntries snapshot.entries { sent := [], panicked := false }

/-! ## cmd/xui-exporter -/

/-- What one unit of work reads from outside the program: the outcome of
`fetch.GetHTML(ctx, url)` and the two readings of the system clock (`time.Now()`
of the unit, and the one inside `time.Since` of `Compute`). -/
structure UnitEnv where
  fetched : Except String Bytes
  now : Time
  clock : Time

/-- fetchAndProcess fetches a single target, parses it, and adds to snapshot.  The
accumulator is passed through; the section under the mutex is the single
assignment to it. -/
def fetchAndProcess (htmlParse : HtmlParser) (env : UnitEnv) (_url : String)
    (refreshStart : Time) (snapshot : Snapshot) : Snapshot :=
  match env.fetched with
  | .error _ => snapshot
  | .ok htmlBytes =>
    match ParseSubscription htmlParse htmlBytes with
    | .error _ => snapshot
    | .ok parsed =>
      let sid := parsed.SID
      if parsed.TotalByte = 0 then
        snapshot.set sid (NewFailedMetrics sid refreshStart env.now)
      else
        let now := env.now
        let metricsData := Compute now parsed refreshStart env.clock
        snapshot.set sid metricsData

/-- The accumulator after a sequence of writes `(sid, record)`, applied in the order
in which they enter the section under the mutex. -/
def applyWrites (writes : List (String × SubscriptionMetrics)) (snapshot : Snapshot) :
    Snapshot :=
  writes.foldl (fun acc w => acc.set w.1 w.2) snapshot

/-- The accumulator after the units of a cycle have run one after the other in the
order in which they enter the section under the mutex. -/
def runUnits (htmlParse : HtmlParser) (refreshStart : Time) (units : List (UnitEnv × String))
    (snapshot : Snapshot) : Snapshot :=
  units.foldl (fun acc unit => fetchAndProcess htmlParse unit.1 unit.2 refreshStart acc) snapshot

/-- The writes of one unit: what `fetchAndProcess` puts into an empty accumulator. -/
def unitWrites (htmlParse : HtmlParser) (refreshStart : Time) (unit : UnitEnv × String) :
    List (String × SubscriptionMetrics) :=
  (fetchAndProcess htmlParse unit.1 unit.2 refreshStart ∅).entries.map fun kv => (kv.1, kv.2)

/-- refresh fetches all targets concurrently and updates the store.  The units are
listed in the order in which they enter the section under the mutex; the store is
replaced once, after the last of them. -/
def refresh (htmlParse : HtmlParser) (refreshStart : Time) (units : List (UnitEnv × String))
    (st : Store) : Store :=
  st.SetSnapshot (runUnits htmlParse refreshStart units ∅)

/-! ## strings and unicode -/

/-- The predicate `unicode.IsSpace`: the six ASCII white-space characters, U+0085,
U+00A0 and the characters of the Unicode property White_Space beyond Latin-1. -/
def unicodeIsSpace (c : Char) : Bool :=
  decide (c.toNat = 0x09 ∨ c.toNat = 0x0A ∨ c.toNat = 0x0B ∨ c.toNat = 0x0C ∨ c.toNat = 0x0D ∨
    c.toNat = 0x20 ∨ c.toNat = 0x85 ∨ c.toNat = 0xA0 ∨ c.toNat = 0x1680 ∨
    (0x2000 ≤ c.toNat ∧ c.toNat ≤ 0x200A) ∨ c.toNat = 0x2028 ∨ c.toNat = 0x2029 ∨
    c.toNat = 0x202F ∨ c.toNat = 0x205F ∨ c.toNat = 0x3000)

/-- The characters of `strings.TrimSpace(s)`: the leading white space is dropped,
then the trailing white space. -/
def trimSpaceChars (s : List Char) : List Char :=
  ((s.dropWhile unicodeIsSpace).reverse.dropWhile unicodeIsSpace).reverse

/-- The call `strings.TrimSpace(s)`. -/
def stringsTrimSpace (s : String) : String := String.mk (trimSpaceChars s.data)

/-- The pieces of a sequence of characters between the occurrences of `sep`; one
piece more than there are occurrences. -/
def splitChars (sep : Char) : List Char → List (List Char)
  | [] => [[]]
  | c :: cs =>
    if c = sep then [] :: splitChars sep cs
    else
      match splitChars sep cs with
      | [] => [[c]]
      | piece :: rest => (c :: piece) :: rest

/-- The call `strings.Split(s, sep)` for a separator of one character. -/
def stringsSplit (s : String) (sep : Char) : List String :=
  (splitChars sep s.data).map String.mk

/-! ## internal/config -/

/-- The errors of `ParseTargetsFromEnv`, one constructor per `fmt.Errorf` of the source. -/
inductive ConfigError where
  | notSet
  | noValidURLs
deriving DecidableEq

/-- The loop of `ParseTargetsFromEnv` over the raw targets: each one is trimmed and
appended when something is left. -/
def collectTargets (rawTargets : List String) : List String :=
  rawTargets.foldl
    (fun targets target =>
      let trimmed := stringsTrimSpace target
      if trimmed ≠ "" then targets ++ [trimmed] else targets)
    []

/-- ParseTargetsFromEnv parses the XUI_EXPORTER_TARGETS environment variable and
returns a list of target URLs.  `env` is what `os.Getenv("XUI_EXPORTER_TARGETS")`
returns, the empty string when the variable is not set. -/
def ParseTargetsFromEnv (env : String) : Except ConfigError (List String) :=
  if env = "" then .error .notSet
  else
    let rawTargets := stringsSplit env ','
    let targets := collectTargets rawTargets
    if targets.length = 0 then .error .noValidURLs
    else .ok targets

/-! ## context, net/http and internal/fetch: the deadline of a unit -/

/-- The constant `time.Second`, in nanoseconds. -/
def Second : Int := 1000000000

/-- DefaultTimeout is the default HTTP request timeout. -/
def DefaultTimeout : Int := 10 * Second

/-- A `context.Context` as a request sees it: its deadline, in nanoseconds after the
start of the unit, or none for a context that is never done. -/
structure Context where
  deadline : Option Int
deriving DecidableEq

/-- The context `context.Background()`: never done. -/
def contextBackground : Context := { deadline := none }

/-- The context of `context.WithTimeout(parent, timeout)`, created at the start of
the unit: done after `timeout`, or at the deadline of `parent` when that is earlier. -/
def contextWithTimeout (parent : Context) (timeout : Int) : Context :=
  match parent.deadline with
  | some d => { deadline := some (min d timeout) }
  | none => { deadline := some timeout }

/-- An `http.Client`, of which the program sets the field `Timeout`. -/
structure Client where
  Timeout : Int
deriving DecidableEq

/-- The time at which a client gives up a request that starts with the unit
(`(*http.Client).deadline`): `Timeout` after the start, or never when `Timeout` is
not positive. -/
def Client.deadline (c : Client) : Option Int :=
  if 0 < c.Timeout then some c.Timeout else none

/-- The time at which a request of `client` under `ctx` is cancelled: the earlier of
the deadline of the client and that of the context of the request. -/
def requestDeadline (client : Client) (ctx : Context) : Option Int :=
  match client.deadline, ctx.deadline with
  | some a, some b => some (min a b)
  | some a, none => some a
  | none, some b => some b
  | none, none => none

/-- Whether a request of `client` under `ctx` has been cancelled at the time `t`. -/
def cancelledAt (client : Client) (ctx : Context) (t : Int) : Bool :=
  match requestDeadline client ctx with
  | some d => decide (d ≤ t)
  | none => false

/-- What the network and the server do with one GET request when nothing cuts it
short; the times are in nanoseconds after the start of the unit.  `requestError` is
the refusal of the URL by `http.NewRequestWithContext`, `transportError` a failure
before the response header, `headerTime` the arrival of the response header,
`readError` a failure while the body is read, `bodyTime` the arrival of the end of
the body. -/
structure Exchange where
  requestError : Option String
  transportError : Option String
  headerTime : Int
  StatusCode : Int
  readError : Option String
  bodyTime : Int
  body : Bytes

/-- The call `client.Do(req)` for a request under `ctx`: the status code of the
response, or an error when the transport fails or the request is cancelled before
the response header has arrived. -/
def Client.Do (client : Client) (ctx : Context) (exchange : Exchange) : Except String Int :=
  match exchange.transportError with
  | some err => .error err
  | none =>
    if cancelledAt client ctx exchange.headerTime then .error "context deadline exceeded"
    else .ok exchange.StatusCode

/-- The call `io.ReadAll(resp.Body)`: the body, or an error when the transfer fails
or the request is cancelled before the end of the body has arrived. -/
def readAllBody (client : Client) (ctx : Context) (exchange : Exchange) : Except String Bytes :=
  match exchange.readError with
  | some err => .error err
  | none =>
    if cancelledAt client ctx exchange.bodyTime then .error "context deadline exceeded"
    else .ok exchange.body

/-- GetHTML fetches HTML content from the given URL with a timeout.  Returns the HTML
bytes on success, or an error if the request fails or returns non-200 status. -/
def GetHTML (ctx : Context) (_url : String) (exchange : Exchange) : Except String Bytes :=
  let client : Client := { Timeout := DefaultTimeout }
  match exchange.requestError with
  | some err => .error ("failed to create request: " ++ err)
  | none =>
    match client.Do ctx exchange with
    | .error err => .error ("HTTP request failed: " ++ err)
    | .ok statusCode =>
      if statusCode ≠ 200 then
        .error ("HTTP status " ++ toString statusCode ++ " (expected 200)")
      else
        match readAllBody client ctx exchange with
        | .error err => .error ("failed to read response body: " ++ err)
        | .ok body => .ok body

/-- The timeout of the context that `fetchAndProcess` creates for its fetch,
`context.WithTimeout(context.Background(), 15*time.Second)`. -/
def fetchContextTimeout : Int := 15 * Second

/-- The first statements of `fetchAndProcess`: the context with its timeout, and the
call `fetch.GetHTML(ctx, url)`, whose outcome is the field `fetched` of the unit. -/
def fetchOutcome (url : String) (exchange : Exchange) : Except String Bytes :=
  let ctx := contextWithTimeout contextBackground fetchContextTimeout
  GetHTML ctx url exchange

/-! ## Notions used to state the properties -/

mutual

/-- The nodes of a document in document order: a node, then the subtrees of its
children from first to last. -/
def Node.preorder : Node → List Node
  | .mk t d attrs cs => .mk t d attrs cs :: preorderList cs

/-- The nodes of a list of subtrees in document order. -/
def preorderList : List Node → List Node
  | [] => []
  | c :: rest => c.preorder ++ preorderList rest

end

/-- A `template` element that has an attribute `id="subscription-data"`. -/
def isSubscriptionData (n : Node) : Bool :=
  decide (n.type = NodeType.ElementNode) && decide (n.Data = "template") &&
    n.Attr.any fun a => decide (a.Key = "id") && decide (a.Val = "subscription-data")

/-- The first subscription-data template of a document, in document order. -/
def firstSubscriptionData (doc : Node) : Option Node :=
  doc.preorder.find? isSubscriptionData

/-- The value that a list of attributes gives to `key`: that of the last attribute
with this key. -/
def attrValue : List Attribute → String → Option String
  | [], _ => none
  | a :: rest, key =>
    match attrValue rest key with
    | some v => some v
    | none => if a.Key = key then some a.Val else none

/-- The value that an element carries for the attribute `key`, if any. -/
def Node.attr (n : Node) (key : String) : Option String := attrValue n.Attr key

/-- The integer that an element carries for the attribute `key`: `none` when the
attribute is missing or is not a base-10 `int64`. -/
def Node.intAttr (n : Node) (key : String) : Option Int :=
  (n.attr key).bind strconvParseInt

/-- The documents that the claim about `ParseSubscription` lists as refused: no
subscription-data template, or on the first one a missing or empty `data-sid`, a
numeric attribute that is missing or not a base-10 `int64`, a quota or an expiry
that is not positive, or a negative counter. -/
def Rejected (doc : Node) : Prop :=
  match firstSubscriptionData doc with
  | none => True
  | some n =>
    n.attr "data-sid" = none ∨ n.attr "data-sid" = some "" ∨
    n.intAttr "data-downloadbyte" = none ∨ n.intAttr "data-uploadbyte" = none ∨
    n.intAttr "data-totalbyte" = none ∨ n.intAttr "data-expire" = none ∨
    (∃ t, n.intAttr "data-totalbyte" = some t ∧ t ≤ 0) ∨
    (∃ e, n.intAttr "data-expire" = some e ∧ e ≤ 0) ∨
    (∃ d, n.intAttr "data-downloadbyte" = some d ∧ d < 0) ∨
    (∃ u, n.intAttr "data-uploadbyte" = some u ∧ u < 0)

/-- The decimal rendering of an integer (`strconv.FormatInt(x, 10)`): a minus sign
for a negative value, then the digits without leading zeros. -/
def formatInt (x : Int) : String :=
  if x < 0 then String.mk ('-' :: Nat.toDigits 10 x.natAbs)
  else String.mk (Nat.toDigits 10 x.toNat)

/-- The record that a sequence of writes gives last for `sid`, if any. -/
def lastWrite (writes : List (String × SubscriptionMetrics)) (sid : String) :
    Option SubscriptionMetrics :=
  (writes.reverse.find? fun w => decide (w.1 = sid)).map fun w => w.2

/-- The identifier that a unit yields: that of the record to which its document is
parsed, when its fetch succeeds and `ParseSubscription` accepts the document. -/
def yieldedSID (htmlParse : HtmlParser) (unit : UnitEnv × String) : Option String :=
  match unit.1.fetched with
  | .error _ => none
  | .ok htmlBytes =>
    match ParseSubscription htmlParse htmlBytes with
    | .error _ => none
    | .ok parsed => some parsed.SID

/-- An element node without namespace. -/
def element (tag : String) (attrs : List Attribute) (children : List Node) : Node :=
  .mk NodeType.ElementNode tag attrs children

/-- An attribute without namespace. -/
def mkAttr (key val : String) : Attribute := { Namespace := "", Key := key, Val := val }

/-- The document of `TestParseSubscription_Success` as a tree. -/
def successDoc : Node :=
  .mk NodeType.DocumentNode "" []
    [element "html" []
      [element "head" [] [],
       element "body" []
        [element "template"
          [mkAttr "id" "subscription-data",
           mkAttr "data-sid" "uk2jf33cdnzjn2dg",
           mkAttr "data-downloadbyte" "6150124543",
           mkAttr "data-uploadbyte" "267143927",
           mkAttr "data-totalbyte" "536870912000",
           mkAttr "data-expire" "1769184000"] []]]]

/-- The document of `TestParseSubscription_ZeroQuota` as a tree. -/
def zeroQuotaDoc : Node :=
  .mk NodeType.DocumentNode "" []
    [element "html" []
      [element "head" [] [],
       element "body" []
        [element "template"
          [mkAttr "id" "subscription-data",
           mkAttr "data-sid" "test123",
           mkAttr "data-downloadbyte" "6150124543",
           mkAttr "data-uploadbyte" "267143927",
           mkAttr "data-totalbyte" "0",
           mkAttr "data-expire" "1769184000"] []]]]

/-- An HTML parser that yields the given tree for every input. -/
def parserOf (doc : Node) : HtmlParser := fun _ => .ok doc

/-! ## Sample inputs -/

/-- A record whose download and upload counters are both the largest `int64`, with a
quota of one byte, expiring one day after the epoch. -/
def overflowRecord : ParsedSubscription :=
  { SID := "s", DownloadByte := 9223372036854775807, UploadByte := 9223372036854775807,
    TotalByte := 1, Expire := 86400 }

/-- The Unix epoch. -/
def epoch : Time := { sec := 0, nsec := 0 }

/-- The record of `TestCompute_Success`: 100 GiB down, 20 GiB up, 500 GiB quota,
expiring 30 days after 2025-01-01. -/
def sampleRecord : ParsedSubscription :=
  { SID := "test123", DownloadByte := 107374182400, UploadByte := 21474836480,
    TotalByte := 536870912000, Expire := 1738281600 }

/-- The mock time of the tests, 2025-01-01 00:00:00 UTC. -/
def sampleNow : Time := { sec := 1735689600, nsec := 0 }

/-- A valid record (non-negative counters, positive quota, all `int64`) whose two
counters are each `2 ^ 62`. -/
def halfRangeRecord : ParsedSubscription :=
  { SID := "s", DownloadByte := 4611686018427387904, UploadByte := 4611686018427387904,
    TotalByte := 1, Expire := 1738281600 }

/-- A record whose expiry is the smallest `int64`. -/
def ancientRecord : ParsedSubscription :=
  { SID := "s", DownloadByte := 0, UploadByte := 0, TotalByte := 1,
    Expire := -9223372036854775808 }

/-- The template element of `successDoc`. -/
def successTemplate : Node :=
  element "template"
    [mkAttr "id" "subscription-data",
     mkAttr "data-sid" "uk2jf33cdnzjn2dg",
     mkAttr "data-downloadbyte" "6150124543",
     mkAttr "data-uploadbyte" "267143927",
     mkAttr "data-totalbyte" "536870912000",
     mkAttr "data-expire" "1769184000"] []

/-- The twelve raw and derived gauges: every gauge but `up` and the two
troubleshooting gauges. -/
def Desc.isRawOrDerived : Desc → Bool
  | .up => false
  | .lastRefreshTimestampSeconds => false
  | .refreshDurationSeconds => false
  | _ => true

/-- The value that a gauge shows for a record. -/
def gaugeValue : Desc → SubscriptionMetrics → F64
  | .up, m => boolToFloat64 m.Up
  | .downloadBytes, m => F64.ofInt64 m.DownloadBytes
  | .uploadBytes, m => F64.ofInt64 m.UploadBytes
  | .quotaBytes, m => F64.ofInt64 m.QuotaBytes
  | .expireTimestampSeconds, m => F64.ofInt64 m.ExpireTimestampSeconds
  | .usedBytes, m => F64.ofInt64 m.UsedBytes
  | .remainingBytes, m => F64.ofInt64 m.RemainingBytes
  | .usedRatio, m => m.UsedRatio
  | .remainingRatio, m => m.RemainingRatio
  | .secondsUntilExpire, m => F64.ofInt64 m.SecondsUntilExpire
  | .daysUntilExpire, m => m.DaysUntilExpire
  | .expired, m => F64.ofInt64 m.Expired
  | .dailyBudgetBytes, m => m.DailyBudgetBytes
  | .lastRefreshTimestampSeconds, m => m.LastRefreshTimestampSeconds
  | .refreshDurationSeconds, m => m.RefreshDurationSeconds

/-- The rule of export: `up` always, each troubleshooting gauge when its field is
positive, every other gauge when the record is up. -/
def shouldEmit : Desc → SubscriptionMetrics → Bool
  | .up, _ => true
  | .lastRefreshTimestampSeconds, m => F64.gt m.LastRefreshTimestampSeconds F64.zero
  | .refreshDurationSeconds, m => F64.gt m.RefreshDurationSeconds F64.zero
  | _, m => m.Up

/-- The descriptors in the order in which the body of the loop of `Collect` sends
their gauges. -/
def descsInOrder : List Desc :=
  [.up, .lastRefreshTimestampSeconds, .refreshDurationSeconds, .downloadBytes, .uploadBytes,
   .quotaBytes, .expireTimestampSeconds, .usedBytes, .remainingBytes, .usedRatio,
   .remainingRatio, .secondsUntilExpire, .daysUntilExpire, .expired, .dailyBudgetBytes]

/-- The gauges that the rule of export gives for the record `m` under the identifier
`sid`: for each descriptor that the rule admits, one gauge with the value of the field
and the label `sid`. -/
def entryGauges (sid : GoString) (m : SubscriptionMetrics) : List Metric :=
  (descsInOrder.filter fun d => shouldEmit d m).map fun d =>
    { desc := d, value := gaugeValue d m, labels := [sid] }

/-- The gauges of descriptor `d` that an output carries for the identifier `sid`. -/
def gaugesFor (out : List Metric) (d : Desc) (sid : GoString) : List Metric :=
  out.filter fun x => decide (x.desc = d ∧ x.labels = [sid])

/-- A record of the Down variant for `failed123`. -/
def downRecord : SubscriptionMetrics := NewFailedMetrics "failed123" epoch sampleNow

/-- The identifier `failed123` as a Go string. -/
def failedSID : GoString := [0x66, 0x61, 0x69, 0x6c, 0x65, 0x64, 0x31, 0x32, 0x33]

/-- A snapshot that holds the single record `downRecord`. -/
def downSnapshot : LabelSnapshot := AList.insert failedSID downRecord ∅

/-- The Go string `"a\xffb"`, the value of a `data-sid` attribute that holds the byte
`0xff`: it is not valid UTF-8. -/
def invalidSID : GoString := [0x61, 0xff, 0x62]

/-- A string that starts with a white-space character. -/
def hasLeadingSpace (s : String) : Prop :=
  ∃ c, s.data.head? = some c ∧ unicodeIsSpace c = true

/-- A string that ends with a white-space character. -/
def hasTrailingSpace (s : String) : Prop :=
  ∃ c, s.data.getLast? = some c ∧ unicodeIsSpace c = true

/-- The effective limit on one fetch: the smallest of the limits that the context
of `fetchAndProcess` and the HTTP client of `GetHTML` place on the request. -/
def effectiveFetchLimit : Option Int :=
  requestDeadline { Timeout := DefaultTimeout }
    (contextWithTimeout contextBackground fetchContextTimeout)

/-- An exchange that no failure of its own disturbs: the URL is accepted, the
transport delivers the response header and then the body, and the status is 200. -/
def Exchange.Sound (exchange : Exchange) : Prop :=
  exchange.requestError = none ∧ exchange.transportError = none ∧
  exchange.readError = none ∧ exchange.StatusCode = 200 ∧
  exchange.headerTime ≤ exchange.bodyTime

instance (exchange : Exchange) : Decidable exchange.Sound := by
  unfold Exchange.Sound; exact inferInstance

/-- A server that answers at once with status 200 and takes twelve seconds to
deliver the body. -/
def slowExchange : Exchange :=
  { requestError := none, transportError := none, headerTime := 1 * Second,
    StatusCode := 200, readError := none, bodyTime := 12 * Second, body := [] }

/-- A server that answers at once with status 200 and takes nine seconds to deliver
the body. -/
def nineSecondExchange : Exchange :=
  { requestError := none, transportError := none, headerTime := 1 * Second,
    StatusCode := 200, readError := none, bodyTime := 9 * Second, body := [] }

/-- The nanoseconds of a `time.Time` lie within one second. -/
def Time.WellFormed (t : Time) : Prop := 0 ≤ t.nsec ∧ t.nsec < 1000000000

instance (t : Time) : Decidable t.WellFormed := by
  unfold Time.WellFormed; exact inferInstance

/-- The exact time from `u` to `t` in nanoseconds, on the clock that Go uses for the
two times: the monotonic clock when both carry a reading, the wall clock otherwise. -/
def Time.elapsedSince (t u : Time) : Int :=
  match t.mono, u.mono with
  | some tm, some um => tm - um
  | _, _ => (t.sec - u.sec) * 1000000000 + (t.nsec - u.nsec)

/-- The zero value of `time.Time`, January 1 of year 1, 00:00:00 UTC; it carries no
reading of the monotonic clock. -/
def zeroTime : Time := { sec := -62135596800, nsec := 0 }

/-- A reading of `time.Now()` at 2025-01-01 00:00:00 UTC, five seconds after the
start of the process. -/
def clockNow : Time := { sec := 1735689600, nsec := 0, mono := some 5000000000 }

/-- A reading of `time.Now()` one second after `clockNow` on the monotonic clock,
while the wall clock has been set back by ten seconds. -/
def clockAfterStepBack : Time := { sec := 1735689591, nsec := 0, mono := some 6000000000 }

/-- A unit whose fetch fails. -/
def failedUnit : UnitEnv × String :=
  ({ fetched := .error "connection refused", now := sampleNow, clock := sampleNow }, "target")

/-- A unit whose fetch succeeds and that enters the section under the mutex at
`clockNow`. -/
def earlyUnit : UnitEnv × String :=
  ({ fetched := .ok [], now := clockNow, clock := clockNow }, "http://a.example/sub/x")

/-- A unit whose fetch succeeds and that enters the section under the mutex one
second after `clockNow`. -/
def lateUnit : UnitEnv × String :=
  ({ fetched := .ok [], now := { sec := 1735689601, nsec := 0, mono := some 6000000000 },
     clock := { sec := 1735689601, nsec := 0, mono := some 6000000000 } },
   "http://b.example/sub/x")

/-- The `refreshStart` of `TestNewFailedMetrics`, `clockNow.Add(-3 * time.Second)`:
three seconds before `clockNow` on both clocks. -/
def threeSecondsEarlier : Time :=
  { sec := 1735689597, nsec := 0, mono := some 2000000000 }

/-! # Properties -/

/-! ## Rounding to binary64 -/

namespace F64

theorem floor_le_roundHalfEven (x : ℚ) : ⌊x⌋ ≤ roundHalfEven x := by
  unfold roundHalfEven
  simp only
  split_ifs <;> omega

theorem roundHalfEven_le_ceil (x : ℚ) : roundHalfEven x ≤ ⌈x⌉ := by
  unfold roundHalfEven
  simp only
  have hfl : (⌊x⌋ : ℚ) ≤ x := Int.floor_le x
  split_ifs with h1 h2 h3
  · exact Int.floor_le_ceil x
  · have hlt : (⌊x⌋ : ℚ) < x := by linarith
    have : ⌊x⌋ < ⌈x⌉ := by
      have := Int.le_ceil x
      exact_mod_cast lt_of_lt_of_le hlt this
    omega
  · exact Int.floor_le_ceil x
  · have hlt : (⌊x⌋ : ℚ) < x := by
      have : x - ⌊x⌋ = 1 / 2 := le_antisymm (not_lt.mp h2) (not_lt.mp h1)
      linarith
    have : ⌊x⌋ < ⌈x⌉ := by
      have := Int.le_ceil x
      exact_mod_cast lt_of_lt_of_le hlt this
    omega

theorem roundHalfEven_intCast (z : ℤ) : roundHalfEven (z : ℚ) = z := by
  apply le_antisymm
  · simpa using roundHalfEven_le_ceil (z : ℚ)
  · simpa using floor_le_roundHalfEven (z : ℚ)

theorem two_zpow_pos (e : ℤ) : (0 : ℚ) < 2 ^ e := zpow_pos (by norm_num) e

theorem two_zpow_mono {m n : ℤ} (h : m ≤ n) : (2 : ℚ) ^ m ≤ 2 ^ n :=
  zpow_le_zpow_right₀ (by norm_num) h

theorem log_le_of_le_two_zpow {a : ℚ} {k : ℤ} (ha : 0 < a) (h : a ≤ 2 ^ k) :
    Int.log 2 a ≤ k := by
  have h1 : a < ((2 : ℕ) : ℚ) ^ (k + 1) := by
    have : (2 : ℚ) ^ k < 2 ^ (k + 1) := zpow_lt_zpow_right₀ (by norm_num) (by omega)
    have h2 : ((2 : ℕ) : ℚ) = 2 := by norm_num
    rw [h2]; exact lt_of_le_of_lt h this
  have := (Int.lt_zpow_iff_log_lt (b := 2) (by norm_num) ha).mp h1
  omega

theorem le_log_of_two_zpow_le {a : ℚ} {k : ℤ} (ha : 0 < a) (h : 2 ^ k ≤ a) :
    k ≤ Int.log 2 a := by
  have h2 : ((2 : ℕ) : ℚ) = 2 := by norm_num
  exact (Int.zpow_le_iff_le_log (b := 2) (by norm_num) ha).mp (by rw [h2]; exact h)

theorem two_zpow_log_le {a : ℚ} (ha : 0 < a) : (2 : ℚ) ^ Int.log 2 a ≤ a := by
  have h2 : ((2 : ℕ) : ℚ) = 2 := by norm_num
  have := Int.zpow_log_le_self (b := 2) (r := a) (by norm_num) ha
  rwa [h2] at this

/-- A power of two with a non-negative exponent is an integer. -/
theorem two_zpow_eq_intCast {n : ℤ} (hn : 0 ≤ n) : (2 : ℚ) ^ n = ((2 ^ n.toNat : ℤ) : ℚ) := by
  obtain ⟨m, rfl⟩ := Int.eq_ofNat_of_zero_le hn
  simp

theorem roundMag_zero : roundMag 0 = 0 := by
  unfold roundMag
  simp [roundHalfEven]

theorem roundMag_nonneg {a : ℚ} (ha : 0 ≤ a) : 0 ≤ roundMag a := by
  unfold roundMag
  have hp := two_zpow_pos (ulpExp a)
  have hx : (0 : ℚ) ≤ a / 2 ^ ulpExp a := div_nonneg ha hp.le
  have h0 : (0 : ℤ) ≤ ⌊a / 2 ^ ulpExp a⌋ := Int.floor_nonneg.mpr hx
  have h1 := floor_le_roundHalfEven (a / 2 ^ ulpExp a)
  have h2 : (0 : ℚ) ≤ (roundHalfEven (a / 2 ^ ulpExp a) : ℚ) := by exact_mod_cast le_trans h0 h1
  exact mul_nonneg h2 hp.le

/-- Rounding never crosses a representable power of two from above. -/
theorem le_roundMag {a : ℚ} {k : ℤ} (hk : -1074 ≤ k) (h : 2 ^ k ≤ a) : 2 ^ k ≤ roundMag a := by
  have ha : 0 < a := lt_of_lt_of_le (two_zpow_pos k) h
  have hkL : k ≤ Int.log 2 a := le_log_of_two_zpow_le ha h
  have heL : ulpExp a ≤ Int.log 2 a := by unfold ulpExp; omega
  have hp := two_zpow_pos (ulpExp a)
  have hn : 0 ≤ Int.log 2 a - ulpExp a := by omega
  have hx : (2 : ℚ) ^ (Int.log 2 a - ulpExp a) ≤ a / 2 ^ ulpExp a := by
    rw [zpow_sub₀ (by norm_num)]
    exact div_le_div_of_nonneg_right (two_zpow_log_le ha) hp.le
  rw [two_zpow_eq_intCast hn] at hx
  have h1 : (2 ^ (Int.log 2 a - ulpExp a).toNat : ℤ) ≤ roundHalfEven (a / 2 ^ ulpExp a) :=
    le_trans (Int.le_floor.mpr hx) (floor_le_roundHalfEven _)
  have h2 : (2 : ℚ) ^ (Int.log 2 a - ulpExp a) ≤ (roundHalfEven (a / 2 ^ ulpExp a) : ℚ) := by
    rw [two_zpow_eq_intCast hn]; exact_mod_cast h1
  calc (2 : ℚ) ^ k ≤ 2 ^ Int.log 2 a := two_zpow_mono hkL
    _ = 2 ^ (Int.log 2 a - ulpExp a) * 2 ^ ulpExp a := by
        rw [← zpow_add₀ (by norm_num)]; congr 1; omega
    _ ≤ roundMag a := by
        unfold roundMag
        exact mul_le_mul_of_nonneg_right h2 hp.le

/-- Rounding never crosses a representable power of two from below. -/
theorem roundMag_le {a : ℚ} {k : ℤ} (hk : -1074 ≤ k) (ha : 0 ≤ a) (h : a ≤ 2 ^ k) :
    roundMag a ≤ 2 ^ k := by
  rcases eq_or_lt_of_le ha with h0 | hpos
  · rw [← h0, roundMag_zero]; exact (two_zpow_pos k).le
  have hLk : Int.log 2 a ≤ k := log_le_of_le_two_zpow hpos h
  have hek : ulpExp a ≤ k := by unfold ulpExp; omega
  have hp := two_zpow_pos (ulpExp a)
  have hn : 0 ≤ k - ulpExp a := by omega
  have hx : a / 2 ^ ulpExp a ≤ (2 : ℚ) ^ (k - ulpExp a) := by
    rw [zpow_sub₀ (by norm_num)]
    exact div_le_div_of_nonneg_right h hp.le
  rw [two_zpow_eq_intCast hn] at hx
  have h1 : roundHalfEven (a / 2 ^ ulpExp a) ≤ (2 ^ (k - ulpExp a).toNat : ℤ) :=
    le_trans (roundHalfEven_le_ceil _) (Int.ceil_le.mpr hx)
  have h2 : (roundHalfEven (a / 2 ^ ulpExp a) : ℚ) ≤ (2 : ℚ) ^ (k - ulpExp a) := by
    rw [two_zpow_eq_intCast hn]; exact_mod_cast h1
  calc roundMag a ≤ 2 ^ (k - ulpExp a) * 2 ^ ulpExp a := by
        unfold roundMag
        exact mul_le_mul_of_nonneg_right h2 hp.le
    _ = 2 ^ k := by
        rw [← zpow_add₀ (by norm_num)]; congr 1; omega

end F64

theorem wrapInt64_of_isInt64 {x : Int} (h : IsInt64 x) : wrapInt64 x = x := by
  unfold IsInt64 minInt64 maxInt64 at h
  unfold wrapInt64
  omega

theorem isInt64_wrapInt64 (x : Int) : IsInt64 (wrapInt64 x) := by
  unfold IsInt64 minInt64 maxInt64 wrapInt64
  omega

namespace F64

theorem two_pow_1024_eq : (2 : ℚ) ^ (1024 : ℕ) = 2 ^ (1024 : ℤ) := by
  rw [← zpow_natCast]; rfl

/-- A positive exact result between two representable powers of two rounds to a
finite value between them. -/
theorem round_of_pos {q : ℚ} {j k : ℤ} (hj : -1074 ≤ j) (hk : k < 1024)
    (h1 : 2 ^ j ≤ q) (h2 : q ≤ 2 ^ k) :
    ∃ y, round q = fin y ∧ 2 ^ j ≤ y ∧ y ≤ 2 ^ k := by
  have hq : 0 < q := lt_of_lt_of_le (two_zpow_pos j) h1
  have hjk : j ≤ k := by
    by_contra hlt
    have : (2 : ℚ) ^ k < 2 ^ j := zpow_lt_zpow_right₀ (by norm_num) (by omega)
    linarith
  have habs : |q| = q := abs_of_pos hq
  have hup : roundMag q ≤ 2 ^ k := roundMag_le (by omega) hq.le h2
  have hlt : ¬ ((2 : ℚ) ^ (1024 : ℕ) ≤ roundMag q) := by
    rw [two_pow_1024_eq]
    have : (2 : ℚ) ^ k < 2 ^ (1024 : ℤ) := zpow_lt_zpow_right₀ (by norm_num) hk
    intro hc; linarith
  refine ⟨roundMag q, ?_, le_roundMag hj h1, hup⟩
  unfold round
  rw [habs, if_neg hlt, if_pos hq.le]

/-- A non-positive exact result above the negative of a representable power of two
rounds to a finite non-positive value above it. -/
theorem round_of_nonpos {q : ℚ} {k : ℤ} (hk1 : -1074 ≤ k) (hk : k < 1024)
    (h1 : q ≤ 0) (h2 : -(2 ^ k) ≤ q) :
    ∃ y, round q = fin y ∧ y ≤ 0 ∧ -(2 ^ k) ≤ y := by
  have habs : |q| = -q := abs_of_nonpos h1
  have hup : roundMag (-q) ≤ 2 ^ k := roundMag_le hk1 (by linarith) (by linarith)
  have hnn : 0 ≤ roundMag (-q) := roundMag_nonneg (by linarith)
  have hlt : ¬ ((2 : ℚ) ^ (1024 : ℕ) ≤ roundMag (-q)) := by
    rw [two_pow_1024_eq]
    have : (2 : ℚ) ^ k < 2 ^ (1024 : ℤ) := zpow_lt_zpow_right₀ (by norm_num) hk
    intro hc; linarith
  rcases eq_or_lt_of_le h1 with h0 | hneg
  · refine ⟨0, ?_, le_refl _, by linarith [two_zpow_pos k]⟩
    subst h0
    unfold round
    simp [roundMag_zero]
  · refine ⟨-roundMag (-q), ?_, by linarith, by linarith⟩
    unfold round
    rw [habs, if_neg hlt, if_neg (not_le.mpr hneg)]

/-- Integers below `2 ^ 53` in magnitude are representable: the magnitude is not
changed by rounding. -/
theorem roundMag_natCast {n : ℕ} (h : n < 2 ^ 53) : roundMag (n : ℚ) = n := by
  rcases Nat.eq_zero_or_pos n with h0 | hpos
  · subst h0; simpa using roundMag_zero
  have hq : (0 : ℚ) < n := by exact_mod_cast hpos
  have hL : Int.log 2 (n : ℚ) < 53 := by
    have h2 : ((2 : ℕ) : ℚ) = 2 := by norm_num
    apply (Int.lt_zpow_iff_log_lt (b := 2) (by norm_num) hq).mp
    rw [h2]
    have : ((n : ℚ)) < ((2 ^ 53 : ℕ) : ℚ) := by exact_mod_cast h
    calc (n : ℚ) < ((2 ^ 53 : ℕ) : ℚ) := this
      _ = (2 : ℚ) ^ (53 : ℤ) := by norm_num
  have hL0 : 0 ≤ Int.log 2 (n : ℚ) := by
    apply le_log_of_two_zpow_le hq
    have : (1 : ℚ) ≤ n := by exact_mod_cast hpos
    simpa using this
  have he : ulpExp (n : ℚ) ≤ 0 := by unfold ulpExp; omega
  obtain ⟨m, hm⟩ : ∃ m : ℕ, ulpExp (n : ℚ) = -(m : ℤ) :=
    ⟨(-ulpExp (n : ℚ)).toNat, by omega⟩
  unfold roundMag
  rw [hm]
  have hx : (n : ℚ) / 2 ^ (-(m : ℤ)) = (((n * 2 ^ m : ℕ) : ℤ) : ℚ) := by
    rw [zpow_neg, zpow_natCast]
    push_cast
    field_simp
  rw [hx, roundHalfEven_intCast, zpow_neg, zpow_natCast]
  push_cast
  field_simp

/-- Integers below `2 ^ 53` in magnitude convert exactly. -/
theorem round_intCast {z : ℤ} (h : |z| < 2 ^ 53) : round (z : ℚ) = fin z := by
  have habs : |(z : ℚ)| = ((z.natAbs : ℕ) : ℚ) := by
    rw [← Int.cast_abs, Int.abs_eq_natAbs, Int.cast_natCast]
  have hn : z.natAbs < 2 ^ 53 := by
    have := Int.abs_eq_natAbs z
    omega
  have hlt : ¬ ((2 : ℚ) ^ (1024 : ℕ) ≤ ((z.natAbs : ℕ) : ℚ)) := by
    have h1 : ((z.natAbs : ℕ) : ℚ) < ((2 ^ 53 : ℕ) : ℚ) := by exact_mod_cast hn
    have h2 : ((2 ^ 53 : ℕ) : ℚ) ≤ (2 : ℚ) ^ (1024 : ℕ) := by norm_num
    intro hc; linarith
  unfold round
  rw [habs, roundMag_natCast hn, if_neg hlt]
  congr 1
  split_ifs with h0
  · have h0z : 0 ≤ z := by exact_mod_cast h0
    have : ((z.natAbs : ℕ) : ℤ) = z := Int.natAbs_of_nonneg h0z
    have h3 : (((z.natAbs : ℕ) : ℤ) : ℚ) = (z : ℚ) := by rw [this]
    rw [Int.cast_natCast] at h3
    exact h3
  · have h0z : z < 0 := by
      by_contra hc
      exact h0 (by exact_mod_cast (not_lt.mp hc))
    have : ((z.natAbs : ℕ) : ℤ) = -z := by omega
    have h3 : (((z.natAbs : ℕ) : ℤ) : ℚ) = ((-z : ℤ) : ℚ) := by rw [this]
    rw [Int.cast_natCast, Int.cast_neg] at h3
    linarith

theorem ofInt64_of_small {z : ℤ} (h : |z| < 2 ^ 53) : ofInt64 z = fin z := round_intCast h

/-- A positive `int64` converts to a finite value that is at least one. -/
theorem ofInt64_of_pos {x : Int} (h0 : 0 < x) (h : IsInt64 x) :
    ∃ y, ofInt64 x = fin y ∧ 1 ≤ y ∧ y ≤ 2 ^ (63 : ℤ) := by
  have h1 : (2 : ℚ) ^ (0 : ℤ) ≤ (x : ℚ) := by
    have : (1 : ℚ) ≤ x := by exact_mod_cast h0
    simpa using this
  have h2 : (x : ℚ) ≤ 2 ^ (63 : ℤ) := by
    unfold IsInt64 maxInt64 at h
    have : x ≤ 2 ^ 63 := by omega
    have h3 : (x : ℚ) ≤ ((2 ^ 63 : ℤ) : ℚ) := by exact_mod_cast this
    calc (x : ℚ) ≤ ((2 ^ 63 : ℤ) : ℚ) := h3
      _ = 2 ^ (63 : ℤ) := by norm_num
  obtain ⟨y, hy, hy1, hy2⟩ := round_of_pos (j := 0) (k := 63) (by norm_num) (by norm_num) h1 h2
  exact ⟨y, hy, by simpa using hy1, hy2⟩

/-- A non-positive `int64` converts to a finite value that is not positive. -/
theorem ofInt64_of_nonpos {x : Int} (h0 : x ≤ 0) (h : IsInt64 x) :
    ∃ y, ofInt64 x = fin y ∧ y ≤ 0 ∧ -(2 ^ (63 : ℤ)) ≤ y := by
  have h1 : (x : ℚ) ≤ 0 := by exact_mod_cast h0
  have h2 : -(2 ^ (63 : ℤ)) ≤ (x : ℚ) := by
    unfold IsInt64 minInt64 at h
    have : -(2 ^ 63) ≤ x := h.1
    have h3 : ((-(2 ^ 63) : ℤ) : ℚ) ≤ (x : ℚ) := by exact_mod_cast this
    calc -(2 ^ (63 : ℤ)) = ((-(2 ^ 63) : ℤ) : ℚ) := by norm_num
      _ ≤ (x : ℚ) := h3
  exact round_of_nonpos (k := 63) (by norm_num) (by norm_num) h1 h2

/-- Every `int64` converts to a finite value. -/
theorem ofInt64_isFinite {x : Int} (h : IsInt64 x) : ∃ y, ofInt64 x = fin y := by
  rcases lt_or_le 0 x with h0 | h0
  · obtain ⟨y, hy, _⟩ := ofInt64_of_pos h0 h; exact ⟨y, hy⟩
  · obtain ⟨y, hy, _⟩ := ofInt64_of_nonpos h0 h; exact ⟨y, hy⟩

end F64

namespace F64

/-- An exact result of magnitude at most a representable power of two rounds to a
finite value. -/
theorem round_isFinite {q : ℚ} {k : ℤ} (hk1 : -1074 ≤ k) (hk : k < 1024)
    (h : |q| ≤ 2 ^ k) : ∃ y, round q = fin y := by
  have hup : roundMag |q| ≤ 2 ^ k := roundMag_le hk1 (abs_nonneg q) h
  have hlt : ¬ ((2 : ℚ) ^ (1024 : ℕ) ≤ roundMag |q|) := by
    rw [two_pow_1024_eq]
    have : (2 : ℚ) ^ k < 2 ^ (1024 : ℤ) := zpow_lt_zpow_right₀ (by norm_num) hk
    intro hc; linarith
  unfold round
  rw [if_neg hlt]
  exact ⟨_, rfl⟩

/-- The value of `daysUntilExpire` for a positive number of seconds. -/
theorem days_of_pos {s : Int} (h0 : 0 < s) (h : IsInt64 s) :
    ∃ y, div (ofInt64 s) (fin 86400) = fin y ∧ 2 ^ (-17 : ℤ) ≤ y ∧ y ≤ 2 ^ (63 : ℤ) := by
  obtain ⟨v, hv, hv1, hv2⟩ := ofInt64_of_pos h0 h
  have hne : (86400 : ℚ) ≠ 0 := by norm_num
  have hlo : (2 : ℚ) ^ (-17 : ℤ) ≤ v / 86400 := by
    rw [le_div_iff₀ (by norm_num)]
    have : (2 : ℚ) ^ (-17 : ℤ) * 86400 ≤ 1 := by norm_num
    linarith
  have hhi : v / 86400 ≤ 2 ^ (63 : ℤ) := by
    rw [div_le_iff₀ (by norm_num)]
    have : (0 : ℚ) ≤ 2 ^ (63 : ℤ) := (two_zpow_pos 63).le
    linarith
  obtain ⟨y, hy, hy1, hy2⟩ := round_of_pos (j := -17) (k := 63) (by norm_num) (by norm_num) hlo hhi
  refine ⟨y, ?_, hy1, hy2⟩
  rw [hv]
  simp only [div, if_neg hne]
  exact hy

/-- The value of `daysUntilExpire` for a non-positive number of seconds. -/
theorem days_of_nonpos {s : Int} (h0 : s ≤ 0) (h : IsInt64 s) :
    ∃ y, div (ofInt64 s) (fin 86400) = fin y ∧ y ≤ 0 := by
  obtain ⟨v, hv, hv1, hv2⟩ := ofInt64_of_nonpos h0 h
  have hne : (86400 : ℚ) ≠ 0 := by norm_num
  have hq : v / 86400 ≤ 0 := div_nonpos_of_nonpos_of_nonneg hv1 (by norm_num)
  have hlo : -(2 ^ (63 : ℤ)) ≤ v / 86400 := by
    rw [le_div_iff₀ (by norm_num)]
    have : (0 : ℚ) < 2 ^ (63 : ℤ) := two_zpow_pos 63
    nlinarith
  obtain ⟨y, hy, hy1, _⟩ := round_of_nonpos (k := 63) (by norm_num) (by norm_num) hq hlo
  refine ⟨y, ?_, hy1⟩
  rw [hv]
  simp only [div, if_neg hne]
  exact hy

/-- The guard `daysUntilExpire > 0` of `Compute` holds exactly when the number of
seconds is positive. -/
theorem gt_days_zero_iff {s : Int} (h : IsInt64 s) :
    gt (div (ofInt64 s) (fin 86400)) zero = true ↔ 0 < s := by
  constructor
  · intro hg
    by_contra hs
    obtain ⟨y, hy, hy0⟩ := days_of_nonpos (not_lt.mp hs) h
    rw [hy] at hg
    simp only [gt, zero, lt, decide_eq_true_eq] at hg
    linarith
  · intro hs
    obtain ⟨y, hy, hy1, _⟩ := days_of_pos hs h
    rw [hy]
    simp only [gt, zero, lt, decide_eq_true_eq]
    exact lt_of_lt_of_le (two_zpow_pos (-17)) hy1

/-- The quotient `remaining / daysUntilExpire` of two positive quantities is finite
and positive. -/
theorem budget_of_pos {r s : Int} (hr0 : 0 < r) (hr : IsInt64 r) (hs0 : 0 < s)
    (hs : IsInt64 s) :
    ∃ y, div (ofInt64 r) (div (ofInt64 s) (fin 86400)) = fin y ∧ 0 < y := by
  obtain ⟨v, hv, hv1, hv2⟩ := ofInt64_of_pos hr0 hr
  obtain ⟨d, hd, hd1, hd2⟩ := days_of_pos hs0 hs
  have hdpos : 0 < d := lt_of_lt_of_le (two_zpow_pos (-17)) hd1
  have hlo : (2 : ℚ) ^ (-63 : ℤ) ≤ v / d := by
    rw [le_div_iff₀ hdpos]
    have h1 : (2 : ℚ) ^ (-63 : ℤ) * d ≤ 2 ^ (-63 : ℤ) * 2 ^ (63 : ℤ) :=
      mul_le_mul_of_nonneg_left hd2 (two_zpow_pos (-63)).le
    have h2 : (2 : ℚ) ^ (-63 : ℤ) * 2 ^ (63 : ℤ) = 1 := by norm_num
    linarith
  have hhi : v / d ≤ 2 ^ (80 : ℤ) := by
    rw [div_le_iff₀ hdpos]
    have h1 : (2 : ℚ) ^ (80 : ℤ) * 2 ^ (-17 : ℤ) ≤ 2 ^ (80 : ℤ) * d :=
      mul_le_mul_of_nonneg_left hd1 (two_zpow_pos 80).le
    have h2 : (2 : ℚ) ^ (80 : ℤ) * 2 ^ (-17 : ℤ) = 2 ^ (63 : ℤ) := by norm_num
    linarith
  obtain ⟨y, hy, hy1, _⟩ := round_of_pos (j := -63) (k := 80) (by norm_num) (by norm_num) hlo hhi
  refine ⟨y, ?_, lt_of_lt_of_le (two_zpow_pos (-63)) hy1⟩
  rw [hv, hd]
  simp only [div, if_neg hdpos.ne']
  exact hy

/-- The quotient of an `int64` by a positive `int64`, both converted, is finite. -/
theorem ratio_isFinite {x t : Int} (hx : IsInt64 x) (ht0 : 0 < t) (ht : IsInt64 t) :
    ∃ y, div (ofInt64 x) (ofInt64 t) = fin y := by
  obtain ⟨v, hv⟩ := ofInt64_isFinite hx
  obtain ⟨w, hw, hw1, _⟩ := ofInt64_of_pos ht0 ht
  have hwpos : 0 < w := by linarith
  have hvabs : |v| ≤ 2 ^ (63 : ℤ) := by
    rcases lt_or_le 0 x with h0 | h0
    · obtain ⟨y, hy, hy1, hy2⟩ := ofInt64_of_pos h0 hx
      rw [hv] at hy; injection hy with hy; subst hy
      rw [abs_of_nonneg (by linarith)]; exact hy2
    · obtain ⟨y, hy, hy1, hy2⟩ := ofInt64_of_nonpos h0 hx
      rw [hv] at hy; injection hy with hy; subst hy
      rw [abs_of_nonpos hy1]; linarith
  have hq : |v / w| ≤ 2 ^ (63 : ℤ) := by
    rw [abs_div, abs_of_pos hwpos, div_le_iff₀ hwpos]
    have : (0 : ℚ) ≤ 2 ^ (63 : ℤ) := (two_zpow_pos 63).le
    nlinarith
  obtain ⟨y, hy⟩ := round_isFinite (k := 63) (by norm_num) (by norm_num) hq
  refine ⟨y, ?_⟩
  rw [hv, hw]
  simp only [div, if_neg hwpos.ne']
  exact hy

end F64

/-! ## Compute: facts that hold for every input -/

/-- The integer fields of `Compute` are the wrapped results of the source's `int64`
expressions. -/
theorem Compute_int_fields (now : Time) (p : ParsedSubscription) (refreshStart clock : Time) :
    (Compute now p refreshStart clock).UsedBytes = wrapInt64 (p.DownloadByte + p.UploadByte) ∧
    (Compute now p refreshStart clock).RemainingBytes =
      wrapInt64 (p.TotalByte - wrapInt64 (p.DownloadByte + p.UploadByte)) ∧
    (Compute now p refreshStart clock).SecondsUntilExpire = wrapInt64 (p.Expire - now.Unix) ∧
    (Compute now p refreshStart clock).Expired =
      (if wrapInt64 (p.Expire - now.Unix) ≤ 0 then 1 else 0) :=
  ⟨rfl, rfl, rfl, rfl⟩

/-- The daily budget in terms of the values `Compute` itself holds: the quotient
when the remaining bytes and the seconds until expiry are both positive, zero
otherwise, and in every case finite and not negative. -/
theorem dailyBudget_of_wrapped_fields (now : Time) (p : ParsedSubscription)
    (refreshStart clock : Time) :
    (Compute now p refreshStart clock).DailyBudgetBytes =
      (if 0 < (Compute now p refreshStart clock).RemainingBytes ∧
          0 < (Compute now p refreshStart clock).SecondsUntilExpire then
        F64.div (F64.ofInt64 (Compute now p refreshStart clock).RemainingBytes)
          (Compute now p refreshStart clock).DaysUntilExpire
      else F64.zero) ∧
    ∃ y, (Compute now p refreshStart clock).DailyBudgetBytes = F64.fin y ∧ 0 ≤ y := by
  have hs := isInt64_wrapInt64 (p.Expire - now.Unix)
  have hr := isInt64_wrapInt64 (p.TotalByte - wrapInt64 (p.DownloadByte + p.UploadByte))
  have hg := F64.gt_days_zero_iff hs
  by_cases h1 : 0 < wrapInt64 (p.Expire - now.Unix)
  · by_cases h2 : 0 < wrapInt64 (p.TotalByte - wrapInt64 (p.DownloadByte + p.UploadByte))
    · obtain ⟨y, hy, hy0⟩ := F64.budget_of_pos h2 hr h1 hs
      have hval : (Compute now p refreshStart clock).DailyBudgetBytes = F64.fin y := by
        simp only [Compute, hg.mpr h1, gt_iff_lt, h2, decide_True, Bool.and_self, if_true]
        exact hy
      refine ⟨?_, y, hval, hy0.le⟩
      rw [hval]
      simp only [Compute, h1, h2, and_self, if_true]
      exact hy.symm
    · have hval : (Compute now p refreshStart clock).DailyBudgetBytes = F64.zero := by
        simp [Compute, h2]
      refine ⟨?_, 0, hval, le_refl _⟩
      rw [hval]
      simp [Compute, h2]
  · have hgf : F64.gt (F64.div (F64.ofInt64 (wrapInt64 (p.Expire - now.Unix))) (F64.fin 86400))
        F64.zero = false := by
      rw [← Bool.not_eq_true]; exact fun hc => h1 (hg.mp hc)
    have hval : (Compute now p refreshStart clock).DailyBudgetBytes = F64.zero := by
      simp [Compute, hgf]
    refine ⟨?_, 0, hval, le_refl _⟩
    rw [hval]
    simp [Compute, h1]

/-- The ratios of `Compute` are finite for every record with an `int64` quota: no
quotient by zero is formed. -/
theorem ratios_finite_of_int64_quota (now : Time) (p : ParsedSubscription)
    (refreshStart clock : Time) (hT : IsInt64 p.TotalByte) :
    (∃ a, (Compute now p refreshStart clock).UsedRatio = F64.fin a) ∧
    (∃ b, (Compute now p refreshStart clock).RemainingRatio = F64.fin b) := by
  by_cases h : 0 < p.TotalByte
  · obtain ⟨a, ha⟩ := F64.ratio_isFinite (isInt64_wrapInt64 (p.DownloadByte + p.UploadByte)) h hT
    obtain ⟨b, hb⟩ := F64.ratio_isFinite
      (isInt64_wrapInt64 (p.TotalByte - wrapInt64 (p.DownloadByte + p.UploadByte))) h hT
    refine ⟨⟨a, ?_⟩, ⟨b, ?_⟩⟩
    · simp only [Compute, gt_iff_lt, h, if_true]; exact ha
    · simp only [Compute, gt_iff_lt, h, if_true]; exact hb
  · refine ⟨⟨0, ?_⟩, ⟨0, ?_⟩⟩ <;> simp [Compute, h, F64.zero]

/-! ## Compute: the derived values (claims C1 to C4) -/

/-- C1, as stated, fails: for the record with both counters at the largest `int64`
and a quota of one byte the remaining quota `TotalByte − (DownloadByte + UploadByte)`
is negative, so the claim asks for a daily budget of zero, yet `Compute` returns 3
(the sum wraps to −2, which leaves 3 bytes over one day). -/
theorem Compute_dailyBudget_overflow_counterexample :
    overflowRecord.TotalByte - (overflowRecord.DownloadByte + overflowRecord.UploadByte) ≤ 0 ∧
    (Compute epoch overflowRecord epoch epoch).DailyBudgetBytes = F64.fin 3 ∧
    (Compute epoch overflowRecord epoch epoch).DailyBudgetBytes ≠ F64.zero := by
  have h1 : F64.ofInt64 86400 = F64.fin 86400 := by
    have := F64.ofInt64_of_small (z := 86400) (by norm_num)
    simpa using this
  have h3 : F64.ofInt64 3 = F64.fin 3 := by
    have := F64.ofInt64_of_small (z := 3) (by norm_num)
    simpa using this
  have hr1 : F64.round 1 = F64.fin 1 := by
    have := F64.round_intCast (z := 1) (by norm_num)
    simpa using this
  have hr3 : F64.round 3 = F64.fin 3 := by
    have := F64.round_intCast (z := 3) (by norm_num)
    simpa using this
  have hval : (Compute epoch overflowRecord epoch epoch).DailyBudgetBytes = F64.fin 3 := by
    have hu : wrapInt64 (9223372036854775807 + 9223372036854775807) = -2 := by decide
    have hrem : wrapInt64 (1 - -2) = 3 := by decide
    have hs : wrapInt64 (86400 - 0) = 86400 := by decide
    simp only [Compute, overflowRecord, epoch, Time.Unix, hu, hrem, hs, h1, h3]
    norm_num [F64.div, F64.gt, F64.lt, F64.zero, hr1, hr3]
  refine ⟨by decide, hval, ?_⟩
  rw [hval]
  simp [F64.zero]

/-- C1 (amended to inputs without `int64` overflow): when `DownloadByte + UploadByte`,
`TotalByte − (DownloadByte + UploadByte)` and `Expire − now.Unix()` are all `int64`
values, `DailyBudgetBytes` is the `float64` quotient `remaining / daysUntilExpire`
if `remaining > 0` and `daysUntilExpire > 0`, and exactly zero in every other case;
the guard on the days holds exactly when `Expire − now.Unix() > 0`; and the budget is
finite and never negative. -/
theorem Compute_dailyBudget (now : Time) (p : ParsedSubscription) (refreshStart clock : Time)
    (hused : IsInt64 (p.DownloadByte + p.UploadByte))
    (hrem : IsInt64 (p.TotalByte - (p.DownloadByte + p.UploadByte)))
    (hsec : IsInt64 (p.Expire - now.Unix)) :
    (Compute now p refreshStart clock).DailyBudgetBytes =
      (if 0 < p.TotalByte - (p.DownloadByte + p.UploadByte) ∧
          F64.gt (F64.div (F64.ofInt64 (p.Expire - now.Unix)) (F64.fin 86400)) F64.zero = true
        then
          F64.div (F64.ofInt64 (p.TotalByte - (p.DownloadByte + p.UploadByte)))
            (F64.div (F64.ofInt64 (p.Expire - now.Unix)) (F64.fin 86400))
        else F64.zero) ∧
    (F64.gt (F64.div (F64.ofInt64 (p.Expire - now.Unix)) (F64.fin 86400)) F64.zero = true ↔
      0 < p.Expire - now.Unix) ∧
    (p.TotalByte - (p.DownloadByte + p.UploadByte) ≤ 0 ∨ p.Expire - now.Unix ≤ 0 →
      (Compute now p refreshStart clock).DailyBudgetBytes = F64.zero) ∧
    ∃ y, (Compute now p refreshStart clock).DailyBudgetBytes = F64.fin y ∧ 0 ≤ y := by
  obtain ⟨hw, hfin⟩ := dailyBudget_of_wrapped_fields now p refreshStart clock
  obtain ⟨-, hR, hS, -⟩ := Compute_int_fields now p refreshStart clock
  have hD : (Compute now p refreshStart clock).DaysUntilExpire =
      F64.div (F64.ofInt64 (wrapInt64 (p.Expire - now.Unix))) (F64.fin 86400) := rfl
  rw [wrapInt64_of_isInt64 hused, wrapInt64_of_isInt64 hrem] at hR
  rw [wrapInt64_of_isInt64 hsec] at hS hD
  rw [hR, hS, hD] at hw
  have hg := F64.gt_days_zero_iff hsec
  refine ⟨?_, hg, ?_, hfin⟩
  · rw [hw]
    simp only [hg]
  · intro h
    rw [hw]
    rw [if_neg]
    rintro ⟨h1, h2⟩
    rcases h with h | h <;> omega

/-- The amended C1 applies to the record of `TestCompute_Success`, whose arithmetic
stays within `int64`: its budget is finite and not negative. -/
theorem Compute_dailyBudget_witness :
    IsInt64 (sampleRecord.DownloadByte + sampleRecord.UploadByte) ∧
    IsInt64 (sampleRecord.TotalByte - (sampleRecord.DownloadByte + sampleRecord.UploadByte)) ∧
    IsInt64 (sampleRecord.Expire - sampleNow.Unix) ∧
    ∃ y, (Compute sampleNow sampleRecord sampleNow sampleNow).DailyBudgetBytes = F64.fin y ∧
      0 ≤ y :=
  ⟨by decide, by decide, by decide,
    (Compute_dailyBudget sampleNow sampleRecord sampleNow sampleNow
      (by decide) (by decide) (by decide)).2.2.2⟩

/-- C2, as stated, fails: the record with both counters at `2 ^ 62` is valid, but
`UsedBytes` is `−2 ^ 63`, not the exact sum `2 ^ 63`, and `RemainingBytes` is
`−2 ^ 63 + 1`, not `TotalByte` minus the sum. -/
theorem Compute_usedBytes_overflow_counterexample :
    (0 ≤ halfRangeRecord.DownloadByte ∧ 0 ≤ halfRangeRecord.UploadByte ∧
      0 < halfRangeRecord.TotalByte ∧ halfRangeRecord.WellTyped) ∧
    (Compute sampleNow halfRangeRecord sampleNow sampleNow).UsedBytes = -9223372036854775808 ∧
    (Compute sampleNow halfRangeRecord sampleNow sampleNow).UsedBytes ≠
      halfRangeRecord.DownloadByte + halfRangeRecord.UploadByte := by
  refine ⟨⟨by decide, by decide, by decide, by decide⟩, by decide, by decide⟩

/-- C2 (amended to sums that fit `int64`): for every valid record (non-negative
`int64` counters, positive `int64` quota) with `DownloadByte + UploadByte ≤ 2 ^ 63 − 1`,
`UsedBytes` is the exact sum and `RemainingBytes` is `TotalByte − UsedBytes`, for
every `now`, `refreshStart` and clock reading. -/
theorem Compute_usedBytes_remainingBytes (now : Time) (p : ParsedSubscription)
    (refreshStart clock : Time) (hd : 0 ≤ p.DownloadByte) (hu : 0 ≤ p.UploadByte)
    (ht : 0 < p.TotalByte) (hty : p.WellTyped)
    (hsum : p.DownloadByte + p.UploadByte ≤ maxInt64) :
    (Compute now p refreshStart clock).UsedBytes = p.DownloadByte + p.UploadByte ∧
    (Compute now p refreshStart clock).RemainingBytes =
      p.TotalByte - (Compute now p refreshStart clock).UsedBytes := by
  obtain ⟨hU, hR, -, -⟩ := Compute_int_fields now p refreshStart clock
  obtain ⟨-, -, hT, -⟩ := hty
  have h1 : IsInt64 (p.DownloadByte + p.UploadByte) := by
    unfold IsInt64 minInt64 maxInt64 at *; omega
  have h2 : IsInt64 (p.TotalByte - (p.DownloadByte + p.UploadByte)) := by
    unfold IsInt64 minInt64 maxInt64 at *; omega
  rw [wrapInt64_of_isInt64 h1] at hU hR
  rw [wrapInt64_of_isInt64 h2] at hR
  exact ⟨hU, by rw [hR, hU]⟩

/-- The amended C2 applies to the record of `TestCompute_Success`: 120 GiB used and
380 GiB remaining. -/
theorem Compute_usedBytes_remainingBytes_witness :
    sampleRecord.DownloadByte + sampleRecord.UploadByte ≤ maxInt64 ∧
    (Compute sampleNow sampleRecord sampleNow sampleNow).UsedBytes =
      sampleRecord.DownloadByte + sampleRecord.UploadByte ∧
    (Compute sampleNow sampleRecord sampleNow sampleNow).RemainingBytes =
      sampleRecord.TotalByte - (Compute sampleNow sampleRecord sampleNow sampleNow).UsedBytes :=
  ⟨by decide,
    Compute_usedBytes_remainingBytes sampleNow sampleRecord sampleNow sampleNow
      (by decide) (by decide) (by decide) (by decide) (by decide)⟩

/-- C3, as stated, fails: with the expiry at the smallest `int64` and `now` at
2025-01-01 the difference `Expire − now.Unix()` is negative, so the claim asks for
`Expired = 1`, yet the subtraction wraps to a positive number of seconds and
`Compute` returns `Expired = 0`. -/
theorem Compute_expired_overflow_counterexample :
    ancientRecord.Expire - sampleNow.Unix ≤ 0 ∧
    (Compute sampleNow ancientRecord sampleNow sampleNow).Expired = 0 ∧
    (Compute sampleNow ancientRecord sampleNow sampleNow).SecondsUntilExpire ≠
      ancientRecord.Expire - sampleNow.Unix := by
  refine ⟨by decide, by decide, by decide⟩

/-- C3 (amended to differences that fit `int64`): whenever `Expire − now.Unix()` is an
`int64` value, `SecondsUntilExpire` equals it, `Expired = 1` if and only if it is
`≤ 0`, and `Expired = 0` otherwise; `Expired` is 0 or 1. -/
theorem Compute_secondsUntilExpire_expired (now : Time) (p : ParsedSubscription)
    (refreshStart clock : Time) (hsec : IsInt64 (p.Expire - now.Unix)) :
    (Compute now p refreshStart clock).SecondsUntilExpire = p.Expire - now.Unix ∧
    ((Compute now p refreshStart clock).Expired = 1 ↔ p.Expire - now.Unix ≤ 0) ∧
    (¬ p.Expire - now.Unix ≤ 0 → (Compute now p refreshStart clock).Expired = 0) ∧
    ((Compute now p refreshStart clock).Expired = 0 ∨
      (Compute now p refreshStart clock).Expired = 1) := by
  obtain ⟨-, -, hS, hE⟩ := Compute_int_fields now p refreshStart clock
  rw [wrapInt64_of_isInt64 hsec] at hS hE
  refine ⟨hS, ?_, ?_, ?_⟩
  · rw [hE]; split_ifs with h <;> simp [h]
  · intro h; rw [hE, if_neg h]
  · rw [hE]; split_ifs <;> simp

/-- The amended C3 applies to the record of `TestCompute_Success`: 30 days of seconds
remain. -/
theorem Compute_secondsUntilExpire_expired_witness :
    IsInt64 (sampleRecord.Expire - sampleNow.Unix) ∧
    (Compute sampleNow sampleRecord sampleNow sampleNow).SecondsUntilExpire =
      sampleRecord.Expire - sampleNow.Unix :=
  ⟨by decide,
    (Compute_secondsUntilExpire_expired sampleNow sampleRecord sampleNow sampleNow
      (by decide)).1⟩

/-- C4, as stated, fails: for the record with both counters at the largest `int64`
and a quota of one byte, used and quota are positive, yet `UsedRatio` is `−2`; it
differs from the quotient of the converted exact sum by the converted quota. -/
theorem Compute_usedRatio_overflow_counterexample :
    0 < overflowRecord.TotalByte ∧
    0 < overflowRecord.DownloadByte + overflowRecord.UploadByte ∧
    (Compute epoch overflowRecord epoch epoch).UsedRatio = F64.fin (-2) ∧
    (Compute epoch overflowRecord epoch epoch).UsedRatio ≠
      F64.div (F64.round ((overflowRecord.DownloadByte + overflowRecord.UploadByte : Int) : ℚ))
        (F64.ofInt64 overflowRecord.TotalByte) := by
  have h1 : F64.ofInt64 1 = F64.fin 1 := by
    have := F64.ofInt64_of_small (z := 1) (by norm_num)
    simpa using this
  have h2 : F64.ofInt64 (-2) = F64.fin (-2) := by
    have := F64.ofInt64_of_small (z := -2) (by norm_num)
    simpa using this
  have hr2 : F64.round (-2) = F64.fin (-2) := by
    have := F64.round_intCast (z := -2) (by norm_num)
    simpa using this
  have hval : (Compute epoch overflowRecord epoch epoch).UsedRatio = F64.fin (-2) := by
    have hu : wrapInt64 (9223372036854775807 + 9223372036854775807) = -2 := by decide
    simp only [Compute, overflowRecord, hu, h1, h2]
    norm_num [F64.div, hr2]
  refine ⟨by decide, by decide, hval, ?_⟩
  rw [hval]
  have hsum : ((overflowRecord.DownloadByte + overflowRecord.UploadByte : Int) : ℚ) =
      18446744073709551614 := by
    norm_num [overflowRecord]
  have hT : F64.ofInt64 overflowRecord.TotalByte = F64.fin 1 := h1
  rw [hsum, hT]
  obtain ⟨y, hy, hy1, hy2⟩ := F64.round_of_pos (q := 18446744073709551614) (j := 0) (k := 64)
    (by norm_num) (by norm_num) (by norm_num) (by norm_num)
  rw [hy]
  have hy0 : 0 < y := by
    have : (1 : ℚ) ≤ y := by simpa using hy1
    linarith
  intro hc
  simp only [F64.div, one_ne_zero, if_false, div_one] at hc
  rcases F64.round_of_pos (q := y) (j := 0) (k := 64) (by norm_num) (by norm_num)
    (by simpa using hy1) hy2 with ⟨z, hz, hz1, -⟩
  rw [hz] at hc
  injection hc with hc
  have : (1 : ℚ) ≤ z := by simpa using hz1
  linarith

/-- C4 (amended to inputs without `int64` overflow): when the quota, the sum
`DownloadByte + UploadByte` and `TotalByte − (DownloadByte + UploadByte)` are `int64`
values, `UsedRatio` and `RemainingRatio` are the `float64` quotients `used / quota`
and `remaining / quota` if `TotalByte > 0` (the divisor is then at least one), both
are exactly zero if `TotalByte ≤ 0`, and both are finite in every case. -/
theorem Compute_ratios (now : Time) (p : ParsedSubscription) (refreshStart clock : Time)
    (hT : IsInt64 p.TotalByte) (hused : IsInt64 (p.DownloadByte + p.UploadByte))
    (hrem : IsInt64 (p.TotalByte - (p.DownloadByte + p.UploadByte))) :
    (0 < p.TotalByte →
      (Compute now p refreshStart clock).UsedRatio =
        F64.div (F64.ofInt64 (p.DownloadByte + p.UploadByte)) (F64.ofInt64 p.TotalByte) ∧
      (Compute now p refreshStart clock).RemainingRatio =
        F64.div (F64.ofInt64 (p.TotalByte - (p.DownloadByte + p.UploadByte)))
          (F64.ofInt64 p.TotalByte) ∧
      ∃ t, F64.ofInt64 p.TotalByte = F64.fin t ∧ 1 ≤ t) ∧
    (p.TotalByte ≤ 0 →
      (Compute now p refreshStart clock).UsedRatio = F64.zero ∧
      (Compute now p refreshStart clock).RemainingRatio = F64.zero) ∧
    (∃ a, (Compute now p refreshStart clock).UsedRatio = F64.fin a) ∧
    (∃ b, (Compute now p refreshStart clock).RemainingRatio = F64.fin b) := by
  obtain ⟨hfa, hfb⟩ := ratios_finite_of_int64_quota now p refreshStart clock hT
  refine ⟨?_, ?_, hfa, hfb⟩
  · intro h
    obtain ⟨t, ht, ht1, -⟩ := F64.ofInt64_of_pos h hT
    refine ⟨?_, ?_, t, ht, ht1⟩
    · simp only [Compute, gt_iff_lt, h, if_true, wrapInt64_of_isInt64 hused]
    · simp only [Compute, gt_iff_lt, h, if_true, wrapInt64_of_isInt64 hused,
        wrapInt64_of_isInt64 hrem]
  · intro h
    have h' : ¬ (0 < p.TotalByte) := not_lt.mpr h
    constructor <;> simp only [Compute, gt_iff_lt, h', if_false]

/-- The amended C4 applies to the record of `TestCompute_Success`: both ratios are
finite. -/
theorem Compute_ratios_witness :
    IsInt64 sampleRecord.TotalByte ∧
    IsInt64 (sampleRecord.DownloadByte + sampleRecord.UploadByte) ∧
    IsInt64 (sampleRecord.TotalByte - (sampleRecord.DownloadByte + sampleRecord.UploadByte)) ∧
    (∃ a, (Compute sampleNow sampleRecord sampleNow sampleNow).UsedRatio = F64.fin a) :=
  ⟨by decide, by decide, by decide,
    (Compute_ratios sampleNow sampleRecord sampleNow sampleNow
      (by decide) (by decide) (by decide)).2.2.1⟩

/-! ## ParseSubscription (claims C5 to C7) -/

theorem hasSubscriptionDataID_eq_any (attrs : List Attribute) :
    hasSubscriptionDataID attrs =
      attrs.any fun a => decide (a.Key = "id") && decide (a.Val = "subscription-data") := by
  induction attrs with
  | nil => rfl
  | cons a rest ih =>
    simp only [hasSubscriptionDataID, List.any_cons, ih]
    by_cases h1 : a.Key = "id" <;> by_cases h2 : a.Val = "subscription-data" <;> simp [h1, h2]

mutual

/-- The search of `findTemplateNode` returns the first subscription-data template in
document order. -/
theorem findTemplateNode_eq_find (n : Node) :
    findTemplateNode n = n.preorder.find? isSubscriptionData := by
  cases n with
  | mk t d attrs cs =>
    rw [findTemplateNode, Node.preorder, List.find?_cons]
    have hcs := findTemplateNodeIn_eq_find cs
    by_cases h : t = NodeType.ElementNode ∧ d = "template" ∧ hasSubscriptionDataID attrs = true
    · have hp : isSubscriptionData (Node.mk t d attrs cs) = true := by
        simp only [isSubscriptionData, Node.type, Node.Data, Node.Attr,
          ← hasSubscriptionDataID_eq_any]
        simp [h.1, h.2.1, h.2.2]
      rw [if_pos h, hp]
    · have hp : isSubscriptionData (Node.mk t d attrs cs) = false := by
        simp only [isSubscriptionData, Node.type, Node.Data, Node.Attr,
          ← hasSubscriptionDataID_eq_any]
        rw [← Bool.not_eq_true]
        intro hc
        simp only [Bool.and_eq_true, decide_eq_true_eq] at hc
        exact h ⟨hc.1.1, hc.1.2, hc.2⟩
      rw [if_neg h, hp, hcs]

/-- The loop of `findTemplateNode` over a list of siblings returns the first
subscription-data template of their subtrees. -/
theorem findTemplateNodeIn_eq_find (cs : List Node) :
    findTemplateNodeIn cs = (preorderList cs).find? isSubscriptionData := by
  cases cs with
  | nil => rfl
  | cons c rest =>
    rw [findTemplateNodeIn, preorderList, List.find?_append, ← findTemplateNode_eq_find c,
      ← findTemplateNodeIn_eq_find rest]
    cases findTemplateNode c <;> rfl

end

theorem findTemplateNode_eq_first (doc : Node) :
    findTemplateNode doc = firstSubscriptionData doc := findTemplateNode_eq_find doc

theorem GoMap.get_set {V : Type} (m : GoMap V) (k key : String) (v : V) :
    (m.set k v).get key = if k = key then some v else m.get key := by
  unfold GoMap.set GoMap.get
  by_cases h : k = key
  · subst h; rw [if_pos rfl, AList.lookup_insert]
  · rw [if_neg h, AList.lookup_insert_ne (fun hc => h hc.symm)]

theorem foldl_set_get (attrs : List Attribute) (m : GoMap String) (key : String) :
    (attrs.foldl (fun acc attr => acc.set attr.Key attr.Val) m).get key =
      match attrValue attrs key with
      | some v => some v
      | none => m.get key := by
  induction attrs generalizing m with
  | nil => rfl
  | cons a rest ih =>
    rw [List.foldl_cons, ih, attrValue]
    cases attrValue rest key with
    | some v => rfl
    | none =>
      simp only [GoMap.get_set]
      by_cases h : a.Key = key <;> simp [h]

/-- The map of `extractAttributes` gives each key the value the element carries. -/
theorem extractAttributes_get (n : Node) (key : String) :
    (extractAttributes n).get key = n.attr key := by
  unfold extractAttributes Node.attr
  rw [foldl_set_get]
  cases attrValue n.Attr key <;> rfl

/-- The outcome of `parsePositiveInt64` on the attributes of an element. -/
theorem parsePositiveInt64_extract (n : Node) (key : String) :
    parsePositiveInt64 (extractAttributes n) key =
      match n.intAttr key with
      | some x => .ok x
      | none =>
        .error (match n.attr key with
          | none => .attributeNotFound key
          | some _ => .invalidInteger) := by
  unfold parsePositiveInt64 Node.intAttr
  rw [extractAttributes_get]
  cases h : n.attr key with
  | none => rfl
  | some v =>
    cases hp : strconvParseInt v <;> simp [Option.bind, hp]

/-- Whatever `strconv.ParseInt(s, 10, 64)` returns is an `int64`. -/
theorem strconvParseInt_isInt64 {s : String} {x : Int} (h : strconvParseInt s = some x) :
    IsInt64 x := by
  unfold strconvParseInt at h
  split at h
  · exact absurd h (by simp)
  · rename_i c cs _
    simp only at h
    split at h
    · exact absurd h (by simp)
    · split at h
      · exact absurd h (by simp)
      · rename_i un _
        split at h
        · exact absurd h (by simp)
        · split at h
          · exact absurd h (by simp)
          · rename_i h1 h2
            simp only [Option.some.injEq] at h
            subst h
            simp only [Bool.and_eq_true, Bool.not_eq_true', decide_eq_false_iff_not,
              decide_eq_true_eq, not_and, not_le, not_lt] at h1 h2
            unfold IsInt64 minInt64 maxInt64
            by_cases hneg : c = '-'
            · simp only [hneg, decide_True, if_true]
              have := h2 hneg
              omega
            · simp only [hneg, decide_False, Bool.false_eq_true, if_false]
              have := h1 hneg
              omega

theorem digitVal_digitChar {d : Nat} (h : d < 10) : digitVal (Nat.digitChar d) = some d := by
  interval_cases d <;> rfl

theorem parseUintDigits_toDigitsCore (fuel : Nat) :
    ∀ (n : Nat) (ds : List Char), n < fuel →
      parseUintDigits (Nat.toDigitsCore 10 fuel n ds) 0 = parseUintDigits ds n := by
  induction fuel with
  | zero => intro n ds h; omega
  | succ fuel ih =>
    intro n ds h
    have hd : digitVal (Nat.digitChar (n % 10)) = some (n % 10) :=
      digitVal_digitChar (Nat.mod_lt n (by norm_num))
    simp only [Nat.toDigitsCore]
    split_ifs with h0
    · simp only [parseUintDigits, hd]
      congr 1
      omega
    · rw [ih (n / 10) _ (by omega)]
      simp only [parseUintDigits, hd]
      congr 1
      omega

/-- Reading back the digits of a natural number gives the number. -/
theorem parseUintDigits_toDigits (n : Nat) : parseUintDigits (Nat.toDigits 10 n) 0 = some n := by
  unfold Nat.toDigits
  rw [parseUintDigits_toDigitsCore (n + 1) n [] (by omega)]
  rfl

theorem toDigitsCore_ne_nil (fuel : Nat) :
    ∀ (n : Nat) (ds : List Char), ds ≠ [] → Nat.toDigitsCore 10 fuel n ds ≠ [] := by
  induction fuel with
  | zero => intro n ds h; simpa [Nat.toDigitsCore] using h
  | succ fuel ih =>
    intro n ds _
    simp only [Nat.toDigitsCore]
    split_ifs
    · simp
    · exact ih _ _ (by simp)

/-- The digits of a natural number start with a digit: the list is not empty and its
head is neither sign. -/
theorem toDigits_eq_cons (n : Nat) :
    ∃ c cs, Nat.toDigits 10 n = c :: cs ∧ c ≠ '+' ∧ c ≠ '-' := by
  have hne : Nat.toDigits 10 n ≠ [] := by
    unfold Nat.toDigits
    simp only [Nat.toDigitsCore]
    split_ifs
    · simp
    · exact toDigitsCore_ne_nil _ _ _ (by simp)
  have hp := parseUintDigits_toDigits n
  cases hl : Nat.toDigits 10 n with
  | nil => exact absurd hl hne
  | cons c cs =>
    refine ⟨c, cs, rfl, ?_, ?_⟩
    · intro hc
      rw [hl, hc] at hp
      simp [parseUintDigits, digitVal] at hp
    · intro hc
      rw [hl, hc] at hp
      simp [parseUintDigits, digitVal] at hp

/-- `strconv.ParseInt` reads the decimal rendering of every `int64` back to it. -/
theorem strconvParseInt_formatInt {x : Int} (h : IsInt64 x) :
    strconvParseInt (formatInt x) = some x := by
  unfold IsInt64 minInt64 maxInt64 at h
  by_cases hx : x < 0
  · obtain ⟨c, cs, hl, -, -⟩ := toDigits_eq_cons x.natAbs
    have hp := parseUintDigits_toDigits x.natAbs
    rw [hl] at hp
    have hdata : (formatInt x).data = '-' :: c :: cs := by
      simp only [formatInt, if_pos hx, hl]
    unfold strconvParseInt
    rw [hdata]
    simp only [decide_True, or_true, if_true, hp, Bool.not_true, Bool.false_and,
      Bool.false_eq_true, if_false, Bool.true_and, decide_eq_true_eq]
    rw [if_neg (by omega)]
    congr 1
    omega
  · obtain ⟨c, cs, hl, hplus, hminus⟩ := toDigits_eq_cons x.toNat
    have hp := parseUintDigits_toDigits x.toNat
    rw [hl] at hp
    have hdata : (formatInt x).data = c :: cs := by
      simp only [formatInt, if_neg hx, hl]
    unfold strconvParseInt
    rw [hdata]
    simp only [hplus, hminus, decide_False, or_self, if_false, hp, Bool.not_false,
      Bool.true_and, decide_eq_true_eq, Bool.false_and, Bool.false_eq_true]
    rw [if_neg (by omega)]
    congr 1
    omega

/-- The successful runs of `ParseSubscription`: the record returned is read off the
first subscription-data template, and its values pass the four range checks. -/
theorem ParseSubscription_ok_iff (htmlParse : HtmlParser) (htmlBytes : Bytes) (doc : Node)
    (hdoc : htmlParse htmlBytes = .ok doc) (r : ParsedSubscription) :
    ParseSubscription htmlParse htmlBytes = .ok r ↔
      ∃ n, firstSubscriptionData doc = some n ∧
        n.attr "data-sid" = some r.SID ∧ r.SID ≠ "" ∧
        n.intAttr "data-downloadbyte" = some r.DownloadByte ∧
        n.intAttr "data-uploadbyte" = some r.UploadByte ∧
        n.intAttr "data-totalbyte" = some r.TotalByte ∧
        n.intAttr "data-expire" = some r.Expire ∧
        0 < r.TotalByte ∧ 0 < r.Expire ∧ 0 ≤ r.DownloadByte ∧ 0 ≤ r.UploadByte := by
  unfold ParseSubscription
  simp only [hdoc, findTemplateNode_eq_first, extractAttributes_get, parsePositiveInt64_extract]
  cases hf : firstSubscriptionData doc with
  | none => simp
  | some n =>
    simp only [Option.some.injEq, exists_eq_left']
    cases hs : n.attr "data-sid" with
    | none => simp
    | some sid =>
      by_cases hsid : sid = ""
      · simp only [hsid, if_true]
        constructor
        · intro h; exact absurd h (by simp)
        · rintro ⟨h1, h2, -⟩
          exact absurd (Option.some.inj h1).symm h2
      · simp only [hsid, if_false]
        cases hd : n.intAttr "data-downloadbyte" with
        | none => simp
        | some d =>
          cases hu : n.intAttr "data-uploadbyte" with
          | none => simp
          | some u =>
            cases ht : n.intAttr "data-totalbyte" with
            | none => simp
            | some t =>
              cases he : n.intAttr "data-expire" with
              | none => simp
              | some e =>
                simp only [Option.some.injEq]
                by_cases h1 : t ≤ 0
                · simp only [h1, if_true]
                  constructor
                  · intro h; exact absurd h (by simp)
                  · rintro ⟨-, -, -, -, h3, -, h4, -⟩
                    omega
                · by_cases h2 : e ≤ 0
                  · simp only [h1, h2, if_true, if_false]
                    constructor
                    · intro h; exact absurd h (by simp)
                    · rintro ⟨-, -, -, -, -, h3, -, h4, -⟩
                      omega
                  · by_cases h3 : d < 0
                    · simp only [h1, h2, h3, if_true, if_false]
                      constructor
                      · intro h; exact absurd h (by simp)
                      · rintro ⟨-, -, h4, -, -, -, -, -, h5, -⟩
                        omega
                    · by_cases h4 : u < 0
                      · simp only [h1, h2, h3, h4, if_true, if_false]
                        constructor
                        · intro h; exact absurd h (by simp)
                        · rintro ⟨-, -, -, h5, -, -, -, -, -, h6⟩
                          omega
                      · simp only [h1, h2, h3, h4, if_false, Except.ok.injEq]
                        constructor
                        · intro h
                          subst h
                          exact ⟨rfl, hsid, rfl, rfl, rfl, rfl, not_le.mp h1, not_le.mp h2,
                            not_lt.mp h3, not_lt.mp h4⟩
                        · rintro ⟨h5, -, h6, h7, h8, h9, -⟩
                          cases r
                          simp only at h5 h6 h7 h8 h9
                          subst h5 h6 h7 h8 h9
                          rfl

/-- The branch of `fetchAndProcess` for a quota of zero is never entered: a record
that `ParseSubscription` returns has a positive quota. -/
theorem ParseSubscription_totalByte_pos (htmlParse : HtmlParser) (htmlBytes : Bytes)
    (r : ParsedSubscription) (h : ParseSubscription htmlParse htmlBytes = .ok r) :
    0 < r.TotalByte := by
  cases hdoc : htmlParse htmlBytes with
  | error err =>
    unfold ParseSubscription at h
    rw [hdoc] at h
    exact absurd h (by simp)
  | ok doc =>
    obtain ⟨n, -, -, -, -, -, -, -, ht, -⟩ :=
      (ParseSubscription_ok_iff htmlParse htmlBytes doc hdoc r).mp h
    exact ht

theorem intAttr_isInt64 {n : Node} {key : String} {x : Int} (h : n.intAttr key = some x) :
    IsInt64 x := by
  unfold Node.intAttr at h
  cases hv : n.attr key with
  | none => rw [hv] at h; exact absurd h (by simp)
  | some v =>
    rw [hv] at h
    exact strconvParseInt_isInt64 h

/-- A document that is refused by the listed conditions makes `ParseSubscription`
return an error. -/
theorem ParseSubscription_error_of_rejected (htmlParse : HtmlParser) (htmlBytes : Bytes)
    (doc : Node) (hdoc : htmlParse htmlBytes = .ok doc) (hrej : Rejected doc) :
    ∃ err, ParseSubscription htmlParse htmlBytes = .error err := by
  cases hres : ParseSubscription htmlParse htmlBytes with
  | error err => exact ⟨err, rfl⟩
  | ok r =>
    exfalso
    obtain ⟨n, hf, hs, hne, hd, hu, ht, he, ht0, he0, hd0, hu0⟩ :=
      (ParseSubscription_ok_iff htmlParse htmlBytes doc hdoc r).mp hres
    unfold Rejected at hrej
    rw [hf] at hrej
    rcases hrej with h | h | h | h | h | h | ⟨x, hx, hle⟩ | ⟨x, hx, hle⟩ | ⟨x, hx, hle⟩ |
      ⟨x, hx, hle⟩
    · rw [hs] at h; exact absurd h (by simp)
    · rw [hs] at h; exact hne (Option.some.inj h)
    · rw [hd] at h; exact absurd h (by simp)
    · rw [hu] at h; exact absurd h (by simp)
    · rw [ht] at h; exact absurd h (by simp)
    · rw [he] at h; exact absurd h (by simp)
    · rw [ht] at hx; have := Option.some.inj hx; omega
    · rw [he] at hx; have := Option.some.inj hx; omega
    · rw [hd] at hx; have := Option.some.inj hx; omega
    · rw [hu] at hx; have := Option.some.inj hx; omega

/-- C6: `ParseSubscription` returns an error when the HTML parser fails and for every
document that is refused by the listed conditions (no subscription-data template; a
missing or empty `data-sid`; a numeric attribute that is missing or not a base-10
`int64`; `totalbyte ≤ 0`; `expire ≤ 0`; `downloadbyte < 0`; `uploadbyte < 0`), and
every record it returns without error has a non-empty `SID`, `DownloadByte ≥ 0`,
`UploadByte ≥ 0`, `TotalByte > 0` and `Expire > 0`, all within `int64`. -/
theorem ParseSubscription_rejects (htmlParse : HtmlParser) (htmlBytes : Bytes) :
    (∀ cause, htmlParse htmlBytes = .error cause →
      ParseSubscription htmlParse htmlBytes = .error (.htmlParseFailed cause)) ∧
    (∀ doc, htmlParse htmlBytes = .ok doc → Rejected doc →
      ∃ err, ParseSubscription htmlParse htmlBytes = .error err) ∧
    (∀ r, ParseSubscription htmlParse htmlBytes = .ok r →
      r.SID ≠ "" ∧ 0 ≤ r.DownloadByte ∧ 0 ≤ r.UploadByte ∧ 0 < r.TotalByte ∧ 0 < r.Expire ∧
        r.WellTyped) := by
  refine ⟨?_, ?_, ?_⟩
  · intro cause hc
    unfold ParseSubscription
    rw [hc]
  · intro doc hdoc hrej
    exact ParseSubscription_error_of_rejected htmlParse htmlBytes doc hdoc hrej
  · intro r hres
    cases hdoc : htmlParse htmlBytes with
    | error err =>
      unfold ParseSubscription at hres
      rw [hdoc] at hres
      exact absurd hres (by simp)
    | ok doc =>
      obtain ⟨n, hf, hs, hne, hd, hu, ht, he, ht0, he0, hd0, hu0⟩ :=
        (ParseSubscription_ok_iff htmlParse htmlBytes doc hdoc r).mp hres
      exact ⟨hne, hd0, hu0, ht0, he0, intAttr_isInt64 hd, intAttr_isInt64 hu,
        intAttr_isInt64 ht, intAttr_isInt64 he⟩

/-- C7: for every document whose first subscription-data template carries a non-empty
`data-sid` `s` and numeric attributes that are the decimal renderings of `int64`
values `d ≥ 0`, `u ≥ 0`, `t > 0`, `e > 0`, `ParseSubscription` succeeds and returns
exactly the record of `s`, `d`, `u`, `t`, `e`. -/
theorem ParseSubscription_accepts (htmlParse : HtmlParser) (htmlBytes : Bytes) (doc n : Node)
    (s : String) (d u t e : Int)
    (hdoc : htmlParse htmlBytes = .ok doc) (hfirst : firstSubscriptionData doc = some n)
    (hsid : n.attr "data-sid" = some s) (hne : s ≠ "")
    (hd : n.attr "data-downloadbyte" = some (formatInt d))
    (hu : n.attr "data-uploadbyte" = some (formatInt u))
    (ht : n.attr "data-totalbyte" = some (formatInt t))
    (he : n.attr "data-expire" = some (formatInt e))
    (hdr : IsInt64 d) (hur : IsInt64 u) (htr : IsInt64 t) (her : IsInt64 e)
    (hd0 : 0 ≤ d) (hu0 : 0 ≤ u) (ht0 : 0 < t) (he0 : 0 < e) :
    ParseSubscription htmlParse htmlBytes =
      .ok { SID := s, DownloadByte := d, UploadByte := u, TotalByte := t, Expire := e } := by
  rw [ParseSubscription_ok_iff htmlParse htmlBytes doc hdoc]
  refine ⟨n, hfirst, hsid, hne, ?_, ?_, ?_, ?_, ht0, he0, hd0, hu0⟩
  · unfold Node.intAttr; rw [hd]; exact strconvParseInt_formatInt hdr
  · unfold Node.intAttr; rw [hu]; exact strconvParseInt_formatInt hur
  · unfold Node.intAttr; rw [ht]; exact strconvParseInt_formatInt htr
  · unfold Node.intAttr; rw [he]; exact strconvParseInt_formatInt her

/-- C7 applies to the document of `TestParseSubscription_Success`, which is parsed to
the record the test expects. -/
theorem ParseSubscription_accepts_witness :
    ParseSubscription (parserOf successDoc) [] =
      .ok { SID := "uk2jf33cdnzjn2dg", DownloadByte := 6150124543, UploadByte := 267143927,
            TotalByte := 536870912000, Expire := 1769184000 } :=
  ParseSubscription_accepts (parserOf successDoc) [] successDoc successTemplate
    "uk2jf33cdnzjn2dg" 6150124543 267143927 536870912000 1769184000
    rfl rfl rfl (by decide) rfl rfl rfl rfl
    (by decide) (by decide) (by decide) (by decide)
    (by decide) (by decide) (by decide) (by decide)

/-- A document whose first subscription-data template carries a quota that is not
positive is refused, whatever its other attributes, so `fetchAndProcess` leaves the
accumulator as it was. -/
theorem fetchAndProcess_of_quota_nonpos (htmlParse : HtmlParser) (env : UnitEnv) (url : String)
    (refreshStart : Time) (snapshot : Snapshot) (htmlBytes : Bytes) (doc n : Node) (t : Int)
    (hf : env.fetched = .ok htmlBytes) (hdoc : htmlParse htmlBytes = .ok doc)
    (hfirst : firstSubscriptionData doc = some n)
    (ht : n.intAttr "data-totalbyte" = some t) (ht0 : t ≤ 0) :
    fetchAndProcess htmlParse env url refreshStart snapshot = snapshot := by
  have hrej : Rejected doc := by
    unfold Rejected
    rw [hfirst]
    exact Or.inr (Or.inr (Or.inr (Or.inr (Or.inr (Or.inr (Or.inl ⟨t, ht, ht0⟩))))))
  obtain ⟨err, herr⟩ := ParseSubscription_error_of_rejected htmlParse htmlBytes doc hdoc hrej
  unfold fetchAndProcess
  simp only [hf, herr]

/-- C5, at the document of `TestParseSubscription_ZeroQuota` (identifier `test123`,
quota 0): `ParseSubscription` refuses the document, so `fetchAndProcess` leaves the
accumulator as it was and the result set has no record for `test123`, where the
claim asks for a Down-variant record. -/
theorem fetchAndProcess_zeroQuota_writes_nothing :
    ParseSubscription (parserOf zeroQuotaDoc) [] = .error (.totalByteNotPositive 0) ∧
    fetchAndProcess (parserOf zeroQuotaDoc)
      { fetched := .ok [], now := sampleNow, clock := sampleNow } "target" sampleNow ∅ = ∅ ∧
    (fetchAndProcess (parserOf zeroQuotaDoc)
      { fetched := .ok [], now := sampleNow, clock := sampleNow } "target" sampleNow ∅).get
        "test123" = none := by
  have hp : ParseSubscription (parserOf zeroQuotaDoc) [] = .error (.totalByteNotPositive 0) := rfl
  have hf : fetchAndProcess (parserOf zeroQuotaDoc)
      { fetched := .ok [], now := sampleNow, clock := sampleNow } "target" sampleNow ∅ = ∅ := by
    simp only [fetchAndProcess, hp]
  refine ⟨hp, hf, ?_⟩
  rw [hf]
  rfl

/-! ## The store (claim C9) -/

/-- Copying entries with distinct keys into a map that has none of them adds exactly
these entries. -/
theorem foldl_set_entries_perm (l : List (Sigma fun _ : String => SubscriptionMetrics)) :
    ∀ acc : Snapshot, l.NodupKeys → (∀ e ∈ l, e.1 ∉ acc) →
      (l.foldl (fun snapshot kv => snapshot.set kv.1 kv.2) acc).entries.Perm
        (l ++ acc.entries) := by
  induction l with
  | nil => intro acc _ _; exact List.Perm.refl _
  | cons e rest ih =>
    intro acc hnd hdisj
    rw [List.nodupKeys_cons] at hnd
    have he : e.1 ∉ acc := hdisj e (List.mem_cons_self _ _)
    have hacc : (acc.set e.1 e.2).entries = e :: acc.entries := by
      unfold GoMap.set
      rw [AList.insert_entries_of_neg he]
    have hdisj2 : ∀ e2 ∈ rest, e2.1 ∉ acc.set e.1 e.2 := by
      intro e2 he2 hmem
      unfold GoMap.set at hmem
      rw [AList.mem_insert] at hmem
      rcases hmem with h | h
      · exact hnd.1 (by rw [← h]; exact List.mem_keys_of_mem he2)
      · exact hdisj e2 (List.mem_cons_of_mem _ he2) h
    have := ih (acc.set e.1 e.2) hnd.2 hdisj2
    rw [List.foldl_cons]
    refine this.trans ?_
    rw [hacc]
    exact List.perm_middle

/-- The copy loop of `GetSnapshot` yields the entries it is given, whatever the order
of iteration. -/
theorem copyEntries_entries_perm (l : List (Sigma fun _ : String => SubscriptionMetrics))
    (h : l.NodupKeys) : (copyEntries l).entries.Perm l := by
  have := foldl_set_entries_perm l ∅ h (fun e _ => AList.not_mem_empty e.1)
  simpa [copyEntries] using this

/-- C9: for every store state and every result set `m`, `GetSnapshot` after
`SetSnapshot(m)` returns a mapping with exactly the entries of `m` — the same
entries, each key mapped as in `m`, and nothing for a key that `m` lacks, whatever
the store held before — and this for every order in which the copy loop may visit
the entries. -/
theorem Store_GetSnapshot_SetSnapshot (s : Store) (m : Snapshot) :
    (s.SetSnapshot m).GetSnapshot.entries.Perm m.entries ∧
    (∀ sid, (s.SetSnapshot m).GetSnapshot.get sid = m.get sid) ∧
    (∀ sid, m.get sid = none → (s.SetSnapshot m).GetSnapshot.get sid = none) ∧
    (∀ order : List (Sigma fun _ : String => SubscriptionMetrics), order.Perm m.entries →
      (copyEntries order).entries.Perm m.entries) := by
  have hperm : (s.SetSnapshot m).GetSnapshot.entries.Perm m.entries :=
    copyEntries_entries_perm m.entries m.nodupKeys
  have hget : ∀ sid, (s.SetSnapshot m).GetSnapshot.get sid = m.get sid :=
    fun sid => AList.perm_lookup hperm
  refine ⟨hperm, hget, ?_, ?_⟩
  · intro sid h
    rw [hget, h]
  · intro order ho
    have hnd : order.NodupKeys := (List.perm_nodupKeys ho).mpr m.nodupKeys
    exact (copyEntries_entries_perm order hnd).trans ho

/-! ## The accumulator -/

theorem applyWrites_get (writes : List (String × SubscriptionMetrics)) :
    ∀ (acc : Snapshot) (sid : String),
      (applyWrites writes acc).get sid =
        match lastWrite writes sid with
        | some m => some m
        | none => acc.get sid := by
  induction writes with
  | nil => intro acc sid; rfl
  | cons w rest ih =>
    intro acc sid
    unfold applyWrites at ih ⊢
    rw [List.foldl_cons, ih]
    unfold lastWrite
    rw [List.reverse_cons, List.find?_append]
    cases hf : rest.reverse.find? (fun w => decide (w.1 = sid)) with
    | some m => rfl
    | none =>
      simp only [Option.map_none', Option.none_or, GoMap.get_set, List.find?_cons,
        List.find?_nil]
      by_cases h : w.1 = sid <;> simp [h]

/-- The last write for an identifier that was written exists. -/
theorem lastWrite_isSome_of_mem {writes : List (String × SubscriptionMetrics)} {sid : String}
    {m : SubscriptionMetrics} (h : (sid, m) ∈ writes) : (lastWrite writes sid).isSome = true := by
  unfold lastWrite
  rw [Option.isSome_map', List.find?_isSome]
  exact ⟨(sid, m), List.mem_reverse.mpr h, by simp⟩

/-- The finished accumulator of a sequence of writes holds, for every identifier, the
record written last for it, and none for an identifier never written. -/
theorem applyWrites_empty_get (writes : List (String × SubscriptionMetrics)) (sid : String) :
    (applyWrites writes ∅).get sid = lastWrite writes sid := by
  rw [applyWrites_get]
  cases lastWrite writes sid <;> rfl

/-- An identifier that was written has exactly one entry in the finished accumulator. -/
theorem applyWrites_count_of_mem (writes : List (String × SubscriptionMetrics)) (sid : String)
    (m : SubscriptionMetrics) (hmem : (sid, m) ∈ writes) :
    (applyWrites writes ∅).keys.count sid = 1 := by
  have hsome := lastWrite_isSome_of_mem hmem
  rw [← applyWrites_empty_get] at hsome
  have hin : sid ∈ (applyWrites writes ∅).keys := by
    rw [← AList.mem_keys]
    exact AList.lookup_isSome.mp hsome
  exact List.count_eq_one_of_mem (AList.keys_nodup _) hin

/-- What `fetchAndProcess` does to the accumulator when the document is parsed: one
write of the computed record under the identifier of the document. -/
theorem fetchAndProcess_of_parsed (htmlParse : HtmlParser) (env : UnitEnv) (url : String)
    (refreshStart : Time) (snapshot : Snapshot) (htmlBytes : Bytes) (parsed : ParsedSubscription)
    (hf : env.fetched = .ok htmlBytes)
    (hp : ParseSubscription htmlParse htmlBytes = .ok parsed) :
    fetchAndProcess htmlParse env url refreshStart snapshot =
      snapshot.set parsed.SID (Compute env.now parsed refreshStart env.clock) := by
  have ht := ParseSubscription_totalByte_pos htmlParse htmlBytes parsed hp
  unfold fetchAndProcess
  simp only [hf, hp]
  rw [if_neg (by omega)]

/-- What `fetchAndProcess` does to the accumulator when the fetch fails or the
document is refused: nothing. -/
theorem fetchAndProcess_of_failed (htmlParse : HtmlParser) (env : UnitEnv) (url : String)
    (refreshStart : Time) (snapshot : Snapshot)
    (h : (∃ err, env.fetched = .error err) ∨
      ∃ htmlBytes err, env.fetched = .ok htmlBytes ∧
        ParseSubscription htmlParse htmlBytes = .error err) :
    fetchAndProcess htmlParse env url refreshStart snapshot = snapshot := by
  unfold fetchAndProcess
  rcases h with ⟨err, h⟩ | ⟨htmlBytes, err, h1, h2⟩
  · simp only [h]
  · simp only [h1, h2]

/-- A unit acts on the accumulator through its writes alone. -/
theorem fetchAndProcess_eq_applyWrites (htmlParse : HtmlParser) (unit : UnitEnv × String)
    (refreshStart : Time) (snapshot : Snapshot) :
    fetchAndProcess htmlParse unit.1 unit.2 refreshStart snapshot =
      applyWrites (unitWrites htmlParse refreshStart unit) snapshot := by
  unfold unitWrites
  cases hf : unit.1.fetched with
  | error err =>
    rw [fetchAndProcess_of_failed _ _ _ _ _ (Or.inl ⟨err, hf⟩),
      fetchAndProcess_of_failed _ _ _ _ _ (Or.inl ⟨err, hf⟩)]
    rfl
  | ok htmlBytes =>
    cases hp : ParseSubscription htmlParse htmlBytes with
    | error err =>
      rw [fetchAndProcess_of_failed _ _ _ _ _ (Or.inr ⟨htmlBytes, err, hf, hp⟩),
        fetchAndProcess_of_failed _ _ _ _ _ (Or.inr ⟨htmlBytes, err, hf, hp⟩)]
      rfl
    | ok parsed =>
      rw [fetchAndProcess_of_parsed _ _ _ _ _ htmlBytes parsed hf hp,
        fetchAndProcess_of_parsed _ _ _ _ _ htmlBytes parsed hf hp]
      have : (GoMap.set (∅ : Snapshot) parsed.SID
          (Compute unit.1.now parsed refreshStart unit.1.clock)).entries =
          [⟨parsed.SID, Compute unit.1.now parsed refreshStart unit.1.clock⟩] := by
        unfold GoMap.set
        rw [AList.insert_entries_of_neg (AList.not_mem_empty _)]
        rfl
      rw [this]
      rfl

theorem applyWrites_append (w1 w2 : List (String × SubscriptionMetrics)) (snapshot : Snapshot) :
    applyWrites (w1 ++ w2) snapshot = applyWrites w2 (applyWrites w1 snapshot) := by
  unfold applyWrites
  rw [List.foldl_append]

/-- A cycle acts on the accumulator through the writes of its units, in the order in
which the units enter the section under the mutex. -/
theorem runUnits_eq_applyWrites (htmlParse : HtmlParser) (refreshStart : Time)
    (units : List (UnitEnv × String)) :
    ∀ snapshot : Snapshot,
      runUnits htmlParse refreshStart units snapshot =
        applyWrites (units.flatMap (unitWrites htmlParse refreshStart)) snapshot := by
  induction units with
  | nil => intro snapshot; rfl
  | cons unit rest ih =>
    intro snapshot
    have hstep : runUnits htmlParse refreshStart (unit :: rest) snapshot =
        runUnits htmlParse refreshStart rest
          (fetchAndProcess htmlParse unit.1 unit.2 refreshStart snapshot) := rfl
    rw [hstep, ih, List.flatMap_cons, applyWrites_append, fetchAndProcess_eq_applyWrites]

/-! ## The collector (claim C8) -/

/-- With a label value that is valid UTF-8 `MustNewConstMetric` returns the gauge. -/
theorem MustNewConstMetric_of_valid (d : Desc) (v : F64) (sid : GoString)
    (h : utf8ValidString sid = true) :
    MustNewConstMetric d v [sid] = .ok { desc := d, value := v, labels := [sid] } := by
  simp [MustNewConstMetric, NewConstMetric, validateLabelValues, Desc.variableLabels, h]

/-- With a label value that is not valid UTF-8 `MustNewConstMetric` panics. -/
theorem MustNewConstMetric_of_invalid (d : Desc) (v : F64) (sid : GoString)
    (h : utf8ValidString sid = false) :
    MustNewConstMetric d v [sid] = .error "label value is not valid UTF-8" := by
  simp [MustNewConstMetric, NewConstMetric, validateLabelValues, Desc.variableLabels, h]

theorem Collected.send_of_valid (s : List Metric) (d : Desc) (v : F64) (sid : GoString)
    (h : utf8ValidString sid = true) :
    Collected.send { sent := s, panicked := false } d v [sid] =
      { sent := s ++ [{ desc := d, value := v, labels := [sid] }], panicked := false } := by
  unfold Collected.send
  rw [MustNewConstMetric_of_valid d v sid h]
  rfl

theorem Collected.send_of_invalid (s : List Metric) (d : Desc) (v : F64) (sid : GoString)
    (h : utf8ValidString sid = false) :
    Collected.send { sent := s, panicked := false } d v [sid] =
      { sent := s, panicked := true } := by
  unfold Collected.send
  rw [MustNewConstMetric_of_invalid d v sid h]
  rfl

theorem Collected.send_of_panicked (s : List Metric) (d : Desc) (v : F64)
    (labels : List GoString) :
    Collected.send { sent := s, panicked := true } d v labels =
      { sent := s, panicked := true } := rfl

/-- The body of the loop for an entry whose identifier is valid UTF-8: it sends the
gauges of the rule of export, and does not panic. -/
theorem collectEntry_of_valid (sid : GoString) (m : SubscriptionMetrics) (s : List Metric)
    (h : utf8ValidString sid = true) :
    collectEntry sid m { sent := s, panicked := false } =
      { sent := s ++ entryGauges sid m, panicked := false } := by
  unfold collectEntry entryGauges descsInOrder
  cases hU : m.Up <;>
  cases h1 : F64.gt m.LastRefreshTimestampSeconds F64.zero <;>
  cases h2 : F64.gt m.RefreshDurationSeconds F64.zero <;>
  simp [Collected.send_of_valid, h, shouldEmit, gaugeValue, hU, h1, h2, List.filter_cons]

/-- The body of the loop for an entry whose identifier is not valid UTF-8: the run
ends in a panic at the first statement, and nothing is sent for the entry. -/
theorem collectEntry_of_invalid (sid : GoString) (m : SubscriptionMetrics) (s : List Metric)
    (h : utf8ValidString sid = false) :
    collectEntry sid m { sent := s, panicked := false } = { sent := s, panicked := true } := by
  unfold collectEntry
  cases hU : m.Up <;>
  cases h1 : F64.gt m.LastRefreshTimestampSeconds F64.zero <;>
  cases h2 : F64.gt m.RefreshDurationSeconds F64.zero <;>
  simp [Collected.send_of_invalid, Collected.send_of_panicked, h]

/-- In a run that has ended in a panic the body of the loop does nothing. -/
theorem collectEntry_of_panicked (sid : GoString) (m : SubscriptionMetrics) (s : List Metric) :
    collectEntry sid m { sent := s, panicked := true } = { sent := s, panicked := true } := by
  unfold collectEntry
  cases hU : m.Up <;>
  cases h1 : F64.gt m.LastRefreshTimestampSeconds F64.zero <;>
  cases h2 : F64.gt m.RefreshDurationSeconds F64.zero <;>
  simp [Collected.send_of_panicked]

/-- In a run that has ended in a panic the loop does nothing. -/
theorem collectEntries_of_panicked
    (order : List (Sigma fun _ : GoString => SubscriptionMetrics)) (s : List Metric) :
    collectEntries order { sent := s, panicked := true } = { sent := s, panicked := true } := by
  induction order with
  | nil => rfl
  | cons e rest ih =>
    unfold collectEntries at ih ⊢
    rw [List.foldl_cons, collectEntry_of_panicked, ih]

/-- The loop over entries whose identifiers are all valid UTF-8: it sends the gauges
of the rule of export for each entry in turn, and does not panic. -/
theorem collectEntries_of_valid
    (order : List (Sigma fun _ : GoString => SubscriptionMetrics))
    (h : ∀ kv ∈ order, utf8ValidString kv.1 = true) :
    ∀ s : List Metric,
      collectEntries order { sent := s, panicked := false } =
        { sent := s ++ order.flatMap (fun kv => entryGauges kv.1 kv.2), panicked := false } := by
  induction order with
  | nil => intro s; simp [collectEntries]
  | cons e rest ih =>
    intro s
    have hstep : collectEntries (e :: rest) { sent := s, panicked := false } =
        collectEntries rest (collectEntry e.1 e.2 { sent := s, panicked := false }) := rfl
    rw [hstep, collectEntry_of_valid e.1 e.2 s (h e (List.mem_cons_self _ _)),
      ih (fun kv hkv => h kv (List.mem_cons_of_mem _ hkv)), List.flatMap_cons,
      List.append_assoc]

/-- The loop ends in a panic as soon as it meets an identifier that is not valid
UTF-8, and then every gauge sent belongs to an entry visited before. -/
theorem collectEntries_of_invalid
    (before after : List (Sigma fun _ : GoString => SubscriptionMetrics))
    (e : Sigma fun _ : GoString => SubscriptionMetrics)
    (hbefore : ∀ kv ∈ before, utf8ValidString kv.1 = true)
    (he : utf8ValidString e.1 = false) (s : List Metric) :
    collectEntries (before ++ e :: after) { sent := s, panicked := false } =
      { sent := s ++ before.flatMap (fun kv => entryGauges kv.1 kv.2), panicked := true } := by
  have happ : collectEntries (before ++ e :: after) { sent := s, panicked := false } =
      collectEntries after (collectEntry e.1 e.2
        (collectEntries before { sent := s, panicked := false })) := by
    unfold collectEntries
    rw [List.foldl_append, List.foldl_cons]
  rw [happ, collectEntries_of_valid before hbefore, collectEntry_of_invalid e.1 e.2 _ he,
    collectEntries_of_panicked]

/-- Every gauge of an entry is labelled with the key of the entry. -/
theorem entryGauges_labels (sid : GoString) (m : SubscriptionMetrics) :
    ∀ x ∈ entryGauges sid m, x.labels = [sid] := by
  intro x hx
  unfold entryGauges at hx
  rw [List.mem_map] at hx
  obtain ⟨d, _, hd⟩ := hx
  rw [← hd]

/-- The gauges of one descriptor among those made from a list of distinct
descriptors. -/
theorem gaugesFor_map_filter (p : Desc → Bool) (g : Desc → F64) (sid : GoString) (d : Desc) :
    ∀ l : List Desc, l.Nodup →
      gaugesFor ((l.filter p).map fun e => { desc := e, value := g e, labels := [sid] }) d sid =
        if d ∈ l ∧ p d = true then [{ desc := d, value := g d, labels := [sid] }] else [] := by
  intro l
  induction l with
  | nil => intro _; rfl
  | cons a rest ih =>
    intro hnd
    rw [List.nodup_cons] at hnd
    have hrest := ih hnd.2
    unfold gaugesFor at hrest ⊢
    by_cases had : a = d
    · subst had
      have hnot : ¬ (a ∈ rest ∧ p a = true) := fun h => hnd.1 h.1
      rw [if_neg hnot] at hrest
      cases hpa : p a
      · rw [List.filter_cons_of_neg (by simp [hpa]), hrest]
        simp [hpa]
      · rw [List.filter_cons_of_pos hpa, List.map_cons, List.filter_cons_of_pos (by simp),
          hrest]
        simp [hpa]
    · have hiff : (d ∈ a :: rest ∧ p d = true) ↔ (d ∈ rest ∧ p d = true) := by
        rw [List.mem_cons]
        constructor
        · rintro ⟨h | h, hp⟩
          · exact absurd h.symm had
          · exact ⟨h, hp⟩
        · rintro ⟨h, hp⟩
          exact ⟨Or.inr h, hp⟩
      rw [if_congr hiff rfl rfl, ← hrest]
      cases hpa : p a
      · rw [List.filter_cons_of_neg (by simp [hpa])]
      · rw [List.filter_cons_of_pos hpa, List.map_cons, List.filter_cons_of_neg (by simp [had])]

/-- The gauges of one entry, descriptor by descriptor: one gauge with the value of
the field when the rule of export admits it, none otherwise. -/
theorem gaugesFor_entryGauges (sid : GoString) (m : SubscriptionMetrics) (d : Desc) :
    gaugesFor (entryGauges sid m) d sid =
      if shouldEmit d m = true then [{ desc := d, value := gaugeValue d m, labels := [sid] }]
      else [] := by
  unfold entryGauges
  rw [gaugesFor_map_filter (fun e => shouldEmit e m) (fun e => gaugeValue e m) sid d
    descsInOrder (by decide)]
  have hd : d ∈ descsInOrder := by cases d <;> decide
  simp only [hd, true_and]

/-- An entry contributes nothing to the gauges of another identifier. -/
theorem gaugesFor_entryGauges_of_ne (k sid : GoString) (m : SubscriptionMetrics) (d : Desc)
    (h : k ≠ sid) : gaugesFor (entryGauges k m) d sid = [] := by
  unfold gaugesFor
  rw [List.filter_eq_nil_iff]
  intro x hx
  have := entryGauges_labels k m x hx
  simp only [decide_eq_true_eq, not_and]
  intro _ hl
  rw [this] at hl
  exact h (List.cons.inj hl).1

theorem gaugesFor_flatMap_entryGauges
    (l : List (Sigma fun _ : GoString => SubscriptionMetrics)) (d : Desc) (sid : GoString) :
    gaugesFor (l.flatMap fun kv => entryGauges kv.1 kv.2) d sid =
      l.flatMap fun kv => gaugesFor (entryGauges kv.1 kv.2) d sid := by
  induction l with
  | nil => rfl
  | cons e rest ih =>
    unfold gaugesFor at ih ⊢
    rw [List.flatMap_cons, List.filter_append, ih, List.flatMap_cons]

/-- Among entries with distinct keys only the entry of `sid` contributes to the gauges
of `sid`. -/
theorem gaugesFor_flatMap_entryGauges_of_mem
    (l : List (Sigma fun _ : GoString => SubscriptionMetrics))
    (hnd : l.NodupKeys) (d : Desc) (sid : GoString) (m : SubscriptionMetrics)
    (hmem : (⟨sid, m⟩ : Sigma fun _ : GoString => SubscriptionMetrics) ∈ l) :
    gaugesFor (l.flatMap fun kv => entryGauges kv.1 kv.2) d sid =
      gaugesFor (entryGauges sid m) d sid := by
  rw [gaugesFor_flatMap_entryGauges]
  induction l with
  | nil => exact absurd hmem (List.not_mem_nil _)
  | cons e rest ih =>
    rw [List.nodupKeys_cons] at hnd
    rw [List.flatMap_cons]
    rcases List.mem_cons.mp hmem with h | h
    · subst h
      have hrest : (rest.flatMap fun kv => gaugesFor (entryGauges kv.1 kv.2) d sid) = [] := by
        rw [List.flatMap_eq_nil_iff]
        intro kv hkv
        apply gaugesFor_entryGauges_of_ne
        intro hk
        exact hnd.1 (by
          have := List.mem_keys_of_mem hkv
          rw [hk] at this
          exact this)
      rw [hrest, List.append_nil]
    · have hne : e.1 ≠ sid := by
        intro hk
        exact hnd.1 (by
          have := List.mem_keys_of_mem h
          rw [hk]
          exact this)
      rw [gaugesFor_entryGauges_of_ne e.1 sid e.2 d hne, List.nil_append]
      exact ih hnd.2 h

/-- Entries of which one has an identifier that is not valid UTF-8 split at the first
such entry. -/
theorem exists_first_invalid (order : List (Sigma fun _ : GoString => SubscriptionMetrics))
    (h : ∃ kv ∈ order, utf8ValidString kv.1 = false) :
    ∃ before e after, order = before ++ e :: after ∧
      (∀ kv ∈ before, utf8ValidString kv.1 = true) ∧ utf8ValidString e.1 = false := by
  induction order with
  | nil =>
    obtain ⟨kv, hkv, _⟩ := h
    exact absurd hkv (List.not_mem_nil _)
  | cons e rest ih =>
    cases he : utf8ValidString e.1 with
    | false => exact ⟨[], e, rest, rfl, fun _ hkv => absurd hkv (List.not_mem_nil _), he⟩
    | true =>
      have hrest : ∃ kv ∈ rest, utf8ValidString kv.1 = false := by
        obtain ⟨kv, hkv, hinv⟩ := h
        rcases List.mem_cons.mp hkv with hk | hk
        · rw [hk, he] at hinv
          exact absurd hinv (by decide)
        · exact ⟨kv, hk, hinv⟩
      obtain ⟨before, e2, after, hsplit, hbefore, he2⟩ := ih hrest
      refine ⟨e :: before, e2, after, by rw [hsplit]; rfl, ?_, he2⟩
      intro kv hkv
      rcases List.mem_cons.mp hkv with hk | hk
      · rw [hk]; exact he
      · exact hbefore kv hk

/-- The loop panics if and only if the snapshot holds an identifier that is not valid
UTF-8, in whatever order the entries are visited. -/
theorem collectEntries_panicked_iff
    (order : List (Sigma fun _ : GoString => SubscriptionMetrics)) :
    (collectEntries order { sent := [], panicked := false }).panicked = true ↔
      ∃ kv ∈ order, utf8ValidString kv.1 = false := by
  constructor
  · intro hp
    by_contra hno
    have hall : ∀ kv ∈ order, utf8ValidString kv.1 = true := by
      intro kv hkv
      cases hv : utf8ValidString kv.1 with
      | true => rfl
      | false => exact absurd ⟨kv, hkv, hv⟩ hno
    rw [collectEntries_of_valid order hall] at hp
    exact Bool.noConfusion hp
  · intro h
    obtain ⟨before, e, after, hsplit, hbefore, he⟩ := exists_first_invalid order h
    rw [hsplit, collectEntries_of_invalid before after e hbefore he]

/-- No gauge is ever sent with a label that is not valid UTF-8. -/
theorem collectEntries_sent_valid
    (order : List (Sigma fun _ : GoString => SubscriptionMetrics)) :
    ∀ x ∈ (collectEntries order { sent := [], panicked := false }).sent,
      ∃ kv ∈ order, x.labels = [kv.1] ∧ utf8ValidString kv.1 = true := by
  intro x hx
  by_cases h : ∃ kv ∈ order, utf8ValidString kv.1 = false
  · obtain ⟨before, e, after, hsplit, hbefore, he⟩ := exists_first_invalid order h
    rw [hsplit, collectEntries_of_invalid before after e hbefore he, List.nil_append,
      List.mem_flatMap] at hx
    obtain ⟨kv, hkv, hxk⟩ := hx
    exact ⟨kv, by rw [hsplit]; exact List.mem_append_left _ hkv,
      entryGauges_labels kv.1 kv.2 x hxk, hbefore kv hkv⟩
  · have hall : ∀ kv ∈ order, utf8ValidString kv.1 = true := by
      intro kv hkv
      cases hv : utf8ValidString kv.1 with
      | true => rfl
      | false => exact absurd ⟨kv, hkv, hv⟩ h
    rw [collectEntries_of_valid order hall, List.nil_append, List.mem_flatMap] at hx
    obtain ⟨kv, hkv, hxk⟩ := hx
    exact ⟨kv, hkv, entryGauges_labels kv.1 kv.2 x hxk, hall kv hkv⟩

/-- A record held under an identifier that is not valid UTF-8 makes `Collect` panic,
and no gauge is sent for it, not even the up gauge, whatever else the snapshot holds
and in whatever order the entries are visited. -/
theorem Collect_of_invalid_key (snapshot : LabelSnapshot) (sid : GoString)
    (m : SubscriptionMetrics) (hm : snapshot.lookup sid = some m)
    (hinv : utf8ValidString sid = false) :
    (Collect snapshot).panicked = true ∧
    (∀ d, gaugesFor (Collect snapshot).sent d sid = []) ∧
    (∀ order : List (Sigma fun _ : GoString => SubscriptionMetrics),
      order.Perm snapshot.entries →
      (collectEntries order { sent := [], panicked := false }).panicked = true ∧
      ∀ d, gaugesFor (collectEntries order { sent := [], panicked := false }).sent d sid
        = []) := by
  have hmem : (⟨sid, m⟩ : Sigma fun _ : GoString => SubscriptionMetrics) ∈
      snapshot.entries := AList.mem_lookup_iff.mp (show m ∈ AList.lookup sid snapshot from hm)
  have hord : ∀ order : List (Sigma fun _ : GoString => SubscriptionMetrics),
      order.Perm snapshot.entries →
      (collectEntries order { sent := [], panicked := false }).panicked = true ∧
      ∀ d, gaugesFor (collectEntries order { sent := [], panicked := false }).sent d sid
        = [] := by
    intro order ho
    refine ⟨(collectEntries_panicked_iff order).mpr ⟨⟨sid, m⟩, ho.symm.subset hmem, hinv⟩, ?_⟩
    intro d
    unfold gaugesFor
    rw [List.filter_eq_nil_iff]
    intro x hx
    obtain ⟨kv, _, hl, hv⟩ := collectEntries_sent_valid order x hx
    simp only [decide_eq_true_eq, not_and]
    intro _ hl2
    rw [hl] at hl2
    rw [(List.cons.inj hl2).1, hinv] at hv
    exact absurd hv (by decide)
  exact ⟨(hord snapshot.entries (List.Perm.refl _)).1,
    (hord snapshot.entries (List.Perm.refl _)).2, hord⟩

/-- For a snapshot whose identifiers are all valid UTF-8 and every record `m` that it
holds under the identifier `sid`, `Collect` does not panic and emits for `sid`,
descriptor by descriptor, exactly one gauge with the value of the field when the rule
of export admits it and none otherwise: the up gauge always (1 if `Up`, else 0), the
last-refresh-timestamp and refresh-duration gauges if and only if their field is
`> 0`, and each of the twelve raw and derived gauges if and only if `Up` is true; so
a record that is not up emits no raw or derived gauge.  Every gauge emitted is
labelled with an identifier of the snapshot, and the gauges of `sid` are the same for
every order in which the loop may visit the entries. -/
theorem Collect_emits_of_valid_labels (snapshot : LabelSnapshot)
    (hvalid : ∀ kv ∈ snapshot.entries, utf8ValidString kv.1 = true)
    (sid : GoString) (m : SubscriptionMetrics) (hm : snapshot.lookup sid = some m) :
    (Collect snapshot).panicked = false ∧
    (∀ d, gaugesFor (Collect snapshot).sent d sid =
      if shouldEmit d m = true then [{ desc := d, value := gaugeValue d m, labels := [sid] }]
      else []) ∧
    gaugesFor (Collect snapshot).sent .up sid =
      [{ desc := .up, value := if m.Up = true then F64.fin 1 else F64.fin 0,
         labels := [sid] }] ∧
    (∀ d, d.isRawOrDerived = true →
      ((gaugesFor (Collect snapshot).sent d sid).length = 1 ↔ m.Up = true) ∧
      (gaugesFor (Collect snapshot).sent d sid = [] ↔ m.Up = false)) ∧
    (m.Up = false →
      ∀ x ∈ (Collect snapshot).sent, x.labels = [sid] → x.desc.isRawOrDerived = false) ∧
    (∀ x ∈ (Collect snapshot).sent, ∃ k, x.labels = [k] ∧ (snapshot.lookup k).isSome = true) ∧
    (∀ order : List (Sigma fun _ : GoString => SubscriptionMetrics),
      order.Perm snapshot.entries → ∀ d,
        gaugesFor (collectEntries order { sent := [], panicked := false }).sent d sid =
          if shouldEmit d m = true then
            [{ desc := d, value := gaugeValue d m, labels := [sid] }]
          else []) := by
  have hmem : (⟨sid, m⟩ : Sigma fun _ : GoString => SubscriptionMetrics) ∈
      snapshot.entries := AList.mem_lookup_iff.mp (show m ∈ AList.lookup sid snapshot from hm)
  have hrun : Collect snapshot =
      { sent := snapshot.entries.flatMap (fun kv => entryGauges kv.1 kv.2),
        panicked := false } := by
    unfold Collect
    rw [collectEntries_of_valid snapshot.entries hvalid, List.nil_append]
  have hall : ∀ d, gaugesFor (Collect snapshot).sent d sid =
      if shouldEmit d m = true then [{ desc := d, value := gaugeValue d m, labels := [sid] }]
      else [] := by
    intro d
    rw [hrun, gaugesFor_flatMap_entryGauges_of_mem _ snapshot.nodupKeys d sid m hmem,
      gaugesFor_entryGauges]
  have hraw : ∀ d, d.isRawOrDerived = true → shouldEmit d m = m.Up := by
    intro d hd
    cases d <;> first | rfl | exact absurd hd (by decide)
  refine ⟨by rw [hrun], hall, ?_, ?_, ?_, ?_, ?_⟩
  · rw [hall]
    simp [shouldEmit, gaugeValue, boolToFloat64]
  · intro d hd
    rw [hall, hraw d hd]
    cases m.Up <;> simp
  · intro hdown x hx hl
    by_contra hc
    have hd : x.desc.isRawOrDerived = true := by
      cases h : x.desc.isRawOrDerived
      · exact absurd h hc
      · rfl
    have hin : x ∈ gaugesFor (Collect snapshot).sent x.desc sid := by
      unfold gaugesFor
      rw [List.mem_filter]
      exact ⟨hx, by simp [hl]⟩
    rw [hall, hraw x.desc hd, hdown] at hin
    simp at hin
  · intro x hx
    rw [hrun, List.mem_flatMap] at hx
    obtain ⟨kv, hkv, hxk⟩ := hx
    refine ⟨kv.1, entryGauges_labels kv.1 kv.2 x hxk, ?_⟩
    have : kv.2 ∈ AList.lookup kv.1 snapshot := AList.mem_lookup_iff.mpr hkv
    rw [Option.mem_def.mp this]
    rfl
  · intro order ho d
    have hnd : order.NodupKeys := (List.perm_nodupKeys ho).mpr snapshot.nodupKeys
    have hv : ∀ kv ∈ order, utf8ValidString kv.1 = true :=
      fun kv hkv => hvalid kv (ho.subset hkv)
    rw [collectEntries_of_valid order hv, List.nil_append,
      gaugesFor_flatMap_entryGauges_of_mem order hnd d sid m (ho.symm.subset hmem),
      gaugesFor_entryGauges]

/-- A snapshot that holds one Down-variant record under `failed123`: `Collect` does
not panic, the up gauge of the record is 0, and it has no download gauge. -/
theorem Collect_downSnapshot :
    downSnapshot.lookup failedSID = some downRecord ∧
    (Collect downSnapshot).panicked = false ∧
    gaugesFor (Collect downSnapshot).sent .up failedSID =
      [{ desc := .up, value := F64.fin 0, labels := [failedSID] }] ∧
    gaugesFor (Collect downSnapshot).sent .downloadBytes failedSID = [] :=
  have hv : ∀ kv ∈ downSnapshot.entries, utf8ValidString kv.1 = true := by
    intro kv hkv
    have : kv = ⟨failedSID, downRecord⟩ := by simpa [downSnapshot] using hkv
    rw [this]
    decide
  ⟨rfl,
    (Collect_emits_of_valid_labels downSnapshot hv failedSID downRecord rfl).1,
    (Collect_emits_of_valid_labels downSnapshot hv failedSID downRecord rfl).2.2.1,
    ((Collect_emits_of_valid_labels downSnapshot hv failedSID downRecord rfl).2.2.2.1
      .downloadBytes rfl).2.mpr rfl⟩

/-- C8, as stated, fails in the code: with the snapshot that holds one record, any
record `m`, under the identifier `"a\xffb"`, whose byte `0xff` is not valid UTF-8,
the first statement of the loop of `Collect`, commented `Always export up metric`,
panics inside `MustNewConstMetric`; the run ends with no gauge sent, so the record
has no up gauge, although the claim gives every record exactly one. -/
theorem Collect_invalid_label_panics (m : SubscriptionMetrics) :
    utf8ValidString invalidSID = false ∧
    (AList.insert invalidSID m (∅ : LabelSnapshot)).lookup invalidSID = some m ∧
    MustNewConstMetric .up (boolToFloat64 m.Up) [invalidSID] =
      .error "label value is not valid UTF-8" ∧
    Collect (AList.insert invalidSID m ∅) = { sent := [], panicked := true } ∧
    gaugesFor (Collect (AList.insert invalidSID m ∅)).sent .up invalidSID = [] := by
  have hinv : utf8ValidString invalidSID = false := by decide
  have hrun : Collect (AList.insert invalidSID m ∅) = { sent := [], panicked := true } := by
    have hentries : (AList.insert invalidSID m (∅ : LabelSnapshot)).entries =
        [⟨invalidSID, m⟩] := by
      rw [AList.insert_entries_of_neg (AList.not_mem_empty _)]
      rfl
    unfold Collect
    rw [hentries]
    exact collectEntries_of_invalid [] [] ⟨invalidSID, m⟩
      (fun _ h => absurd h (List.not_mem_nil _)) hinv []
  refine ⟨hinv, AList.lookup_insert _, MustNewConstMetric_of_invalid _ _ _ hinv, hrun, ?_⟩
  rw [hrun]
  rfl

/-! ## The writes of a unit (claim C11) -/

theorem GoMap.set_entries_length_le {V : Type} (m : GoMap V) (k : String) (v : V) :
    (m.set k v).entries.length ≤ m.entries.length + 1 := by
  unfold GoMap.set
  rw [AList.insert_entries, List.length_cons]
  exact Nat.succ_le_succ (List.kerase_sublist k m.entries).length_le

/-- A sequence of writes adds at most one entry per write. -/
theorem applyWrites_entries_length_le (writes : List (String × SubscriptionMetrics)) :
    ∀ acc : Snapshot,
      (applyWrites writes acc).entries.length ≤ acc.entries.length + writes.length := by
  induction writes with
  | nil => intro acc; exact Nat.le_refl _
  | cons w rest ih =>
    intro acc
    have h1 := ih (acc.set w.1 w.2)
    have h2 := GoMap.set_entries_length_le acc w.1 w.2
    have hstep : applyWrites (w :: rest) acc = applyWrites rest (acc.set w.1 w.2) := rfl
    rw [hstep, List.length_cons]
    omega

/-- The writes of a unit whose fetch fails or whose document is refused: none. -/
theorem unitWrites_of_failed (htmlParse : HtmlParser) (refreshStart : Time)
    (unit : UnitEnv × String)
    (h : (∃ err, unit.1.fetched = .error err) ∨
      ∃ htmlBytes err, unit.1.fetched = .ok htmlBytes ∧
        ParseSubscription htmlParse htmlBytes = .error err) :
    unitWrites htmlParse refreshStart unit = [] := by
  unfold unitWrites
  rw [fetchAndProcess_of_failed htmlParse unit.1 unit.2 refreshStart ∅ h]
  rfl

/-- The writes of a unit whose document is parsed: the one write of the computed
record under the identifier of the document. -/
theorem unitWrites_of_parsed (htmlParse : HtmlParser) (refreshStart : Time)
    (unit : UnitEnv × String) (htmlBytes : Bytes) (parsed : ParsedSubscription)
    (hf : unit.1.fetched = .ok htmlBytes)
    (hp : ParseSubscription htmlParse htmlBytes = .ok parsed) :
    unitWrites htmlParse refreshStart unit =
      [(parsed.SID, Compute unit.1.now parsed refreshStart unit.1.clock)] := by
  unfold unitWrites
  rw [fetchAndProcess_of_parsed htmlParse unit.1 unit.2 refreshStart ∅ htmlBytes parsed hf hp]
  unfold GoMap.set
  rw [AList.insert_entries_of_neg (AList.not_mem_empty _)]
  rfl

/-- A unit writes at most once. -/
theorem unitWrites_length_le_one (htmlParse : HtmlParser) (refreshStart : Time)
    (unit : UnitEnv × String) : (unitWrites htmlParse refreshStart unit).length ≤ 1 := by
  cases hf : unit.1.fetched with
  | error err =>
    rw [unitWrites_of_failed htmlParse refreshStart unit (Or.inl ⟨err, hf⟩)]
    exact Nat.zero_le _
  | ok htmlBytes =>
    cases hp : ParseSubscription htmlParse htmlBytes with
    | error err =>
      rw [unitWrites_of_failed htmlParse refreshStart unit (Or.inr ⟨htmlBytes, err, hf, hp⟩)]
      exact Nat.zero_le _
    | ok parsed =>
      rw [unitWrites_of_parsed htmlParse refreshStart unit htmlBytes parsed hf hp]
      exact Nat.le_refl _

theorem flatMap_unitWrites_length_le (htmlParse : HtmlParser) (refreshStart : Time)
    (units : List (UnitEnv × String)) :
    (units.flatMap (unitWrites htmlParse refreshStart)).length ≤ units.length := by
  induction units with
  | nil => exact Nat.le_refl _
  | cons unit rest ih =>
    rw [List.flatMap_cons, List.length_append, List.length_cons]
    have := unitWrites_length_le_one htmlParse refreshStart unit
    omega

/-- The accumulator of a cycle never has more entries than there are units. -/
theorem runUnits_entries_length_le (htmlParse : HtmlParser) (refreshStart : Time)
    (units : List (UnitEnv × String)) :
    (runUnits htmlParse refreshStart units ∅).entries.length ≤ units.length := by
  rw [runUnits_eq_applyWrites]
  have h1 := applyWrites_entries_length_le
    (units.flatMap (unitWrites htmlParse refreshStart)) ∅
  have h2 := flatMap_unitWrites_length_le htmlParse refreshStart units
  have h3 : (∅ : Snapshot).entries.length = 0 := rfl
  omega

/-- The unit `failedUnit`, whose fetch fails, writes nothing. -/
theorem unitWrites_failedUnit :
    unitWrites (parserOf successDoc) sampleNow failedUnit = [] :=
  unitWrites_of_failed (parserOf successDoc) sampleNow failedUnit
    (Or.inl ⟨"connection refused", rfl⟩)

/-- C11: a unit whose fetch returns an error, or whose fetched document makes
`ParseSubscription` return an error, performs no write — the accumulator after
`fetchAndProcess` equals the accumulator before it; every other unit performs exactly
one write, of a record under the identifier of its document; so the finished result
set, and the snapshot that `refresh` publishes, never has more entries than there
are targets. -/
theorem fetchAndProcess_write_count (htmlParse : HtmlParser) (refreshStart : Time) :
    (∀ (env : UnitEnv) (url : String) (snapshot : Snapshot),
      ((∃ err, env.fetched = .error err) ∨
        ∃ htmlBytes err, env.fetched = .ok htmlBytes ∧
          ParseSubscription htmlParse htmlBytes = .error err) →
      fetchAndProcess htmlParse env url refreshStart snapshot = snapshot ∧
      unitWrites htmlParse refreshStart (env, url) = []) ∧
    (∀ (env : UnitEnv) (url : String) (snapshot : Snapshot) (htmlBytes : Bytes)
      (parsed : ParsedSubscription),
      env.fetched = .ok htmlBytes → ParseSubscription htmlParse htmlBytes = .ok parsed →
      ∃ m, unitWrites htmlParse refreshStart (env, url) = [(parsed.SID, m)] ∧
        fetchAndProcess htmlParse env url refreshStart snapshot = snapshot.set parsed.SID m) ∧
    (∀ units : List (UnitEnv × String),
      (runUnits htmlParse refreshStart units ∅).entries.length ≤ units.length) ∧
    (∀ (units : List (UnitEnv × String)) (st : Store),
      (refresh htmlParse refreshStart units st).GetSnapshot.entries.length ≤ units.length) := by
  refine ⟨?_, ?_, ?_, ?_⟩
  · intro env url snapshot h
    exact ⟨fetchAndProcess_of_failed htmlParse env url refreshStart snapshot h,
      unitWrites_of_failed htmlParse refreshStart (env, url) h⟩
  · intro env url snapshot htmlBytes parsed hf hp
    exact ⟨Compute env.now parsed refreshStart env.clock,
      unitWrites_of_parsed htmlParse refreshStart (env, url) htmlBytes parsed hf hp,
      fetchAndProcess_of_parsed htmlParse env url refreshStart snapshot htmlBytes parsed hf hp⟩
  · exact runUnits_entries_length_le htmlParse refreshStart
  · intro units st
    have hperm : (refresh htmlParse refreshStart units st).GetSnapshot.entries.Perm
        (runUnits htmlParse refreshStart units ∅).entries :=
      copyEntries_entries_perm _ (runUnits htmlParse refreshStart units ∅).nodupKeys
    rw [hperm.length_eq]
    exact runUnits_entries_length_le htmlParse refreshStart units

/-! ## The finished result set (claim C10) -/

/-- The last write of two sequences of writes, one after the other: that of the
second when it has one, else that of the first. -/
theorem lastWrite_append (w1 w2 : List (String × SubscriptionMetrics)) (sid : String) :
    lastWrite (w1 ++ w2) sid =
      match lastWrite w2 sid with
      | some m => some m
      | none => lastWrite w1 sid := by
  unfold lastWrite
  rw [List.reverse_append, List.find?_append]
  cases w2.reverse.find? (fun w => decide (w.1 = sid)) <;> rfl

/-- No write for an identifier, no last write. -/
theorem lastWrite_eq_none (writes : List (String × SubscriptionMetrics)) (sid : String)
    (h : ∀ w ∈ writes, w.1 ≠ sid) : lastWrite writes sid = none := by
  unfold lastWrite
  rw [Option.map_eq_none', List.find?_eq_none]
  intro w hw
  simpa using h w (List.mem_reverse.mp hw)

/-- The identifier that a unit yields, when its document is parsed. -/
theorem yieldedSID_of_parsed (htmlParse : HtmlParser) (unit : UnitEnv × String)
    (htmlBytes : Bytes) (parsed : ParsedSubscription)
    (hf : unit.1.fetched = .ok htmlBytes)
    (hp : ParseSubscription htmlParse htmlBytes = .ok parsed) :
    yieldedSID htmlParse unit = some parsed.SID := by
  unfold yieldedSID
  simp only [hf, hp]

/-- A unit writes under the identifier that it yields alone. -/
theorem yieldedSID_of_mem_unitWrites (htmlParse : HtmlParser) (refreshStart : Time)
    (unit : UnitEnv × String) (w : String × SubscriptionMetrics)
    (hw : w ∈ unitWrites htmlParse refreshStart unit) :
    yieldedSID htmlParse unit = some w.1 := by
  cases hf : unit.1.fetched with
  | error err =>
    rw [unitWrites_of_failed htmlParse refreshStart unit (Or.inl ⟨err, hf⟩)] at hw
    exact absurd hw (List.not_mem_nil _)
  | ok htmlBytes =>
    cases hp : ParseSubscription htmlParse htmlBytes with
    | error err =>
      rw [unitWrites_of_failed htmlParse refreshStart unit
        (Or.inr ⟨htmlBytes, err, hf, hp⟩)] at hw
      exact absurd hw (List.not_mem_nil _)
    | ok parsed =>
      rw [unitWrites_of_parsed htmlParse refreshStart unit htmlBytes parsed hf hp,
        List.mem_singleton] at hw
      rw [hw]
      exact yieldedSID_of_parsed htmlParse unit htmlBytes parsed hf hp

/-- A unit that yields an identifier writes a record under it. -/
theorem mem_unitWrites_of_yieldedSID (htmlParse : HtmlParser) (refreshStart : Time)
    (unit : UnitEnv × String) (sid : String) (h : yieldedSID htmlParse unit = some sid) :
    ∃ m, (sid, m) ∈ unitWrites htmlParse refreshStart unit := by
  unfold yieldedSID at h
  cases hf : unit.1.fetched with
  | error err => simp only [hf] at h; exact absurd h (by simp)
  | ok htmlBytes =>
    cases hp : ParseSubscription htmlParse htmlBytes with
    | error err => simp only [hf, hp] at h; exact absurd h (by simp)
    | ok parsed =>
      simp only [hf, hp, Option.some.injEq] at h
      refine ⟨Compute unit.1.now parsed refreshStart unit.1.clock, ?_⟩
      rw [unitWrites_of_parsed htmlParse refreshStart unit htmlBytes parsed hf hp, ← h]
      exact List.mem_singleton.mpr rfl

/-- Units none of which yields an identifier perform no write for it. -/
theorem lastWrite_flatMap_unitWrites_eq_none (htmlParse : HtmlParser) (refreshStart : Time)
    (units : List (UnitEnv × String)) (sid : String)
    (h : ∀ unit ∈ units, yieldedSID htmlParse unit ≠ some sid) :
    lastWrite (units.flatMap (unitWrites htmlParse refreshStart)) sid = none := by
  apply lastWrite_eq_none
  intro w hw hsid
  obtain ⟨unit, hunit, hwu⟩ := List.mem_flatMap.mp hw
  have := yieldedSID_of_mem_unitWrites htmlParse refreshStart unit w hwu
  rw [hsid] at this
  exact h unit hunit this

/-- Among units of which one yields an identifier there is a last one that does. -/
theorem exists_last_yielding (htmlParse : HtmlParser) (sid : String)
    (units : List (UnitEnv × String))
    (h : ∃ unit ∈ units, yieldedSID htmlParse unit = some sid) :
    ∃ pre unit post, units = pre ++ unit :: post ∧ yieldedSID htmlParse unit = some sid ∧
      ∀ later ∈ post, yieldedSID htmlParse later ≠ some sid := by
  induction units with
  | nil =>
    obtain ⟨unit, hunit, _⟩ := h
    exact absurd hunit (List.not_mem_nil _)
  | cons a rest ih =>
    by_cases hrest : ∃ unit ∈ rest, yieldedSID htmlParse unit = some sid
    · obtain ⟨pre, unit, post, hsplit, hy, hlater⟩ := ih hrest
      exact ⟨a :: pre, unit, post, by rw [hsplit]; rfl, hy, hlater⟩
    · have ha : yieldedSID htmlParse a = some sid := by
        obtain ⟨unit, hunit, hy⟩ := h
        rcases List.mem_cons.mp hunit with hu | hu
        · rw [← hu]; exact hy
        · exact absurd ⟨unit, hu, hy⟩ hrest
      exact ⟨[], a, rest, rfl, ha, fun later hl hy => hrest ⟨later, hl, hy⟩⟩

/-- A unit that yields an identifier has fetched a document that is parsed to a
record with this identifier. -/
theorem parsed_of_yieldedSID (htmlParse : HtmlParser) (unit : UnitEnv × String) (sid : String)
    (h : yieldedSID htmlParse unit = some sid) :
    ∃ htmlBytes parsed, unit.1.fetched = .ok htmlBytes ∧
      ParseSubscription htmlParse htmlBytes = .ok parsed ∧ parsed.SID = sid := by
  unfold yieldedSID at h
  cases hf : unit.1.fetched with
  | error err => simp only [hf] at h; exact absurd h (by simp)
  | ok htmlBytes =>
    cases hp : ParseSubscription htmlParse htmlBytes with
    | error err => simp only [hf, hp] at h; exact absurd h (by simp)
    | ok parsed =>
      simp only [hf, hp, Option.some.injEq] at h
      exact ⟨htmlBytes, parsed, rfl, hp, h⟩

/-- The record that the finished result set of a cycle holds for the identifier of a
unit after which no unit yields the same identifier: the one this unit computed. -/
theorem runUnits_get_of_last (htmlParse : HtmlParser) (refreshStart : Time)
    (pre post : List (UnitEnv × String)) (unit : UnitEnv × String) (htmlBytes : Bytes)
    (parsed : ParsedSubscription)
    (hf : unit.1.fetched = .ok htmlBytes)
    (hp : ParseSubscription htmlParse htmlBytes = .ok parsed)
    (hlater : ∀ later ∈ post, yieldedSID htmlParse later ≠ some parsed.SID) :
    (runUnits htmlParse refreshStart (pre ++ unit :: post) ∅).get parsed.SID =
      some (Compute unit.1.now parsed refreshStart unit.1.clock) := by
  rw [runUnits_eq_applyWrites, applyWrites_empty_get, List.flatMap_append,
    List.flatMap_cons, lastWrite_append, lastWrite_append,
    lastWrite_flatMap_unitWrites_eq_none htmlParse refreshStart post parsed.SID hlater,
    unitWrites_of_parsed htmlParse refreshStart unit htmlBytes parsed hf hp]
  simp [lastWrite]

/-- C10: let the units of one cycle run in the order in which they acquire the
accumulator lock.  The finished result set of `runUnits` holds at most one record per
identifier; for a unit whose document is parsed, when no later unit yields the same
identifier, it holds under that identifier the record that this unit computed, which
is the one written last for it; an identifier that one or more units yield, so also
one that two targets both yield, has exactly one entry, and its record is that of the
last unit that yields it; and an identifier that no unit yields has no entry. -/
theorem runUnits_last_write_wins (htmlParse : HtmlParser) (refreshStart : Time)
    (units : List (UnitEnv × String)) :
    (runUnits htmlParse refreshStart units ∅).keys.Nodup ∧
    (∀ sid, (runUnits htmlParse refreshStart units ∅).keys.count sid ≤ 1) ∧
    (∀ (pre post : List (UnitEnv × String)) (unit : UnitEnv × String) (htmlBytes : Bytes)
      (parsed : ParsedSubscription),
      units = pre ++ unit :: post →
      unit.1.fetched = .ok htmlBytes →
      ParseSubscription htmlParse htmlBytes = .ok parsed →
      (∀ later ∈ post, yieldedSID htmlParse later ≠ some parsed.SID) →
      (runUnits htmlParse refreshStart units ∅).get parsed.SID =
        some (Compute unit.1.now parsed refreshStart unit.1.clock)) ∧
    (∀ sid, (∃ unit ∈ units, yieldedSID htmlParse unit = some sid) →
      (runUnits htmlParse refreshStart units ∅).keys.count sid = 1 ∧
      ∃ (pre post : List (UnitEnv × String)) (unit : UnitEnv × String) (htmlBytes : Bytes)
        (parsed : ParsedSubscription),
        units = pre ++ unit :: post ∧ unit.1.fetched = .ok htmlBytes ∧
        ParseSubscription htmlParse htmlBytes = .ok parsed ∧ parsed.SID = sid ∧
        (∀ later ∈ post, yieldedSID htmlParse later ≠ some sid) ∧
        (runUnits htmlParse refreshStart units ∅).get sid =
          some (Compute unit.1.now parsed refreshStart unit.1.clock)) ∧
    (∀ sid, (∀ unit ∈ units, yieldedSID htmlParse unit ≠ some sid) →
      (runUnits htmlParse refreshStart units ∅).get sid = none ∧
      (runUnits htmlParse refreshStart units ∅).keys.count sid = 0) := by
  refine ⟨AList.keys_nodup _, ?_, ?_, ?_, ?_⟩
  · intro sid
    exact List.nodup_iff_count_le_one.mp (AList.keys_nodup _) sid
  · intro pre post unit htmlBytes parsed hunits hf hp hlater
    rw [hunits]
    exact runUnits_get_of_last htmlParse refreshStart pre post unit htmlBytes parsed hf hp
      hlater
  · intro sid hex
    constructor
    · obtain ⟨unit, hunit, hy⟩ := hex
      obtain ⟨m, hm⟩ := mem_unitWrites_of_yieldedSID htmlParse refreshStart unit sid hy
      rw [runUnits_eq_applyWrites]
      exact applyWrites_count_of_mem _ sid m (List.mem_flatMap.mpr ⟨unit, hunit, hm⟩)
    · obtain ⟨pre, unit, post, hsplit, hy, hlater⟩ :=
        exists_last_yielding htmlParse sid units hex
      obtain ⟨htmlBytes, parsed, hf, hp, hsid⟩ := parsed_of_yieldedSID htmlParse unit sid hy
      refine ⟨pre, post, unit, htmlBytes, parsed, hsplit, hf, hp, hsid, hlater, ?_⟩
      rw [hsplit, ← hsid]
      exact runUnits_get_of_last htmlParse refreshStart pre post unit htmlBytes parsed hf hp
        (by rw [hsid]; exact hlater)
  · intro sid hnone
    have hget : (runUnits htmlParse refreshStart units ∅).get sid = none := by
      rw [runUnits_eq_applyWrites, applyWrites_empty_get]
      exact lastWrite_flatMap_unitWrites_eq_none htmlParse refreshStart units sid hnone
    refine ⟨hget, ?_⟩
    apply List.count_eq_zero_of_not_mem
    intro hin
    have hmem : sid ∈ runUnits htmlParse refreshStart units ∅ := AList.mem_keys.mpr hin
    have hsome := AList.lookup_isSome.mpr hmem
    unfold GoMap.get at hget
    rw [hget] at hsome
    exact absurd hsome (by simp)

/-- Two targets that both yield `uk2jf33cdnzjn2dg`: the finished result set holds the
record of the unit that entered the section under the mutex last, in exactly one
entry. -/
theorem runUnits_last_write_wins_witness :
    (runUnits (parserOf successDoc) threeSecondsEarlier [earlyUnit, lateUnit] ∅).get
        "uk2jf33cdnzjn2dg" =
      some (Compute lateUnit.1.now
        { SID := "uk2jf33cdnzjn2dg", DownloadByte := 6150124543, UploadByte := 267143927,
          TotalByte := 536870912000, Expire := 1769184000 }
        threeSecondsEarlier lateUnit.1.clock) ∧
    (runUnits (parserOf successDoc) threeSecondsEarlier [earlyUnit, lateUnit] ∅).keys.count
        "uk2jf33cdnzjn2dg" = 1 :=
  ⟨(runUnits_last_write_wins (parserOf successDoc) threeSecondsEarlier
      [earlyUnit, lateUnit]).2.2.1 [earlyUnit] [] lateUnit []
      { SID := "uk2jf33cdnzjn2dg", DownloadByte := 6150124543, UploadByte := 267143927,
        TotalByte := 536870912000, Expire := 1769184000 }
      rfl rfl rfl (fun _ h => absurd h (List.not_mem_nil _)),
    ((runUnits_last_write_wins (parserOf successDoc) threeSecondsEarlier
      [earlyUnit, lateUnit]).2.2.2.1 "uk2jf33cdnzjn2dg"
      ⟨earlyUnit, List.mem_cons_self _ _, rfl⟩).1⟩

/-! ## NewFailedMetrics (claim C12) -/

theorem F64.round_zero : F64.round 0 = F64.fin 0 := by
  have := F64.round_intCast (z := 0) (by norm_num)
  simpa using this

/-- The seconds of a positive duration are finite and positive. -/
theorem Duration.Seconds_pos {d : Int} (h0 : 0 < d) (h : IsInt64 d) :
    ∃ z, Duration.Seconds d = F64.fin z ∧ 0 < z := by
  unfold IsInt64 minInt64 maxInt64 at h
  have hq : Int.tdiv d 1000000000 = d / 1000000000 :=
    Int.tdiv_eq_ediv h0.le (by norm_num)
  have hr : Int.tmod d 1000000000 = d % 1000000000 :=
    Int.tmod_eq_emod h0.le (by norm_num)
  have hsec0 : 0 ≤ d / 1000000000 := by omega
  have hsec1 : d / 1000000000 ≤ 9223372036 := by omega
  have hns0 : 0 ≤ d % 1000000000 := by omega
  have hns1 : d % 1000000000 < 1000000000 := by omega
  have hsum : 0 < d / 1000000000 ∨ 0 < d % 1000000000 := by omega
  have hsec : F64.ofInt64 (d / 1000000000) = F64.fin ((d / 1000000000 : Int) : ℚ) := by
    apply F64.ofInt64_of_small
    rw [abs_of_nonneg hsec0]
    omega
  have hns : F64.ofInt64 (d % 1000000000) = F64.fin ((d % 1000000000 : Int) : ℚ) := by
    apply F64.ofInt64_of_small
    rw [abs_of_nonneg hns0]
    omega
  have hsecq0 : (0 : ℚ) ≤ ((d / 1000000000 : Int) : ℚ) := by exact_mod_cast hsec0
  have hsecq1 : ((d / 1000000000 : Int) : ℚ) ≤ 9223372036 := by exact_mod_cast hsec1
  have hnsq0 : (0 : ℚ) ≤ ((d % 1000000000 : Int) : ℚ) := by exact_mod_cast hns0
  have hnsq1 : ((d % 1000000000 : Int) : ℚ) ≤ 1000000000 := by exact_mod_cast hns1.le
  -- the fraction of a second
  have hfrac : ∃ y, F64.div (F64.fin ((d % 1000000000 : Int) : ℚ)) (F64.fin 1000000000) =
      F64.fin y ∧ 0 ≤ y ∧ y ≤ 1 ∧ (0 < d % 1000000000 → 2 ^ (-30 : ℤ) ≤ y) := by
    have hne : (1000000000 : ℚ) ≠ 0 := by norm_num
    simp only [F64.div, if_neg hne]
    rcases eq_or_lt_of_le hns0 with hz | hpos
    · refine ⟨0, ?_, le_refl _, by norm_num, ?_⟩
      · rw [← hz]; simpa using F64.round_zero
      · intro hc; omega
    · have hposq : (1 : ℚ) ≤ ((d % 1000000000 : Int) : ℚ) := by exact_mod_cast hpos
      have hlo : (2 : ℚ) ^ (-30 : ℤ) ≤ ((d % 1000000000 : Int) : ℚ) / 1000000000 := by
        rw [le_div_iff₀ (by norm_num)]
        have : (2 : ℚ) ^ (-30 : ℤ) * 1000000000 ≤ 1 := by norm_num
        linarith
      have hhi : ((d % 1000000000 : Int) : ℚ) / 1000000000 ≤ 2 ^ (0 : ℤ) := by
        rw [div_le_iff₀ (by norm_num)]
        simpa using hnsq1
      obtain ⟨y, hy, hy1, hy2⟩ := F64.round_of_pos (j := -30) (k := 0) (by norm_num)
        (by norm_num) hlo hhi
      refine ⟨y, hy, ?_, by simpa using hy2, fun _ => hy1⟩
      exact le_trans (F64.two_zpow_pos (-30)).le hy1
  obtain ⟨y, hy, hy0, hy1, hypos⟩ := hfrac
  have hval : Duration.Seconds d =
      F64.round (((d / 1000000000 : Int) : ℚ) + y) := by
    unfold Duration.Seconds
    simp only [hq, hr, hsec, hns, hy, F64.add]
  have hlo : (2 : ℚ) ^ (-30 : ℤ) ≤ ((d / 1000000000 : Int) : ℚ) + y := by
    rcases hsum with hs | hn
    · have : (1 : ℚ) ≤ ((d / 1000000000 : Int) : ℚ) := by exact_mod_cast hs
      have h30 : (2 : ℚ) ^ (-30 : ℤ) ≤ 1 := by norm_num
      linarith
    · exact le_trans (hypos hn) (le_add_of_nonneg_left hsecq0)
  have hhi : ((d / 1000000000 : Int) : ℚ) + y ≤ 2 ^ (34 : ℤ) := by
    have : (9223372036 : ℚ) + 1 ≤ 2 ^ (34 : ℤ) := by norm_num
    linarith
  obtain ⟨z, hz, hz1, -⟩ := F64.round_of_pos (j := -30) (k := 34) (by norm_num)
    (by norm_num) hlo hhi
  exact ⟨z, by rw [hval, hz], lt_of_lt_of_le (F64.two_zpow_pos (-30)) hz1⟩

/-- The duration between two times that are less than a `time.Duration` apart, on
the clock that Go uses for them, is the exact time between them. -/
theorem Time.Sub_of_isInt64 (t u : Time) (h : IsInt64 (t.elapsedSince u)) :
    t.Sub u = t.elapsedSince u := by
  unfold IsInt64 minInt64 maxInt64 at h
  unfold Time.Sub Time.elapsedSince at *
  cases htm : t.mono with
  | none =>
    rw [htm] at h
    simp only at h ⊢
    unfold minDuration maxDuration minInt64 maxInt64
    rw [if_neg (by omega), if_neg (by omega)]
  | some tm =>
    cases hum : u.mono with
    | none =>
      rw [htm, hum] at h
      simp only at h ⊢
      unfold minDuration maxDuration minInt64 maxInt64
      rw [if_neg (by omega), if_neg (by omega)]
    | some um =>
      rw [htm, hum] at h
      simp only at h ⊢
      have hw : wrapInt64 (tm - um) = tm - um :=
        wrapInt64_of_isInt64 (by unfold IsInt64 minInt64 maxInt64; exact h)
      unfold subMono
      simp only [hw]
      rw [if_neg (by omega), if_neg (by omega)]

/-- A well-formed time that is before another one lies a positive time before it. -/
theorem Time.elapsedSince_pos_of_before (t u : Time) (ht : t.WellFormed) (hu : u.WellFormed)
    (h : u.Before t = true) : 0 < t.elapsedSince u := by
  unfold Time.WellFormed at ht hu
  unfold Time.Before at h
  unfold Time.elapsedSince
  cases hum : u.mono with
  | none =>
    rw [hum] at h
    simp only [decide_eq_true_eq] at h
    cases htm : t.mono <;> simp only <;> omega
  | some um =>
    cases htm : t.mono with
    | none =>
      rw [hum, htm] at h
      simp only [decide_eq_true_eq] at h
      simp only
      omega
    | some tm =>
      rw [hum, htm] at h
      simp only [decide_eq_true_eq] at h
      simp only
      omega

/-- The two parts, whole seconds and nanoseconds, of the largest `time.Duration`. -/
theorem Duration.Seconds_maxDuration_eq :
    Duration.Seconds 9223372036854775807 =
      F64.add (F64.ofInt64 9223372036)
        (F64.div (F64.ofInt64 854775807) (F64.fin 1000000000)) := by
  have hq : Int.tdiv 9223372036854775807 1000000000 = 9223372036 := by decide
  have hr : Int.tmod 9223372036854775807 1000000000 = 854775807 := by decide
  unfold Duration.Seconds
  simp only [hq, hr]

theorem F64.ofInt64_maxDuration_sec : F64.ofInt64 9223372036 = F64.fin 9223372036 := by
  have := F64.ofInt64_of_small (z := 9223372036) (by norm_num)
  simpa using this

theorem F64.ofInt64_maxDuration_nsec : F64.ofInt64 854775807 = F64.fin 854775807 := by
  have := F64.ofInt64_of_small (z := 854775807) (by norm_num)
  simpa using this

theorem F64.div_maxDuration_nsec :
    F64.div (F64.fin 854775807) (F64.fin 1000000000) = F64.round (854775807 / 1000000000) := by
  have hne : (1000000000 : ℚ) ≠ 0 := by norm_num
  simp only [F64.div, if_neg hne]

/-- The seconds of the largest `time.Duration` are at most `2 ^ 34`. -/
theorem Duration.Seconds_maxDuration_le :
    ∃ z, Duration.Seconds 9223372036854775807 = F64.fin z ∧ z ≤ 2 ^ (34 : ℤ) := by
  obtain ⟨y, hy, hy1, hy2⟩ := F64.round_of_pos (q := 854775807 / 1000000000) (j := -1) (k := 0)
    (by norm_num) (by norm_num) (by norm_num) (by norm_num)
  have hy2' : y ≤ 1 := by simpa using hy2
  have hy1' : 0 < y := lt_of_lt_of_le (F64.two_zpow_pos (-1)) hy1
  obtain ⟨z, hz, -, hz2⟩ := F64.round_of_pos (q := 9223372036 + y) (j := 33) (k := 34)
    (by norm_num) (by norm_num)
    (by have : (2 : ℚ) ^ (33 : ℤ) ≤ 9223372036 := by norm_num
        linarith)
    (by have : (9223372036 : ℚ) + 1 ≤ 2 ^ (34 : ℤ) := by norm_num
        linarith)
  refine ⟨z, ?_, hz2⟩
  rw [Duration.Seconds_maxDuration_eq, F64.ofInt64_maxDuration_sec,
    F64.ofInt64_maxDuration_nsec, F64.div_maxDuration_nsec, hy]
  exact hz

theorem Time.Sub_clockNow_zeroTime : clockNow.Sub zeroTime = 9223372036854775807 := by
  decide

/-- C12, as stated, fails: with `refreshStart` the zero value of `time.Time` and the
clock at 2025-01-01, the current time minus `refreshStart` is 63871286400 seconds,
but `Time.Sub` saturates at the largest `time.Duration` and
`RefreshDurationSeconds` is at most `2 ^ 34` (about 9223372036.85) seconds. -/
theorem NewFailedMetrics_duration_saturation_counterexample :
    clockNow.Unix - zeroTime.Unix = 63871286400 ∧
    clockNow.elapsedSince zeroTime = 63871286400 * 1000000000 ∧
    (NewFailedMetrics "failed123" zeroTime clockNow).RefreshDurationSeconds =
      Duration.Seconds 9223372036854775807 ∧
    ∃ z, (NewFailedMetrics "failed123" zeroTime clockNow).RefreshDurationSeconds = F64.fin z ∧
      z ≤ 2 ^ (34 : ℤ) ∧ (2 : ℚ) ^ (34 : ℤ) < ((clockNow.Unix - zeroTime.Unix : Int) : ℚ) := by
  have hd : (NewFailedMetrics "failed123" zeroTime clockNow).RefreshDurationSeconds =
      Duration.Seconds 9223372036854775807 := by
    simp only [NewFailedMetrics, Time.Sub_clockNow_zeroTime]
  have hu : clockNow.Unix - zeroTime.Unix = 63871286400 := by decide
  obtain ⟨z, hz, hz2⟩ := Duration.Seconds_maxDuration_le
  refine ⟨hu, by decide, hd, z, by rw [hd, hz], hz2, ?_⟩
  rw [hu]
  norm_num

/-- C12 (amended to times less than a `time.Duration` apart on the clock that Go
subtracts): for every identifier, every `refreshStart` and every reading `now` of the
clock such that the time from `refreshStart` to `now` — on the monotonic clock when
both carry a reading of it, as in the pipeline, on the wall clock otherwise — fits
`int64` nanoseconds, `NewFailedMetrics` returns a record with `SID = sid`,
`Up = false`, every raw and derived field zero, `LastRefreshTimestampSeconds` the
`float64` of the current Unix time (the Unix time itself when it is below `2 ^ 53` in
magnitude) and `RefreshDurationSeconds` the seconds of that time, finite and positive
whenever it is positive, in particular whenever `refreshStart` is before `now`. -/
theorem NewFailedMetrics_fields (sid : String) (refreshStart now : Time)
    (hfit : IsInt64 (now.elapsedSince refreshStart)) :
    (NewFailedMetrics sid refreshStart now).SID = sid ∧
    (NewFailedMetrics sid refreshStart now).Up = false ∧
    ((NewFailedMetrics sid refreshStart now).DownloadBytes = 0 ∧
      (NewFailedMetrics sid refreshStart now).UploadBytes = 0 ∧
      (NewFailedMetrics sid refreshStart now).QuotaBytes = 0 ∧
      (NewFailedMetrics sid refreshStart now).ExpireTimestampSeconds = 0 ∧
      (NewFailedMetrics sid refreshStart now).UsedBytes = 0 ∧
      (NewFailedMetrics sid refreshStart now).RemainingBytes = 0 ∧
      (NewFailedMetrics sid refreshStart now).UsedRatio = F64.zero ∧
      (NewFailedMetrics sid refreshStart now).RemainingRatio = F64.zero ∧
      (NewFailedMetrics sid refreshStart now).SecondsUntilExpire = 0 ∧
      (NewFailedMetrics sid refreshStart now).DaysUntilExpire = F64.zero ∧
      (NewFailedMetrics sid refreshStart now).Expired = 0 ∧
      (NewFailedMetrics sid refreshStart now).DailyBudgetBytes = F64.zero) ∧
    (NewFailedMetrics sid refreshStart now).LastRefreshTimestampSeconds =
      F64.ofInt64 now.Unix ∧
    (|now.Unix| < 2 ^ 53 →
      (NewFailedMetrics sid refreshStart now).LastRefreshTimestampSeconds =
        F64.fin (now.Unix : ℚ)) ∧
    (NewFailedMetrics sid refreshStart now).RefreshDurationSeconds =
      Duration.Seconds (now.elapsedSince refreshStart) ∧
    (0 < now.elapsedSince refreshStart →
      ∃ z, (NewFailedMetrics sid refreshStart now).RefreshDurationSeconds = F64.fin z ∧
        0 < z) ∧
    (now.WellFormed → refreshStart.WellFormed → refreshStart.Before now = true →
      ∃ z, (NewFailedMetrics sid refreshStart now).RefreshDurationSeconds = F64.fin z ∧
        0 < z) := by
  have hsub := Time.Sub_of_isInt64 now refreshStart hfit
  have hdur : (NewFailedMetrics sid refreshStart now).RefreshDurationSeconds =
      Duration.Seconds (now.elapsedSince refreshStart) := by
    simp only [NewFailedMetrics, hsub]
  refine ⟨rfl, rfl, ⟨rfl, rfl, rfl, rfl, rfl, rfl, rfl, rfl, rfl, rfl, rfl, rfl⟩, rfl, ?_,
    hdur, ?_, ?_⟩
  · intro hsmall
    exact F64.ofInt64_of_small hsmall
  · intro hpos
    rw [hdur]
    exact Duration.Seconds_pos hpos hfit
  · intro hn hr hb
    rw [hdur]
    exact Duration.Seconds_pos (Time.elapsedSince_pos_of_before now refreshStart hn hr hb) hfit

/-- The amended C12 applies to the call of `TestNewFailedMetrics`, where
`refreshStart` is three seconds before the reading of the clock: the record is down
and its duration is positive. -/
theorem NewFailedMetrics_fields_witness :
    IsInt64 (clockNow.elapsedSince threeSecondsEarlier) ∧
    threeSecondsEarlier.Before clockNow = true ∧
    (NewFailedMetrics "failed123" threeSecondsEarlier clockNow).Up = false ∧
    ∃ z, (NewFailedMetrics "failed123" threeSecondsEarlier clockNow).RefreshDurationSeconds =
      F64.fin z ∧ 0 < z :=
  ⟨by decide, by decide,
    (NewFailedMetrics_fields "failed123" threeSecondsEarlier clockNow (by decide)).2.1,
    (NewFailedMetrics_fields "failed123" threeSecondsEarlier clockNow (by decide)).2.2.2.2.2.2.2
      (by decide) (by decide) (by decide)⟩

/-- The seconds of a duration of one second. -/
theorem Duration.Seconds_one_second : Duration.Seconds 1000000000 = F64.fin 1 := by
  have hq : Int.tdiv 1000000000 1000000000 = 1 := by decide
  have hr : Int.tmod 1000000000 1000000000 = 0 := by decide
  have h1 : F64.ofInt64 1 = F64.fin 1 := by
    have := F64.ofInt64_of_small (z := 1) (by norm_num)
    simpa using this
  have h0 : F64.ofInt64 0 = F64.fin 0 := by
    have := F64.ofInt64_of_small (z := 0) (by norm_num)
    simpa using this
  have hr1 : F64.round 1 = F64.fin 1 := by
    have := F64.round_intCast (z := 1) (by norm_num)
    simpa using this
  have hdiv : F64.div (F64.fin 0) (F64.fin 1000000000) = F64.fin 0 := by
    have hne : (1000000000 : ℚ) ≠ 0 := by norm_num
    simp only [F64.div, if_neg hne, zero_div]
    exact F64.round_zero
  have hadd : F64.add (F64.fin 1) (F64.fin 0) = F64.fin 1 := by
    simp only [F64.add, add_zero]
    exact hr1
  unfold Duration.Seconds
  simp only [hq, hr]
  rw [h1, h0, hdiv, hadd]

/-- A step of the wall clock does not enter the duration: when the wall clock has
been set back ten seconds while one second has passed on the monotonic clock,
`RefreshDurationSeconds` is one second. -/
theorem NewFailedMetrics_after_step_back :
    clockAfterStepBack.Unix - clockNow.Unix = -9 ∧
    (NewFailedMetrics "failed123" clockNow clockAfterStepBack).RefreshDurationSeconds =
      F64.fin 1 := by
  have hsub : clockAfterStepBack.Sub clockNow = 1000000000 := by decide
  refine ⟨by decide, ?_⟩
  simp only [NewFailedMetrics, hsub]
  exact Duration.Seconds_one_second

/-! ## ParseTargetsFromEnv (claim C15) -/

theorem splitChars_ne_nil (sep : Char) (l : List Char) : splitChars sep l ≠ [] := by
  cases l with
  | nil => simp [splitChars]
  | cons c cs =>
    unfold splitChars
    split_ifs
    · simp
    · split <;> simp

theorem intercalate_cons_cons (sep x y : List Char) (ys : List (List Char)) :
    List.intercalate sep (x :: y :: ys) = x ++ sep ++ List.intercalate sep (y :: ys) := by
  simp [List.intercalate, List.intersperse]

/-- Joining the pieces of a split with the separator gives the sequence back. -/
theorem intercalate_splitChars (sep : Char) (l : List Char) :
    List.intercalate [sep] (splitChars sep l) = l := by
  induction l with
  | nil => simp [splitChars, List.intercalate]
  | cons c cs ih =>
    unfold splitChars
    split_ifs with h
    · cases hs : splitChars sep cs with
      | nil => exact absurd hs (splitChars_ne_nil sep cs)
      | cons p rest =>
        rw [intercalate_cons_cons, ← hs, ih, h]
        rfl
    · cases hs : splitChars sep cs with
      | nil => exact absurd hs (splitChars_ne_nil sep cs)
      | cons p rest =>
        rw [hs] at ih
        simp only
        cases rest with
        | nil =>
          simp only [List.intercalate, List.intersperse, List.flatten, List.append_nil] at ih ⊢
          rw [ih]
        | cons q rest2 =>
          rw [intercalate_cons_cons] at ih ⊢
          rw [← ih]
          simp

/-- No piece of a split contains the separator. -/
theorem not_mem_of_mem_splitChars (sep : Char) (l : List Char) :
    ∀ p ∈ splitChars sep l, sep ∉ p := by
  induction l with
  | nil => intro p hp; simp [splitChars] at hp; simp [hp]
  | cons c cs ih =>
    intro p hp
    unfold splitChars at hp
    split_ifs at hp with h
    · rcases List.mem_cons.mp hp with h1 | h1
      · simp [h1]
      · exact ih p h1
    · cases hs : splitChars sep cs with
      | nil => exact absurd hs (splitChars_ne_nil sep cs)
      | cons q rest =>
        rw [hs] at hp ih
        simp only at hp
        rcases List.mem_cons.mp hp with h1 | h1
        · rw [h1]
          intro hmem
          rcases List.mem_cons.mp hmem with h2 | h2
          · exact h h2.symm
          · exact ih q (List.mem_cons_self _ _) h2
        · exact ih p (List.mem_cons_of_mem _ h1)

theorem trimSpaceChars_eq_rdropWhile (s : List Char) :
    trimSpaceChars s = (s.dropWhile unicodeIsSpace).rdropWhile unicodeIsSpace := rfl

/-- What `strings.TrimSpace` returns does not start with white space. -/
theorem trimSpaceChars_head (s : List Char) (c : Char)
    (h : (trimSpaceChars s).head? = some c) : unicodeIsSpace c = false := by
  rw [trimSpaceChars_eq_rdropWhile] at h
  have hpre : (s.dropWhile unicodeIsSpace).rdropWhile unicodeIsSpace <+:
      s.dropWhile unicodeIsSpace := List.rdropWhile_prefix _ _
  obtain ⟨t, ht⟩ := hpre
  have hhead : (s.dropWhile unicodeIsSpace).head? = some c := by
    rw [← ht]
    cases hl : (s.dropWhile unicodeIsSpace).rdropWhile unicodeIsSpace with
    | nil => rw [hl] at h; exact absurd h (by simp)
    | cons a rest =>
      rw [hl] at h
      simpa using h
  have := List.head?_dropWhile_not unicodeIsSpace s
  rw [hhead] at this
  simpa using this

/-- What `strings.TrimSpace` returns does not end with white space. -/
theorem trimSpaceChars_getLast (s : List Char) (c : Char)
    (h : (trimSpaceChars s).getLast? = some c) : unicodeIsSpace c = false := by
  rw [trimSpaceChars_eq_rdropWhile] at h
  have hne : (s.dropWhile unicodeIsSpace).rdropWhile unicodeIsSpace ≠ [] := by
    intro hc
    rw [hc] at h
    exact absurd h (by simp)
  have hlast := List.rdropWhile_last_not (p := unicodeIsSpace)
    (l := s.dropWhile unicodeIsSpace) hne
  rw [List.getLast?_eq_getLast _ hne] at h
  have hc : ((s.dropWhile unicodeIsSpace).rdropWhile unicodeIsSpace).getLast hne = c :=
    Option.some.inj h
  rw [hc] at hlast
  simpa using hlast

theorem stringsTrimSpace_eq_empty_iff (s : String) :
    stringsTrimSpace s = "" ↔ trimSpaceChars s.data = [] := by
  unfold stringsTrimSpace
  constructor
  · intro h
    have := congrArg String.data h
    simpa using this
  · intro h
    rw [h]

/-- The loop of `ParseTargetsFromEnv` keeps, in order, the trimmed raw targets that
are not empty. -/
theorem collectTargets_eq (rawTargets : List String) :
    collectTargets rawTargets =
      (rawTargets.map stringsTrimSpace).filter fun t => decide (t ≠ "") := by
  have hgen : ∀ (l acc : List String),
      l.foldl (fun targets target =>
          if stringsTrimSpace target ≠ "" then targets ++ [stringsTrimSpace target]
          else targets) acc =
        acc ++ (l.map stringsTrimSpace).filter fun t => decide (t ≠ "") := by
    intro l
    induction l with
    | nil => intro acc; simp
    | cons x rest ih =>
      intro acc
      rw [List.foldl_cons, ih, List.map_cons, List.filter_cons]
      by_cases h : stringsTrimSpace x = ""
      · simp [h]
      · simp [h]
  unfold collectTargets
  simpa using hgen rawTargets []

/-- C15: for every value of `XUI_EXPORTER_TARGETS`, with its comma-separated pieces
(the pieces that contain no comma and that, joined by commas, give the value back),
`ParseTargetsFromEnv` returns an error if and only if the value is empty or every
piece is empty after trimming the surrounding white space; otherwise it returns, in
their original order and without deduplication, exactly the non-empty trimmed
pieces; a successful result is a non-empty list none of whose elements is empty or
has leading or trailing white space. -/
theorem ParseTargetsFromEnv_spec (env : String) :
    (List.intercalate [','] ((stringsSplit env ',').map String.data) = env.data ∧
      ∀ p ∈ stringsSplit env ',', ',' ∉ p.data) ∧
    ((∃ err, ParseTargetsFromEnv env = .error err) ↔
      env = "" ∨ ∀ p ∈ stringsSplit env ',', stringsTrimSpace p = "") ∧
    (¬ (env = "" ∨ ∀ p ∈ stringsSplit env ',', stringsTrimSpace p = "") →
      ParseTargetsFromEnv env =
        .ok (((stringsSplit env ',').map stringsTrimSpace).filter fun t => decide (t ≠ ""))) ∧
    (∀ targets, ParseTargetsFromEnv env = .ok targets →
      targets = ((stringsSplit env ',').map stringsTrimSpace).filter
        (fun t => decide (t ≠ "")) ∧
      targets ≠ [] ∧
      ∀ t ∈ targets, t ≠ "" ∧ ¬ hasLeadingSpace t ∧ ¬ hasTrailingSpace t) := by
  have hnil : collectTargets (stringsSplit env ',') = [] ↔
      ∀ p ∈ stringsSplit env ',', stringsTrimSpace p = "" := by
    rw [collectTargets_eq, List.filter_eq_nil_iff]
    constructor
    · intro h p hp
      have := h (stringsTrimSpace p) (List.mem_map_of_mem _ hp)
      simpa using this
    · intro h t ht
      obtain ⟨p, hp, rfl⟩ := List.mem_map.mp ht
      simp [h p hp]
  have hres : ParseTargetsFromEnv env =
      if env = "" then .error .notSet
      else if collectTargets (stringsSplit env ',') = [] then .error .noValidURLs
      else .ok (collectTargets (stringsSplit env ',')) := by
    unfold ParseTargetsFromEnv
    by_cases h1 : env = ""
    · simp [h1]
    · simp only [h1, if_false, List.length_eq_zero]
  refine ⟨⟨?_, ?_⟩, ?_, ?_, ?_⟩
  · unfold stringsSplit
    rw [List.map_map]
    have : (String.data ∘ String.mk) = id := by funext l; rfl
    rw [this, List.map_id, intercalate_splitChars]
  · intro p hp
    unfold stringsSplit at hp
    obtain ⟨l, hl, rfl⟩ := List.mem_map.mp hp
    exact not_mem_of_mem_splitChars ',' env.data l hl
  · rw [hres]
    by_cases h1 : env = ""
    · simp [h1]
    · by_cases h2 : collectTargets (stringsSplit env ',') = []
      · simp only [h1, h2, if_true, if_false, false_or]
        exact ⟨fun _ => hnil.mp h2, fun _ => ⟨_, rfl⟩⟩
      · simp only [h1, h2, if_false, false_or]
        constructor
        · rintro ⟨err, herr⟩
          exact absurd herr (by simp)
        · intro h
          exact absurd (hnil.mpr h) h2
  · intro h
    rw [hres]
    have h1 : ¬ env = "" := fun hc => h (Or.inl hc)
    have h2 : ¬ collectTargets (stringsSplit env ',') = [] :=
      fun hc => h (Or.inr (hnil.mp hc))
    rw [if_neg h1, if_neg h2, collectTargets_eq]
  · intro targets hok
    rw [hres] at hok
    by_cases h1 : env = ""
    · rw [if_pos h1] at hok
      exact absurd hok (by simp)
    · by_cases h2 : collectTargets (stringsSplit env ',') = []
      · rw [if_neg h1, if_pos h2] at hok
        exact absurd hok (by simp)
      · rw [if_neg h1, if_neg h2] at hok
        have ht : collectTargets (stringsSplit env ',') = targets := Except.ok.inj hok
        refine ⟨by rw [← ht, collectTargets_eq], by rw [← ht]; exact h2, ?_⟩
        intro t hmem
        rw [← ht, collectTargets_eq, List.mem_filter] at hmem
        obtain ⟨hmap, hne⟩ := hmem
        obtain ⟨p, -, rfl⟩ := List.mem_map.mp hmap
        refine ⟨by simpa using hne, ?_, ?_⟩
        · rintro ⟨c, hc, hsp⟩
          have := trimSpaceChars_head p.data c hc
          rw [this] at hsp
          exact absurd hsp (by simp)
        · rintro ⟨c, hc, hsp⟩
          have := trimSpaceChars_getLast p.data c hc
          rw [this] at hsp
          exact absurd hsp (by simp)

/-- `ParseTargetsFromEnv` on a value with surrounding white space, an empty piece and
a repeated target: the three targets are returned trimmed, in order, the repetition
kept. -/
theorem ParseTargetsFromEnv_example :
    ParseTargetsFromEnv " http://a , http://b,, http://a " =
      .ok ["http://a", "http://b", "http://a"] := rfl

/-! ## The limit on one fetch (claim C16) -/

/-- The request of `fetchOutcome` is cancelled from ten seconds on. -/
theorem cancelledAt_fetch (t : Int) :
    cancelledAt { Timeout := DefaultTimeout }
      (contextWithTimeout contextBackground fetchContextTimeout) t =
      decide (10 * Second ≤ t) := rfl

/-- A fetch whose body has not arrived within ten seconds fails. -/
theorem fetchOutcome_error_of_slow (url : String) (exchange : Exchange)
    (h : 10 * Second ≤ exchange.bodyTime) : ∃ err, fetchOutcome url exchange = .error err := by
  unfold fetchOutcome GetHTML
  cases exchange.requestError with
  | some err => exact ⟨_, rfl⟩
  | none =>
    simp only []
    cases hdo : Client.Do { Timeout := DefaultTimeout }
        (contextWithTimeout contextBackground fetchContextTimeout) exchange with
    | error err => exact ⟨_, rfl⟩
    | ok statusCode =>
      simp only []
      by_cases hs : statusCode ≠ 200
      · rw [if_pos hs]; exact ⟨_, rfl⟩
      · rw [if_neg hs]
        unfold readAllBody
        cases exchange.readError with
        | some err => exact ⟨_, rfl⟩
        | none =>
          simp only [cancelledAt_fetch, decide_eq_true h, if_true]
          exact ⟨_, rfl⟩

/-- A fetch that no failure disturbs and whose body arrives within ten seconds
returns the body. -/
theorem fetchOutcome_ok_of_fast (url : String) (exchange : Exchange)
    (hsound : exchange.Sound) (h : exchange.bodyTime < 10 * Second) :
    fetchOutcome url exchange = .ok exchange.body := by
  obtain ⟨hr, ht, hre, hs, hle⟩ := hsound
  have hb : ¬ 10 * Second ≤ exchange.bodyTime := not_le.mpr h
  have hh : ¬ 10 * Second ≤ exchange.headerTime := not_le.mpr (lt_of_le_of_lt hle h)
  unfold fetchOutcome GetHTML Client.Do readAllBody
  simp only [hr, ht, hre, hs, cancelledAt_fetch, decide_eq_false hb, decide_eq_false hh]
  rfl

/-- C16, as stated, fails: a server that answers with status 200 and delivers the
body after twelve seconds, within the 15 seconds of the claim, gets its fetch
cancelled, because the HTTP client of `GetHTML` gives up after `DefaultTimeout`, 10
seconds, before the 15-second deadline of the context of `fetchAndProcess`; so the
smallest of the limits on one request is not 15 seconds. -/
theorem fetchOutcome_fifteen_seconds_counterexample :
    slowExchange.Sound ∧ slowExchange.bodyTime < 15 * Second ∧
    fetchOutcome "http://a.example/sub/x" slowExchange =
      .error "failed to read response body: context deadline exceeded" ∧
    effectiveFetchLimit ≠ some (15 * Second) :=
  ⟨by decide, by decide, rfl, by decide⟩

/-- C16 (amended to the limit the code has): the limit that bounds each target's
fetch is fixed at 10 seconds.  `fetchAndProcess` places a context deadline of 15
seconds on the request and `GetHTML` an HTTP client timeout of `DefaultTimeout`, 10
seconds, and the effective limit, the smallest of the two, equals 10 seconds: a
fetch whose response has not arrived in full within 10 seconds returns an error, and
its unit leaves the accumulator as it was; a fetch that no failure disturbs and
whose response arrives in full within 10 seconds returns the body. -/
theorem fetchOutcome_limit_ten_seconds :
    effectiveFetchLimit = some (10 * Second) ∧
    (∀ (url : String) (exchange : Exchange), 10 * Second ≤ exchange.bodyTime →
      ∃ err, fetchOutcome url exchange = .error err) ∧
    (∀ (url : String) (exchange : Exchange), exchange.Sound →
      exchange.bodyTime < 10 * Second → fetchOutcome url exchange = .ok exchange.body) ∧
    (∀ (htmlParse : HtmlParser) (url : String) (exchange : Exchange) (now clock : Time)
      (refreshStart : Time) (snapshot : Snapshot), 10 * Second ≤ exchange.bodyTime →
      fetchAndProcess htmlParse
        { fetched := fetchOutcome url exchange, now := now, clock := clock } url
        refreshStart snapshot = snapshot) := by
  refine ⟨by decide, fetchOutcome_error_of_slow, fetchOutcome_ok_of_fast, ?_⟩
  intro htmlParse url exchange now clock refreshStart snapshot h
  obtain ⟨err, herr⟩ := fetchOutcome_error_of_slow url exchange h
  exact fetchAndProcess_of_failed htmlParse _ url refreshStart snapshot (Or.inl ⟨err, herr⟩)

/-- A fetch of nine seconds succeeds, one of twelve seconds fails. -/
theorem fetchOutcome_nine_and_twelve_seconds :
    fetchOutcome "http://a.example/sub/x" nineSecondExchange = .ok [] ∧
    ∃ err, fetchOutcome "http://a.example/sub/x" slowExchange = .error err :=
  ⟨fetchOutcome_ok_of_fast _ nineSecondExchange (by decide) (by decide),
    fetchOutcome_error_of_slow _ slowExchange (by decide)⟩

end XuiExporter
